import Mathlib

/-!
# Gazelle lstack: data plane and POSIX shim

A shallow embedding of `src/lstack/core/lstack_lwip.c`, `src/lstack/api/lstack_wrap.c`
and `src/lstack/api/lstack_rtw_api.c`, with theorems about the embedded functions.

Conventions.
* A byte is a `Nat`. Memory regions are lists of bytes.
* A C pointer that may be `NULL` is an `Option`.
* A function whose C body has a loop is written with a `fuel` argument and the loop guard
  of the source; it returns `none` when the fuel runs out or when the C code would
  dereference `NULL`. The theorems show that `some` result is produced.
* DPDK rings, lwIP pbuf helpers and the securec helpers are libraries outside the
  repository; they are modelled after their documented behaviour.
-/

namespace Gazelle

/-! ## Constants -/

def EAGAIN : Int := 11
def EINVAL : Int := 22
def EBADF : Int := 9
def ENOENT : Int := 2
def ENOBUFS : Int := 105
def EPOLLIN : Nat := 1
def MSG_PEEK : Nat := 2
def AF_UNSPEC : Int := 0
def AF_INET : Int := 2
def SOCK_STREAM : Nat := 1
def SOCK_DGRAM : Nat := 2
def SOCK_RAW : Nat := 3
def SOCK_TYPE_MASK : Nat := 0xf

/-- The range of a C `u16_t`. -/
def U16_MAX1 : Nat := 65536

/-! ## lwIP packet buffers -/

/-- The lwIP `struct pbuf`: `payload` is the memory from the payload pointer to the end of
the buffer's region, `len` the bytes of this buffer that are data, `tot_len` the data bytes
of this buffer and all that follow it in the chain. `last` has `next == NULL`. -/
inductive pbuf where
  | last (payload : List Nat) (len : Nat) (tot_len : Nat) : pbuf
  | link (payload : List Nat) (len : Nat) (tot_len : Nat) (next : pbuf) : pbuf
deriving DecidableEq, Repr

namespace pbuf

def payload : pbuf → List Nat
  | last pl _ _ => pl
  | link pl _ _ _ => pl

def len : pbuf → Nat
  | last _ l _ => l
  | link _ l _ _ => l

def tot_len : pbuf → Nat
  | last _ _ t => t
  | link _ _ t _ => t

def next : pbuf → Option pbuf
  | last _ _ _ => none
  | link _ _ _ n => some n

/-- The assignment `p->len = v`. -/
def set_len (v : Nat) : pbuf → pbuf
  | last pl _ t => last pl v t
  | link pl _ t n => link pl v t n

/-- The assignment `p->tot_len = v`. -/
def set_tot_len (v : Nat) : pbuf → pbuf
  | last pl l _ => last pl l v
  | link pl l _ n => link pl l v n

/-- The data bytes a chain carries, in order. -/
def data : pbuf → List Nat
  | last pl l _ => pl.take l
  | link pl l _ n => pl.take l ++ data n

/-- The lwIP chain invariant: each buffer's data lies inside its memory, `tot_len` is the
sum of the `len` fields from here on, and both fit a `u16_t`. -/
def wf : pbuf → Prop
  | last pl l t => l ≤ pl.length ∧ t = l ∧ t < U16_MAX1
  | link pl l t n => l ≤ pl.length ∧ t = l + n.tot_len ∧ t < U16_MAX1 ∧ wf n

instance decWf : (p : pbuf) → Decidable p.wf
  | last pl l t => by unfold wf; exact inferInstance
  | link pl l t n => by
      unfold wf
      have := decWf n
      exact inferInstance

end pbuf

/-- C `memcpy(dst, src, n)`: the first `n` bytes of `dst` are replaced by those of `src`. -/
def memcpy (dst src : List Nat) (n : Nat) : List Nat :=
  src.take n ++ dst.drop n

/-- Writing `src` into the region `dst` at byte offset `off`. -/
def memcpy_at (dst : List Nat) (off : Nat) (src : List Nat) : List Nat :=
  dst.take off ++ src ++ dst.drop (off + src.length)

/-- The copy loop of lwIP `pbuf_take`: `total` bytes of `dataptr` go into the chain,
`min(total, p->len)` into each buffer. -/
def pbuf_take_loop : pbuf → List Nat → Nat → pbuf
  | pbuf.last pl l t, d, total =>
      if total = 0 then pbuf.last pl l t
      else pbuf.last (memcpy pl d (min total l)) l t
  | pbuf.link pl l t n, d, total =>
      if total = 0 then pbuf.link pl l t n
      else pbuf.link (memcpy pl d (min total l)) l t
        (pbuf_take_loop n (d.drop (min total l)) (total - min total l))

/-- lwIP `pbuf_take(buf, dataptr, len)`: refuses (copies nothing) when the chain is shorter
than `len`. Its error code is dropped by the caller and is not modelled. -/
def pbuf_take (buf : pbuf) (dataptr : List Nat) (len : Nat) : pbuf :=
  if buf.tot_len < len then buf else pbuf_take_loop buf dataptr len

/-- lwIP `pbuf_copy_partial(buf, dataptr, len, offset)`: the bytes it stores at `dataptr`. -/
def pbuf_copy_partial : pbuf → Nat → Nat → List Nat
  | pbuf.last pl l _, len, offset =>
      if len = 0 then []
      else if offset ≠ 0 ∧ offset ≥ l then []
      else ((pl.take l).drop offset).take (min (l - offset) len)
  | pbuf.link pl l _ n, len, offset =>
      if len = 0 then []
      else if offset ≠ 0 ∧ offset ≥ l then pbuf_copy_partial n len (offset - l)
      else ((pl.take l).drop offset).take (min (l - offset) len)
        ++ pbuf_copy_partial n (len - min (l - offset) len) 0

/-- lwIP `pbuf_remove_header(p, n)` for `n <= p->len`: the payload pointer moves forward. -/
def pbuf_remove_header : pbuf → Nat → pbuf
  | pbuf.last pl l t, n => pbuf.last (pl.drop n) (l - n) (t - n)
  | pbuf.link pl l t nx, n => pbuf.link (pl.drop n) (l - n) (t - n) nx

/-- lwIP `pbuf_free_header(q, size)`: drops `size` bytes from the front of the chain. The
result is the remaining chain (`none` for `NULL`) and the buffers it freed, in order. -/
def pbuf_free_header : pbuf → Nat → Option pbuf × List pbuf
  | pbuf.last pl l t, free_left =>
      if free_left = 0 then (some (pbuf.last pl l t), [])
      else if free_left ≥ l then (none, [pbuf.last pl l t])
      else (some (pbuf_remove_header (pbuf.last pl l t) free_left), [])
  | pbuf.link pl l t n, free_left =>
      if free_left = 0 then (some (pbuf.link pl l t n), [])
      else if free_left ≥ l then
        ((pbuf_free_header n (free_left - l)).1,
          pbuf.last pl l t :: (pbuf_free_header n (free_left - l)).2)
      else (some (pbuf_remove_header (pbuf.link pl l t n) free_left), [])

/-! ## DPDK rings -/

/-- A DPDK `rte_ring` of pbuf pointers, used single-producer / single-consumer. -/
structure rte_ring where
  capacity : Nat
  objs : List pbuf
deriving DecidableEq, Repr

def rte_ring_count (r : rte_ring) : Nat := r.objs.length

def rte_ring_free_count (r : rte_ring) : Nat := r.capacity - r.objs.length

/-- DPDK `rte_ring_sp_enqueue`: returns 0, or `-ENOBUFS` when there is no room. -/
def rte_ring_sp_enqueue (r : rte_ring) (obj : pbuf) : Int × rte_ring :=
  if r.objs.length < r.capacity then (0, { r with objs := r.objs ++ [obj] })
  else (-ENOBUFS, r)

/-- DPDK `rte_ring_sc_dequeue`: returns 0 and the oldest object, or `-ENOENT` when empty. -/
def rte_ring_sc_dequeue (r : rte_ring) : Int × Option pbuf × rte_ring :=
  match r.objs with
  | [] => (-ENOENT, none, r)
  | p :: rest => (0, some p, { r with objs := rest })

/-- The bytes held by the buffers of a ring, oldest first. -/
def ring_data (r : rte_ring) : List Nat := (r.objs.map pbuf.data).flatten

/-! ## Descriptor and worker state -/

/-- The counters of `struct gazelle_stack_stat` the data plane touches. -/
structure gazelle_stack_stat where
  app_write_cnt : Nat := 0
  app_write_idlefail : Nat := 0
  app_write_drop : Nat := 0
  app_read_cnt : Nat := 0
  write_lwip_cnt : Nat := 0
  write_lwip_drop : Nat := 0
  read_lwip_cnt : Nat := 0
  read_lwip_drop : Nat := 0
deriving DecidableEq, Repr

/-- The fields of `struct sockaddr_in` used here; `sin_port` is the 16-bit value as stored,
in network byte order. -/
structure sockaddr_in where
  sin_family : Int
  sin_port : Nat
  sin_addr : Nat
deriving DecidableEq, Repr

/-- The commands the application side posts to a worker's RPC queue. -/
inductive rpc_msg where
  | replenish_idlembuf : rpc_msg
  | addevent (fd : Int) (event : Nat) : rpc_msg
  | close (fd : Int) : rpc_msg
  | shutdown (fd : Int) (how : Int) : rpc_msg
  | bind (fd : Int) (name : sockaddr_in) (namelen : Nat) : rpc_msg
  | listen (fd : Int) (backlog : Int) : rpc_msg
  | shadow_fd (fd : Int) (name : sockaddr_in) (namelen : Nat) : rpc_msg
  | accept (fd : Int) (flags : Int) : rpc_msg
  | connect (fd : Int) (name : sockaddr_in) (namelen : Nat) : rpc_msg
  | getsockname (fd : Int) : rpc_msg
  | getpeername (fd : Int) : rpc_msg
  | getsockopt (fd : Int) (level : Int) (optname : Int) : rpc_msg
  | setsockopt (fd : Int) (level : Int) (optname : Int) : rpc_msg
  | socket (domain : Int) (type : Nat) (protocol : Int) : rpc_msg
deriving DecidableEq, Repr

/-- The fields of `struct protocol_stack` used here. `rpc_queue` lists the commands posted
to the worker, oldest first; `recv_list` holds the descriptors linked in the recv-list. -/
structure protocol_stack where
  send_idle_ring : rte_ring
  stats : gazelle_stack_stat := {}
  rpc_queue : List rpc_msg := []
  recv_list : List Int := []
  conn_num : Nat := 0
deriving DecidableEq, Repr

/-- The connection-kind tag of a descriptor. -/
inductive conn_kind where
  | LIBOS : conn_kind
  | HOST : conn_kind
  | UDP : conn_kind
  | TCP : conn_kind
deriving DecidableEq, Repr

/-- The fields of lwIP's `struct netconn` used here: the non-blocking flag read by
`netconn_is_nonblocking`, the connection-kind tag, the master-clone flag `is_master_fd`,
the ACCEPT-IN flag read by `NETCONN_IS_ACCEPTIN`, the ring of the receive mailbox
`recvmbox` (`none` when there is no mailbox), whether `pcb.tcp` is not `NULL`, and the
flag `NETCONN_FLAG_CHECK_WRITESPACE`. -/
structure netconn where
  nonblocking : Bool := true
  conn_type : Option conn_kind := none
  is_master_fd : Nat := 0
  acceptin : Bool := false
  recvmbox : Option rte_ring := none
  pcb_tcp : Bool := true
  check_writespace : Bool := false
deriving DecidableEq, Repr

/-- The tag of a wakeup object (`enum wakeup_type`). -/
inductive wakeup_type where
  | WAKEUP_EPOLL : wakeup_type
  | WAKEUP_POLL : wakeup_type
deriving DecidableEq, Repr

/-- The fields of `struct wakeup_poll` used here. -/
structure wakeup_poll where
  type : wakeup_type := wakeup_type.WAKEUP_POLL
  epollfd : Int := -1
deriving DecidableEq, Repr

/-- The fields of `struct lwip_sock` used here. `stack` is the index of the owning worker.
A `struct lwip_sock *` is represented by the descriptor the socket belongs to, which is
also what `sock->conn->callback_arg.socket` holds; `listen_next` is such a pointer. The
two source files name the wakeup field `weakup` and `wakeup`; both are kept. -/
structure lwip_sock where
  conn : Option netconn := some {}
  recv_ring : Option rte_ring
  send_ring : Option rte_ring
  recv_lastdata : Option pbuf := none
  send_lastdata : Option pbuf := none
  stack : Option Nat := some 0
  weakup : Option Nat := none
  events : Nat := 0
  nextfd : Int := 0
  in_event : Nat := 0
  recv_flags : Nat := 0
  listen_next : Option Int := none
  wakeup : Option wakeup_poll := none
  epoll_events : Nat := 0
deriving DecidableEq, Repr

/-- The process state the data plane works on: the socket table behind `get_socket`, the
workers, `errno`, the log `freed` of buffers handed back to their pool (the arguments of
the `pbuf_free` and `rte_pktmbuf_free` calls, oldest first; a chain is freed as a whole),
the log `freed_rings` of rings released with `rte_ring_free`, as they were then, the number
`stack_num` of workers of the stack group, and the log `rpc_log` of the synchronous RPC
calls made, each with the index of the worker it was posted to, oldest first. -/
structure lstack where
  sockets : Int → Option lwip_sock
  stack_group : Nat → protocol_stack
  errno : Int := 0
  freed : List pbuf := []
  freed_rings : List rte_ring := []
  stack_num : Nat := 1
  rpc_log : List (Nat × rpc_msg) := []

def get_socket (st : lstack) (fd : Int) : Option lwip_sock := st.sockets fd

/-- The assignment `*get_socket(fd) = sock`. -/
def set_socket (st : lstack) (fd : Int) (sock : lwip_sock) : lstack :=
  { st with sockets := fun i => if i = fd then some sock else st.sockets i }

/-- The assignment `*stack_ptr = stack` for the worker of index `idx`. -/
def set_stack (st : lstack) (idx : Nat) (stack : protocol_stack) : lstack :=
  { st with stack_group := fun i => if i = idx then stack else st.stack_group i }

/-- Modelled from the spec: the macro `GAZELLE_RETURN` of `gazelle_base_func.h` is not in
the sources; a failure sets `errno` to the error kind and returns the POSIX sentinel -1. -/
def GAZELLE_RETURN (err : Int) (st : lstack) : lstack × Int :=
  ({ st with errno := err }, -1)

/-- Modelled from the spec: `rpc_call_replenish_idlembuf` (`lstack_thread_rpc.c`) is not in
the sources; it posts a `ReplenishIdle` command to the worker's RPC queue. -/
def rpc_call_replenish_idlembuf (stack : protocol_stack) : protocol_stack :=
  { stack with rpc_queue := stack.rpc_queue ++ [rpc_msg.replenish_idlembuf] }

/-- Modelled from the spec: `rpc_call_addevent` (`lstack_thread_rpc.c`) is not in the
sources; it posts an `AddEvent(sock, event)` command to the worker's RPC queue. -/
def rpc_call_addevent (stack : protocol_stack) (fd : Int) (event : Nat) : protocol_stack :=
  { stack with rpc_queue := stack.rpc_queue ++ [rpc_msg.addevent fd event] }

/-! ## `write_stack_data` -/

/-- The variables the loop of `write_stack_data` changes. -/
structure write_vars where
  send_ring : rte_ring
  stack : protocol_stack
  freed : List pbuf
  send_len : Nat
  send_pkt : Nat
deriving DecidableEq, Repr

/-- The loop of `write_stack_data` (lines 260-281): `while (send_len < len && send_pkt <
idle_cont)`. `buf` is the caller's memory, `len` the requested length. -/
def write_stack_data_loop (buf : List Nat) (len idle_cont : Nat) :
    Nat → write_vars → Option write_vars
  | 0, _ => none
  | fuel + 1, v =>
    if v.send_len < len ∧ v.send_pkt < idle_cont then
      match rte_ring_sc_dequeue v.stack.send_idle_ring with
      | (_, none, _) =>
          -- ret < 0: app_write_idlefail++; break
          some { v with stack := { v.stack with
            stats := { v.stack.stats with
              app_write_idlefail := v.stack.stats.app_write_idlefail + 1 } } }
      | (_, some p, idle) =>
          let copy_len := if len - v.send_len > p.len then p.len else len - v.send_len
          let p1 := pbuf_take p (buf.drop v.send_len) copy_len
          let p2 := (p1.set_len (copy_len % U16_MAX1)).set_tot_len (copy_len % U16_MAX1)
          let stack1 := { v.stack with send_idle_ring := idle }
          match rte_ring_sp_enqueue v.send_ring p2 with
          | (ret, ring) =>
            if ret ≠ 0 then
              -- app_write_drop++; gazelle_free_pbuf(pbuf); break
              some { v with
                stack := { stack1 with
                  stats := { stack1.stats with app_write_drop := stack1.stats.app_write_drop + 1 } }
                freed := v.freed ++ [p2] }
            else
              write_stack_data_loop buf len idle_cont fuel
                { send_ring := ring
                  stack := { stack1 with
                    stats := { stack1.stats with app_write_cnt := stack1.stats.app_write_cnt + 1 } }
                  freed := v.freed
                  send_len := v.send_len + copy_len
                  send_pkt := v.send_pkt + 1 }
    else some v

/-- The function `write_stack_data(fd, buf, len)` of `lstack_lwip.c`. `VDEV_IDLE_QUEUE_SZ`
is a macro of a header outside the sources; it is a parameter. The loop runs at most
`idle_cont` times, so `idle_cont + 1` fuel lets it reach its exit. -/
def write_stack_data (VDEV_IDLE_QUEUE_SZ : Nat) (st : lstack) (fd : Int) (buf : List Nat)
    (len : Nat) : Option (lstack × Int) :=
  match get_socket st fd with
  | none => some (GAZELLE_RETURN EINVAL st)
  | some sock =>
    match sock.send_ring with
    | none => none
    | some send_ring =>
      let free_count := rte_ring_free_count send_ring
      if free_count = 0 then some (GAZELLE_RETURN EAGAIN st)
      else
        match sock.stack with
        | none => none
        | some idx =>
          let stack := st.stack_group idx
          let idle_cont := rte_ring_count stack.send_idle_ring
          match write_stack_data_loop buf len idle_cont (idle_cont + 1)
              { send_ring := send_ring, stack := stack, freed := st.freed,
                send_len := 0, send_pkt := 0 } with
          | none => none
          | some v =>
            let stack1 :=
              if rte_ring_free_count v.stack.send_idle_ring > VDEV_IDLE_QUEUE_SZ >>> 2 then
                rpc_call_replenish_idlembuf v.stack
              else v.stack
            let st1 := set_socket st fd { sock with send_ring := some v.send_ring }
            let st2 := set_stack st1 idx stack1
            some ({ st2 with freed := v.freed }, (v.send_len : Int))

/-! ## `read_stack_data` -/

/-- The variables the loop of `read_stack_data` changes; `buf` is the caller's memory. -/
structure read_vars where
  recv_ring : rte_ring
  recv_lastdata : Option pbuf
  stats : gazelle_stack_stat
  freed : List pbuf
  buf : List Nat
  recvd : Nat
  recv_left : Nat
deriving DecidableEq, Repr

/-- Lines 358-365 of `read_stack_data`: the buffer an iteration works on is the residue
`recv_lastdata` when there is one, else the buffer dequeued from the receive ring; `none`
when the dequeue fails (the loop breaks). The second component is the ring afterwards. -/
def read_stack_data_pick (v : read_vars) : Option (pbuf × rte_ring) :=
  match v.recv_lastdata with
  | some p => some (p, v.recv_ring)
  | none =>
    match rte_ring_sc_dequeue v.recv_ring with
    | (_, some p, ring) => some (p, ring)
    | (_, none, _) => none

/-- The loop of `read_stack_data` (lines 357-380): `while (recv_left > 0)`. -/
def read_stack_data_loop : Nat → read_vars → Option read_vars
  | 0, _ => none
  | fuel + 1, v =>
    if v.recv_left > 0 then
      match read_stack_data_pick v with
      | none => some v
      | some (p, ring) =>
        let copy_len := if v.recv_left > p.tot_len then p.tot_len else v.recv_left % U16_MAX1
        let buf1 := memcpy_at v.buf v.recvd ( pbuf_copy_partial p copy_len 0)
        if (p.tot_len : Int) - (copy_len : Int) > 0 then
          read_stack_data_loop fuel
            { recv_ring := ring
              recv_lastdata := (pbuf_free_header p copy_len).1
              stats := v.stats
              freed := v.freed ++ (pbuf_free_header p copy_len).2
              buf := buf1
              recvd := v.recvd + copy_len
              recv_left := v.recv_left - copy_len }
        else
          read_stack_data_loop fuel
            { recv_ring := ring
              recv_lastdata := none
              stats := { v.stats with app_read_cnt := v.stats.app_read_cnt + 1 }
              freed := v.freed ++ [p]
              buf := buf1
              recvd := v.recvd + copy_len
              recv_left := v.recv_left - copy_len }
    else some v

/-- The function `read_stack_data(fd, buf, len, flags)` of `lstack_lwip.c`; the result
carries the caller's memory after the call. An iteration either takes a buffer off the
receive ring or uses up the residue, so `rte_ring_count(recv_ring) + 2` fuel lets the loop
reach its exit. -/
def read_stack_data (st : lstack) (fd : Int) (buf : List Nat) (len : Nat) (flags : Nat) :
    Option (lstack × Int × List Nat) :=
  match get_socket st fd with
  | none => some ((GAZELLE_RETURN EINVAL st).1, (GAZELLE_RETURN EINVAL st).2, buf)
  | some sock0 =>
    let sock := { sock0 with recv_flags := flags }
    match sock.recv_ring, sock.stack with
    | some recv_ring, some idx =>
      let stack := st.stack_group idx
      match read_stack_data_loop (rte_ring_count recv_ring + 2)
          { recv_ring := recv_ring, recv_lastdata := sock.recv_lastdata, stats := stack.stats,
            freed := st.freed, buf := buf, recvd := 0, recv_left := len } with
      | none => none
      | some v =>
        let stack1 := { stack with stats := v.stats }
        let stack2 :=
          if rte_ring_count v.recv_ring ≠ 0 ∨ v.recv_lastdata.isSome then
            if sock.in_event = 0 then rpc_call_addevent stack1 fd EPOLLIN else stack1
          else stack1
        let st1 := set_socket st fd
          { sock with recv_ring := some v.recv_ring, recv_lastdata := v.recv_lastdata }
        let st2 := { set_stack st1 idx stack2 with freed := v.freed }
        if v.recvd = 0 then some ((GAZELLE_RETURN EAGAIN st2).1, (GAZELLE_RETURN EAGAIN st2).2, v.buf)
        else some (st2, (v.recvd : Int), v.buf)
    | _, _ => none

/-! ## `gazelle_clean_sock` -/

/-- The function `gazelle_clean_sock(fd)` of `lstack_lwip.c`. `rte_ring_free` releases the
ring's memory and touches none of the objects in it; the ring fields of the socket are not
cleared by the source. `list_del_node_init` unlinks the descriptor from the recv-list. -/
def gazelle_clean_sock (st : lstack) (fd : Int) : lstack :=
  match get_socket st fd with
  | none => st
  | some sock =>
    let rings1 := match sock.recv_ring with
      | some r => st.freed_rings ++ [r]
      | none => st.freed_rings
    let rings2 := match sock.send_ring with
      | some r => rings1 ++ [r]
      | none => rings1
    let sock1 := { sock with stack := none, weakup := none, events := 0, nextfd := 0 }
    let freed1 := match sock1.recv_lastdata with
      | some p => st.freed ++ [p]
      | none => st.freed
    let sock2 := { sock1 with recv_lastdata := none }
    let freed2 := match sock2.send_lastdata with
      | some p => freed1 ++ [p]
      | none => freed1
    let sock3 := { sock2 with send_lastdata := none }
    { set_socket st fd sock3 with
      stack_group := fun i =>
        { st.stack_group i with recv_list := (st.stack_group i).recv_list.filter (· ≠ fd) }
      freed := freed2
      freed_rings := rings2 }

/-! ## The POSIX shim: `do_socket`, `is_dst_ip_localhost`, `do_connect` -/

/-- The result of the path selectors (`enum KERNEL_LWIP_PATH`). -/
inductive posix_path where
  | PATH_KERNEL : posix_path
  | PATH_LWIP : posix_path
  | PATH_UNKNOW : posix_path
deriving DecidableEq, Repr

/-- The calls the shim makes into the host table `posix_api` and into the fast-path table
`g_wrap_api`, in the order made. -/
inductive shim_call where
  | posix_socket (domain : Int) (type : Nat) (protocol : Int) : shim_call
  | wrap_socket (domain : Int) (type : Nat) (protocol : Int) : shim_call
  | posix_connect (s : Int) (name : sockaddr_in) (namelen : Nat) : shim_call
  | wrap_connect (s : Int) (name : sockaddr_in) (namelen : Nat) : shim_call
  | posix_setsockopt (s : Int) (level : Int) (optname : Int) : shim_call
  | wrap_setsockopt (s : Int) (level : Int) (optname : Int) : shim_call
  | posix_getsockopt (s : Int) (level : Int) (optname : Int) : shim_call
  | wrap_getsockopt (s : Int) (level : Int) (optname : Int) : shim_call
  | posix_close (s : Int) : shim_call
  | wrap_close (s : Int) : shim_call
  | posix_poll (nfds : Nat) (timeout : Int) : shim_call
  | wrap_poll (nfds : Nat) (timeout : Int) : shim_call
  | posix_epoll_wait (epfd : Int) (maxevents : Int) (timeout : Int) : shim_call
  | wrap_epoll_wait (epfd : Int) (maxevents : Int) (timeout : Int) : shim_call
deriving DecidableEq, Repr

/-- What the shim functions see of their surroundings: the path selectors
(`select_posix_path`, `select_fd_posix_path`, defined outside the sources), the
configuration (`udp_enable`, `host_addr`), the results of the host and fast-path entry
points, the lines of `/proc/net/dev` (`none` when `fopen` fails), whether `malloc`
succeeds, the address `get_addr` finds for an interface name (`none` when it returns -1),
and the names known to `rte_ring_lookup`. `posix_api_null` says whether the pointer
`posix_api` is `NULL`, which only `do_close` tests; `ues_posix` is the flag of that name in
the host table. -/
structure shim_env where
  select_posix_path : posix_path
  select_fd_posix_path : Int → posix_path
  udp_enable : Bool
  host_addr : Nat
  posix_socket_fn : Int → Nat → Int → Int
  wrap_socket_fn : lstack → Int → Nat → Int → lstack × Int
  posix_connect_fn : Int → sockaddr_in → Nat → Int
  wrap_connect_fn : Int → sockaddr_in → Nat → Int
  proc_net_dev : Option (List (List Char))
  malloc_ok : Bool
  get_addr : List Char → Option Nat
  rte_ring_lookup : String → Bool
  posix_setsockopt_fn : Int → Int → Int → Int
  wrap_setsockopt_fn : Int → Int → Int → Int
  posix_getsockopt_fn : Int → Int → Int → Int
  wrap_getsockopt_fn : Int → Int → Int → Int
  posix_api_null : Bool
  ues_posix : Bool
  posix_close_fn : Int → Int
  wrap_close_fn : lstack → Int → lstack × Int
  posix_poll_fn : Nat → Int → Int
  wrap_poll_fn : Nat → Int → Int
  posix_epoll_wait_fn : Int → Int → Int → Int
  wrap_epoll_wait_fn : Int → Int → Int → Int

/-- What a shim function leaves behind: the state, its return value and the calls made. -/
structure shim_result where
  st : lstack
  ret : Int
  calls : List shim_call

/-- Modelled from the spec: the macro `SET_CONN_TYPE_LIBOS` of the lwIP headers is not in
the sources; the spec's connection-kind tag is set to LIBOS. -/
def SET_CONN_TYPE_LIBOS (conn : netconn) : netconn :=
  { conn with conn_type := some conn_kind.LIBOS }

/-- Modelled from the spec: the macro `SET_CONN_TYPE_HOST` of the lwIP headers is not in
the sources; the spec's connection-kind tag is set to HOST. -/
def SET_CONN_TYPE_HOST (conn : netconn) : netconn :=
  { conn with conn_type := some conn_kind.HOST }

/-- Option levels and names of the Linux socket headers (`SOL_SOCKET`, `IPPROTO_TCP`, the
names tested by `unsupport_optname`, and `TCP_KEEPCNT`, `SO_PRIORITY`, `SO_KEEPALIVE`). -/
def SOL_SOCKET : Int := 1
def IPPROTO_TCP : Int := 6
def SO_BROADCAST : Int := 6
def SO_PROTOCOL : Int := 38
def TCP_QUICKACK : Int := 12
def SO_SNDTIMEO : Int := 21
def SO_RCVTIMEO : Int := 20
def TCP_KEEPCNT : Int := 6
def SO_PRIORITY : Int := 12
def SO_KEEPALIVE : Int := 9

/-- The function `unsupport_optname(optname)` of `lstack_wrap.c`. -/
def unsupport_optname (optname : Int) : Bool :=
  if optname = SO_BROADCAST ∨ optname = SO_PROTOCOL ∨ optname = TCP_QUICKACK ∨
      optname = SO_SNDTIMEO ∨ optname = SO_RCVTIMEO then true
  else false

/-- The function `do_getsockopt(s, level, optname, optval, optlen)` of `lstack_wrap.c`; the
option value belongs to the entry point called. -/
def do_getsockopt (env : shim_env) (st : lstack) (s : Int) (level optname : Int) :
    shim_result :=
  if env.select_fd_posix_path s = posix_path.PATH_LWIP ∧ ¬ unsupport_optname optname then
    { st := st, ret := env.wrap_getsockopt_fn s level optname
      calls := [shim_call.wrap_getsockopt s level optname] }
  else
    { st := st, ret := env.posix_getsockopt_fn s level optname
      calls := [shim_call.posix_getsockopt s level optname] }

/-- The function `do_setsockopt(s, level, optname, optval, optlen)` of `lstack_wrap.c`. -/
def do_setsockopt (env : shim_env) (st : lstack) (s : Int) (level optname : Int) :
    shim_result :=
  if env.select_fd_posix_path s = posix_path.PATH_KERNEL ∨ unsupport_optname optname then
    { st := st, ret := env.posix_setsockopt_fn s level optname
      calls := [shim_call.posix_setsockopt s level optname] }
  else if env.posix_setsockopt_fn s level optname ≠ 0 then
    { st := st, ret := env.posix_setsockopt_fn s level optname
      calls := [shim_call.posix_setsockopt s level optname] }
  else
    { st := st, ret := env.wrap_setsockopt_fn s level optname
      calls := [shim_call.posix_setsockopt s level optname,
        shim_call.wrap_setsockopt s level optname] }

/-- The function `do_socket(domain, type, protocol)` of `lstack_wrap.c`. -/
def do_socket (env : shim_env) (st : lstack) (domain : Int) (type : Nat) (protocol : Int) :
    shim_result :=
  if env.select_posix_path = posix_path.PATH_KERNEL then
    { st := st, ret := env.posix_socket_fn domain type protocol
      calls := [shim_call.posix_socket domain type protocol] }
  else if (domain ≠ AF_INET ∧ domain ≠ AF_UNSPEC) ∨
      ((type &&& SOCK_DGRAM) ≠ 0 ∧ ¬ env.udp_enable) then
    { st := st, ret := env.posix_socket_fn domain type protocol
      calls := [shim_call.posix_socket domain type protocol] }
  else
    let r := env.wrap_socket_fn st domain type protocol
    let st1 :=
      if r.2 ≥ 0 ∧ (type &&& SOCK_DGRAM) ≠ 0 then
        match get_socket r.1 r.2 with
        | some sock =>
          match sock.conn with
          | some conn => set_socket r.1 r.2 { sock with conn := some (SET_CONN_TYPE_LIBOS conn) }
          | none => r.1
        | none => r.1
      else r.1
    { st := st1, ret := r.2, calls := [shim_call.wrap_socket domain type protocol] }

/-- C `isspace` in the "C" locale. -/
def c_isspace (c : Char) : Bool :=
  c.toNat = 32 || (9 ≤ c.toNat && c.toNat ≤ 13)

/-- The interface name `is_dst_ip_localhost` cuts out of one line of `/proc/net/dev`
(lines 257-264): leading white space is skipped, `strcspn(p, ": \t")` bytes are taken, and
`strncpy_s` into the 20-byte array leaves it empty when they do not fit. -/
def interface_of_line (line : List Char) : List Char :=
  let p := line.dropWhile c_isspace
  let n := (p.takeWhile (fun c => c.toNat ≠ 58 && c.toNat ≠ 32 && c.toNat ≠ 9)).length
  if n < 20 then p.take n else []

/-- The `getdelim` loop of `is_dst_ip_localhost` (lines 251-275) over the lines still to
read; `linenum` counts the lines read so far. -/
def is_dst_ip_localhost_loop (get_addr : List Char → Option Nat) (dst : Nat) :
    List (List Char) → Nat → Bool
  | [], _ => false
  | line :: rest, linenum =>
    if linenum < 2 then is_dst_ip_localhost_loop get_addr dst rest (linenum + 1)
    else
      match get_addr (interface_of_line line) with
      | some a =>
        if a = dst then true
        else is_dst_ip_localhost_loop get_addr dst rest (linenum + 1)
      | none => is_dst_ip_localhost_loop get_addr dst rest (linenum + 1)

/-- The function `is_dst_ip_localhost(addr)` of `lstack_wrap.c`. -/
def is_dst_ip_localhost (env : shim_env) (addr : sockaddr_in) : Bool :=
  if env.host_addr = addr.sin_addr then true
  else
    match env.proc_net_dev with
    | none => false
    | some lines =>
      if ¬ env.malloc_ok then false
      else is_dst_ip_localhost_loop env.get_addr addr.sin_addr lines 0

/-- C `htons` on a little-endian host: the two bytes of a 16-bit value are swapped. -/
def htons (x : Nat) : Nat := (x % 256) * 256 + (x / 256) % 256

/-- The ring name `do_connect` formats with `"listen_rx_ring_%d"`. -/
def listen_ring_name (remote_port : Nat) : String :=
  "listen_rx_ring_" ++ toString remote_port

/-- The function `do_connect(s, name, namelen)` of `lstack_wrap.c`; `name` is `none` for a
`NULL` pointer. -/
def do_connect (env : shim_env) (st : lstack) (s : Int) (name : Option sockaddr_in)
    (namelen : Nat) : Option shim_result :=
  match name with
  | none => some { st := (GAZELLE_RETURN EINVAL st).1, ret := (GAZELLE_RETURN EINVAL st).2,
                   calls := [] }
  | some nm =>
    if env.select_fd_posix_path s = posix_path.PATH_KERNEL then
      some { st := st, ret := env.posix_connect_fn s nm namelen
             calls := [shim_call.posix_connect s nm namelen] }
    else
      match get_socket st s with
      | none =>
        some { st := st, ret := env.posix_connect_fn s nm namelen
               calls := [shim_call.posix_connect s nm namelen] }
      | some sock =>
        match sock.conn with
        | none => none
        | some conn =>
          if ¬ conn.nonblocking then
            some { st := (GAZELLE_RETURN EINVAL st).1, ret := (GAZELLE_RETURN EINVAL st).2,
                   calls := [] }
          else
            let remote_port := htons nm.sin_port
            if is_dst_ip_localhost env nm ∧
                env.rte_ring_lookup (listen_ring_name remote_port) = false then
              some { st := set_socket st s { sock with conn := some (SET_CONN_TYPE_HOST conn) }
                     ret := env.posix_connect_fn s nm namelen
                     calls := [shim_call.posix_connect s nm namelen] }
            else
              some { st := set_socket st s { sock with conn := some (SET_CONN_TYPE_LIBOS conn) }
                     ret := env.wrap_connect_fn s nm namelen
                     calls := [shim_call.wrap_connect s nm namelen] }

/-- The connection-kind tag of descriptor `s`, if it has one. -/
def conn_type_of (st : lstack) (s : Int) : Option conn_kind :=
  (get_socket st s).bind (fun sock => sock.conn.bind (fun conn => conn.conn_type))

/-! ## Streams, invariants and callers used in the statements -/

/-- An idle transmit buffer as `tcp_pktmbuf_alloc` forms it: a single pbuf (`next == NULL`)
that satisfies the chain invariant, so `tot_len = len` is its capacity. -/
def idle_pbuf (p : pbuf) : Prop := p.next = none ∧ p.wf

instance (p : pbuf) : Decidable (idle_pbuf p) := by unfold idle_pbuf; exact inferInstance

/-- The sizes of the buffers `write_stack_data` appends: with `remaining` bytes still to
send, each appended buffer holds `min(remaining, capacity of its idle buffer)` data bytes,
and its `len` and `tot_len` are that number. -/
def chunks : Nat → List pbuf → List pbuf → Prop
  | _, _, [] => True
  | _, [], _ :: _ => False
  | remaining, q :: qs, a :: as =>
      a.data.length = min remaining q.len ∧ a.len = a.data.length ∧
      a.tot_len = a.data.length ∧ chunks (remaining - a.data.length) qs as

/-- The byte stream a descriptor holds for the application: the recv-residue (if present)
followed by the receive-ring buffers, oldest first. -/
def recv_stream (recv_lastdata : Option pbuf) (recv_ring : rte_ring) : List Nat :=
  (match recv_lastdata with
    | some p => p.data
    | none => []) ++ ring_data recv_ring

/-- The residue and every buffer of the receive ring satisfy the lwIP chain invariant. -/
def recv_wf (recv_lastdata : Option pbuf) (recv_ring : rte_ring) : Prop :=
  (∀ p, recv_lastdata = some p → p.wf) ∧ ∀ p ∈ recv_ring.objs, p.wf

/-- The number of bytes a descriptor holds for the application, counted by `tot_len`:
the recv-residue plus all receive-ring buffers. -/
def recv_avail (recv_lastdata : Option pbuf) (recv_ring : rte_ring) : Nat :=
  (match recv_lastdata with
    | some p => p.tot_len
    | none => 0) + (recv_ring.objs.map pbuf.tot_len).sum

/-- The application calling `read_stack_data(fd, buf, n, 0)` once for each length `n` of
`lens`, each time into a zeroed buffer of `n` bytes, and collecting the bytes the calls
returned (a call that fails returns none). -/
def recv_all (st : lstack) (fd : Int) : List Nat → Option (lstack × List Nat)
  | [] => some (st, [])
  | n :: ns =>
    match read_stack_data st fd (List.replicate n 0) n 0 with
    | none => none
    | some (st1, ret, buf1) =>
      match recv_all st1 fd ns with
      | none => none
      | some (st2, more) =>
        some (st2, (if ret > 0 then buf1.take ret.toNat else []) ++ more)

/-- The delivery of the buffers `sent` into the (empty) receive ring of descriptor `fd`,
unchanged and in order: what the two protocol engines do between the endpoints. -/
def deliver (st : lstack) (fd : Int) (sock : lwip_sock) (rr : rte_ring) (sent : List pbuf) :
    lstack :=
  set_socket st fd { sock with recv_ring := some { rr with objs := sent } }

/-! ## Concrete states used to instantiate the theorems -/

/-- An idle ring of capacity 8 holding three empty 3-byte transmit buffers. -/
def ex_idle_ring : rte_ring :=
  { capacity := 8
    objs := [pbuf.last [0, 0, 0] 3 3, pbuf.last [0, 0, 0] 3 3, pbuf.last [0, 0, 0] 3 3] }

/-- A descriptor with the given send ring and receive ring and no residue. -/
def ex_sock (send_ring recv_ring : rte_ring) : lwip_sock :=
  { recv_ring := some recv_ring, send_ring := some send_ring }

/-- A process with one worker (index 0) and one fast descriptor, fd 5. -/
def ex_state (sock : lwip_sock) : lstack :=
  { sockets := fun i => if i = 5 then some sock else none
    stack_group := fun _ => { send_idle_ring := ex_idle_ring } }

/-- A receive ring holding "1 2 3" in one buffer and "4 5 6 7 8" in a chain of two. -/
def ex_recv_ring : rte_ring :=
  { capacity := 4
    objs := [pbuf.last [1, 2, 3] 3 3, pbuf.link [4, 5, 0] 2 5 (pbuf.last [6, 7, 8] 3 3)] }

/-- A descriptor with the receive ring `ex_recv_ring` and the residue "9 8". -/
def ex_recv_sock : lwip_sock :=
  { recv_ring := some ex_recv_ring
    send_ring := some { capacity := 4, objs := [] }
    recv_lastdata := some (pbuf.last [9, 8] 2 2) }

/-- A descriptor whose receive ring holds the five bytes "1 2 3 4 5" in one buffer. -/
def ex_peek_sock : lwip_sock :=
  { recv_ring := some { capacity := 4, objs := [pbuf.last [1, 2, 3, 4, 5] 5 5] }
    send_ring := some { capacity := 4, objs := [] } }

/-- A descriptor with one buffer "7" in its send ring and the send-residue "8 9". -/
def ex_close_sock : lwip_sock :=
  { recv_ring := some { capacity := 4, objs := [] }
    send_ring := some { capacity := 4, objs := [pbuf.last [7] 1 1] }
    send_lastdata := some (pbuf.last [8, 9] 2 2) }

/-- Surroundings for the examples: the fast path is selected, UDP is off, the host address
is 10.0.0.1, the only interface with an address is `lo` with 127.0.0.1, and no ring exists. -/
def ex_env : shim_env :=
  { select_posix_path := posix_path.PATH_LWIP
    select_fd_posix_path := fun _ => posix_path.PATH_LWIP
    udp_enable := false
    host_addr := 0x0100000a
    posix_socket_fn := fun _ _ _ => 3
    wrap_socket_fn := fun st _ _ _ => (st, 1025)
    posix_connect_fn := fun _ _ _ => 0
    wrap_connect_fn := fun _ _ _ => -1
    proc_net_dev := some ["Inter-|".toList, " face |".toList, "    lo: 0 0".toList,
      "  eth0: 0 0".toList]
    malloc_ok := true
    get_addr := fun i => if i = "lo".toList then some 0x0100007f else none
    rte_ring_lookup := fun _ => false
    posix_setsockopt_fn := fun _ _ _ => 0
    wrap_setsockopt_fn := fun _ _ _ => 0
    posix_getsockopt_fn := fun _ _ _ => 0
    wrap_getsockopt_fn := fun _ _ _ => 0
    posix_api_null := false
    ues_posix := false
    posix_close_fn := fun _ => 0
    wrap_close_fn := fun st _ => (st, 0)
    posix_poll_fn := fun _ _ => 0
    wrap_poll_fn := fun _ _ => 1
    posix_epoll_wait_fn := fun _ _ _ => 0
    wrap_epoll_wait_fn := fun _ _ _ => 1 }

/-! ## The RPC layer and the fan-out operations of `lstack_rtw_api.c` -/

def ENOTCONN : Int := 107
def ENOTSOCK : Int := 88
def POLLIN : Nat := 1
def POLLERR : Nat := 8

/-- What a worker does with a command: the state afterwards and the command's result. The
RPC handlers and the protocol engine are outside the sources; this is a parameter. -/
abbrev rpc_engine := lstack → Nat → rpc_msg → lstack × Int

/-- What the fan-out operations see of their surroundings: the worker side of the RPC
layer (`engine`), the address and length a `GetSockName` command stores, the result of
`poll_construct_wakeup` (`none` for `NULL`), the interposed `close`, and the read entry
`do_lwip_read_from_stack`, which is not in the sources (state afterwards, `errno` included,
and return value), and what the process looks like when `lstack_block_wait` returns. -/
structure fan_env where
  engine : rpc_engine
  sockname : lstack → Int → sockaddr_in × Nat
  poll_construct_wakeup : Option wakeup_poll
  close : lstack → Int → lstack × Int
  do_lwip_read_from_stack : lstack → Int → lstack × Int
  lstack_block_wait : lstack → lstack

/-- Modelled from the spec: the functions `rpc_call_*` of `lstack_thread_rpc.c` are not in
the sources; submission is synchronous: the command is posted to worker `idx`, the worker
executes it, and the producer receives the worker's result. The call is recorded in
`rpc_log`; the number of workers is fixed when the stack group is set up and no command
changes it. -/
def rpc_call (engine : rpc_engine) (st : lstack) (idx : Nat) (msg : rpc_msg) : lstack × Int :=
  ({ (engine st idx msg).1 with
      rpc_log := st.rpc_log ++ [(idx, msg)]
      stack_num := st.stack_num },
    (engine st idx msg).2)

/-- lwIP's `lwip_get_socket(fd)`: the socket of a descriptor, `none` for `NULL`. A pointer
that names a descriptor without socket counts as `NULL`. -/
def lwip_get_socket (st : lstack) (fd : Int) : Option lwip_sock := st.sockets fd

/-- Modelled from the spec: `get_protocol_stack_by_fd` (`lstack_protocol_stack.c`) is not
in the sources; it returns the worker that owns the descriptor's state, or null. -/
def get_protocol_stack_by_fd (st : lstack) (fd : Int) : Option Nat :=
  (lwip_get_socket st fd).bind (fun sock => sock.stack)

/-- The macro `POSIX_IS_CLOSED(sock)` of the lwIP headers: the pointer is `NULL` or the
socket has no connection. -/
def POSIX_IS_CLOSED (sock : Option lwip_sock) : Bool :=
  match sock with
  | none => true
  | some s => s.conn.isNone

/-- The statement `if (stack == NULL || rpc_call_close(&stack->rpc_queue, fd)) ret = -1;`
of `stack_broadcast_close` (lines 37-39) and its twin in `stack_broadcast_shutdown` (lines
62-64); `cmd fd` is the command posted. -/
def stack_broadcast_post (engine : rpc_engine) (cmd : Int → rpc_msg) (st : lstack) (fd : Int)
    (stack : Option Nat) (ret : Int) : lstack × Int :=
  match stack with
  | none => (st, -1)
  | some idx =>
    if (rpc_call engine st idx (cmd fd)).2 ≠ 0 then ((rpc_call engine st idx (cmd fd)).1, -1)
    else ((rpc_call engine st idx (cmd fd)).1, ret)

/-- The `do { ... } while (1)` loop of `stack_broadcast_close` (lines 35-46) and of
`stack_broadcast_shutdown` (lines 60-71), which differ only in the command `cmd fd` they
post; `fd` names the current socket, `stack` is its worker and `ret` the result so far. -/
def stack_broadcast_loop (engine : rpc_engine) (cmd : Int → rpc_msg) :
    Nat → lstack → Int → Option Nat → Int → Option (lstack × Int)
  | 0, _, _, _, _ => none
  | fuel + 1, st, fd, stack, ret =>
    match lwip_get_socket st fd with
    | none => none
    | some sock =>
      match sock.listen_next with
      | none => some (stack_broadcast_post engine cmd st fd stack ret)
      | some k =>
        if POSIX_IS_CLOSED (lwip_get_socket (stack_broadcast_post engine cmd st fd stack ret).1 k)
        then some (stack_broadcast_post engine cmd st fd stack ret)
        else
          stack_broadcast_loop engine cmd fuel (stack_broadcast_post engine cmd st fd stack ret).1
            k (get_protocol_stack_by_fd (stack_broadcast_post engine cmd st fd stack ret).1 k)
            (stack_broadcast_post engine cmd st fd stack ret).2

/-- The function `stack_broadcast_close(fd)` of `lstack_rtw_api.c`. -/
def stack_broadcast_close (engine : rpc_engine) (fuel : Nat) (st : lstack) (fd : Int) :
    Option (lstack × Int) :=
  match lwip_get_socket st fd with
  | none => some (GAZELLE_RETURN EBADF st)
  | some _ =>
    stack_broadcast_loop engine rpc_msg.close fuel st fd (get_protocol_stack_by_fd st fd) 0

/-- The function `stack_broadcast_shutdown(fd, how)` of `lstack_rtw_api.c`. -/
def stack_broadcast_shutdown (engine : rpc_engine) (fuel : Nat) (st : lstack) (fd : Int)
    (how : Int) : Option (lstack × Int) :=
  match lwip_get_socket st fd with
  | none => some (GAZELLE_RETURN EBADF st)
  | some _ =>
    stack_broadcast_loop engine (fun k => rpc_msg.shutdown k how) fuel st fd
      (get_protocol_stack_by_fd st fd) 0

/-- The function `stack_single_bind(fd, name, namelen)` of `lstack_rtw_api.c`. -/
def stack_single_bind (engine : rpc_engine) (st : lstack) (fd : Int) (name : sockaddr_in)
    (namelen : Nat) : lstack × Int :=
  match get_protocol_stack_by_fd st fd with
  | none => GAZELLE_RETURN EBADF st
  | some idx => rpc_call engine st idx (rpc_msg.bind fd name namelen)

/-- The function `stack_single_listen(fd, backlog)` of `lstack_rtw_api.c`. -/
def stack_single_listen (engine : rpc_engine) (st : lstack) (fd : Int) (backlog : Int) :
    lstack × Int :=
  match get_protocol_stack_by_fd st fd with
  | none => GAZELLE_RETURN EBADF st
  | some idx => rpc_call engine st idx (rpc_msg.listen fd backlog)

/-- The `for` loop of `stack_broadcast_bind` (lines 106-115) over the worker indices still
to visit; `cur` is the index of `cur_stack`. -/
def stack_broadcast_bind_loop (engine : rpc_engine) (fuel : Nat) (fd : Int)
    (name : sockaddr_in) (namelen : Nat) (cur : Nat) : List Nat → lstack → Option (lstack × Int)
  | [], st => some (st, 0)
  | i :: rest, st =>
    if i ≠ cur then
      if (rpc_call engine st i (rpc_msg.shadow_fd fd name namelen)).2 < 0 then
        (stack_broadcast_close engine fuel
          (rpc_call engine st i (rpc_msg.shadow_fd fd name namelen)).1 fd).map
          (fun q => (q.1, (rpc_call engine st i (rpc_msg.shadow_fd fd name namelen)).2))
      else
        stack_broadcast_bind_loop engine fuel fd name namelen cur rest
          (rpc_call engine st i (rpc_msg.shadow_fd fd name namelen)).1
    else stack_broadcast_bind_loop engine fuel fd name namelen cur rest st

/-- The function `stack_broadcast_bind(fd, name, namelen)` of `lstack_rtw_api.c`; `fuel`
bounds the walk of the close broadcast. -/
def stack_broadcast_bind (env : fan_env) (fuel : Nat) (st : lstack) (fd : Int)
    (name : sockaddr_in) (namelen : Nat) : Option (lstack × Int) :=
  match lwip_get_socket st fd, get_protocol_stack_by_fd st fd with
  | some _, some cur =>
    if (rpc_call env.engine st cur (rpc_msg.bind fd name namelen)).2 < 0 then
      some ((env.close (rpc_call env.engine st cur (rpc_msg.bind fd name namelen)).1 fd).1,
        (rpc_call env.engine st cur (rpc_msg.bind fd name namelen)).2)
    else
      stack_broadcast_bind_loop env.engine fuel fd name namelen cur (List.range st.stack_num)
        (rpc_call env.engine st cur (rpc_msg.bind fd name namelen)).1
  | _, _ => some (GAZELLE_RETURN EBADF st)

/-- Modelled from the spec: `get_min_conn_stack` (`lstack_protocol_stack.c`) is not in the
sources; it returns the index of the worker with the smallest connection count (the first
such worker). -/
def get_min_conn_stack (st : lstack) : Nat :=
  (List.range st.stack_num).foldl
    (fun best i =>
      if (st.stack_group i).conn_num < (st.stack_group best).conn_num then i else best) 0

/-- The assignment `lwip_get_socket(fd)->conn->is_master_fd = v`; `none` when the socket
or its connection is `NULL`. -/
def set_is_master_fd (st : lstack) (fd : Int) (v : Nat) : Option lstack :=
  match lwip_get_socket st fd with
  | none => none
  | some sock =>
    match sock.conn with
    | none => none
    | some conn => some (set_socket st fd { sock with conn := some { conn with is_master_fd := v } })

/-- The choice of `clone_fd` in the loop of `stack_broadcast_listen` (lines 247-255) for the
worker `i`: the state afterwards and `clone_fd`. -/
def listen_clone_fd (engine : rpc_engine) (st : lstack) (fd : Int) (addr : sockaddr_in)
    (addr_len : Nat) (cur i : Nat) : lstack × Int :=
  if i ≠ cur then rpc_call engine st i (rpc_msg.shadow_fd fd addr addr_len) else (st, fd)

/-- The block under `#if GAZELLE_TCP_REUSE_IPPORT` in the loop of `stack_broadcast_listen`
(lines 256-262); `reuse_ipport` is that compile-time switch. -/
def listen_set_master (reuse_ipport : Bool) (st : lstack) (clone_fd : Int)
    (min_conn_stk_idx i : Nat) : Option lstack :=
  if reuse_ipport then set_is_master_fd st clone_fd (if min_conn_stk_idx = i then 1 else 0)
  else some st

/-- The `for` loop of `stack_broadcast_listen` (lines 245-268) over the worker indices
still to visit; `cur` is the index of `cur_stack`. -/
def stack_broadcast_listen_loop (engine : rpc_engine) (reuse_ipport : Bool) (fuel : Nat)
    (fd : Int) (addr : sockaddr_in) (addr_len : Nat) (backlog : Int) (cur : Nat)
    (min_conn_stk_idx : Nat) : List Nat → lstack → Option (lstack × Int)
  | [], st => some (st, 0)
  | i :: rest, st =>
    if i ≠ cur ∧ (listen_clone_fd engine st fd addr addr_len cur i).2 < 0 then
      (stack_broadcast_close engine fuel (listen_clone_fd engine st fd addr addr_len cur i).1
        fd).map (fun q => (q.1, (listen_clone_fd engine st fd addr addr_len cur i).2))
    else
      match listen_set_master reuse_ipport (listen_clone_fd engine st fd addr addr_len cur i).1
          (listen_clone_fd engine st fd addr addr_len cur i).2 min_conn_stk_idx i with
      | none => none
      | some st1 =>
        if (rpc_call engine st1 i
            (rpc_msg.listen (listen_clone_fd engine st fd addr addr_len cur i).2 backlog)).2 < 0
        then
          (stack_broadcast_close engine fuel
            (rpc_call engine st1 i
              (rpc_msg.listen (listen_clone_fd engine st fd addr addr_len cur i).2 backlog)).1
            fd).map
            (fun q => (q.1, (rpc_call engine st1 i
              (rpc_msg.listen (listen_clone_fd engine st fd addr addr_len cur i).2 backlog)).2))
        else
          stack_broadcast_listen_loop engine reuse_ipport fuel fd addr addr_len backlog cur
            min_conn_stk_idx rest
            (rpc_call engine st1 i
              (rpc_msg.listen (listen_clone_fd engine st fd addr addr_len cur i).2 backlog)).1

/-- The function `stack_broadcast_listen(fd, backlog)` of `lstack_rtw_api.c`. -/
def stack_broadcast_listen (env : fan_env) (reuse_ipport : Bool) (fuel : Nat) (st : lstack)
    (fd : Int) (backlog : Int) : Option (lstack × Int) :=
  match lwip_get_socket st fd, get_protocol_stack_by_fd st fd with
  | some _, some cur =>
    let r := rpc_call env.engine st cur (rpc_msg.getsockname fd)
    if r.2 ≠ 0 then some r
    else
      stack_broadcast_listen_loop env.engine reuse_ipport fuel fd (env.sockname st fd).1
        (env.sockname st fd).2 backlog cur (get_min_conn_stack r.1) (List.range r.1.stack_num) r.1
  | _, _ => some (GAZELLE_RETURN EBADF st)

/-- The configuration switches read by `rtw_listen`. -/
structure cfg_params where
  tuple_filter : Bool
  listen_shadow : Bool
deriving DecidableEq, Repr

/-- The function `rtw_listen(s, backlog)` of `lstack_rtw_api.c`. -/
def rtw_listen (cfg : cfg_params) (env : fan_env) (reuse_ipport : Bool) (fuel : Nat)
    (st : lstack) (s : Int) (backlog : Int) : Option (lstack × Int) :=
  if ¬ cfg.tuple_filter ∧ ¬ cfg.listen_shadow then
    some (stack_single_listen env.engine st s backlog)
  else stack_broadcast_listen env reuse_ipport fuel st s backlog

/-- The connection count `sock->stack->conn_num` of the socket of a descriptor; `none`
when the socket or its worker is `NULL`. -/
def sock_conn_num (st : lstack) (fd : Int) : Option Nat :=
  (get_protocol_stack_by_fd st fd).map (fun idx => (st.stack_group idx).conn_num)

/-- The wakeup block of `get_min_accept_sock` (lines 139-147) for a socket with connection
`conn`: the socket afterwards, or `none` where the source returns `NULL` because
`poll_construct_wakeup` failed. -/
def accept_wakeup (env : fan_env) (s : lwip_sock) (conn : netconn) : Option lwip_sock :=
  if ¬ conn.nonblocking ∧ s.wakeup = none then
    match env.poll_construct_wakeup with
    | none => none
    | some w => some { s with wakeup := some w, epoll_events := POLLIN ||| POLLERR }
  else some s

/-- The update of `min_sock` in `get_min_accept_sock` (lines 153-155) for the ACCEPT-IN
socket `k`; `none` when a worker pointer that is `NULL` is dereferenced. -/
def min_sock_update (st : lstack) (min_sock : Option Int) (k : Int) : Option (Option Int) :=
  match min_sock with
  | none => some (some k)
  | some m =>
    match sock_conn_num st m, sock_conn_num st k with
    | some a, some b => some (if a > b then some k else some m)
    | _, _ => none

/-- The `while (sock)` loop of `get_min_accept_sock` (lines 138-158); `sock` and
`min_sock` are pointers, `none` for `NULL`. The outer `none` stands for a `NULL`
dereference or exhausted fuel; the result is the state and the pointer returned. -/
def get_min_accept_sock_loop (env : fan_env) :
    Nat → lstack → Option Int → Option Int → Option (lstack × Option Int)
  | 0, _, _, _ => none
  | fuel + 1, st, sock, min_sock =>
    match sock.bind (lwip_get_socket st), sock with
    | some s, some k =>
      match s.conn with
      | none => none
      | some conn =>
        match accept_wakeup env s conn with
        | none => some (st, none)
        | some s1 =>
          if ¬ conn.acceptin then
            get_min_accept_sock_loop env fuel (set_socket st k s1) s1.listen_next min_sock
          else
            match min_sock_update (set_socket st k s1) min_sock k with
            | none => none
            | some m =>
              get_min_accept_sock_loop env fuel (set_socket st k s1) s1.listen_next m
    | _, _ => some (st, min_sock)

/-- The function `get_min_accept_sock(fd)` of `lstack_rtw_api.c`. -/
def get_min_accept_sock (env : fan_env) (fuel : Nat) (st : lstack) (fd : Int) :
    Option (lstack × Option Int) :=
  get_min_accept_sock_loop env fuel st (some fd) none

/-- What `rtw_udp_recvfrom` leaves behind: the state, the return value and the descriptors
passed to `do_lwip_read_from_stack`, oldest first. -/
structure recvfrom_result where
  st : lstack
  ret : Int
  polled : List Int

/-- The `while (1)` loop of `rtw_udp_recvfrom` (lines 423-443); `sock` is the pointer
variable, `sockfd` the descriptor variable and `polled` the reads made so far. -/
def rtw_udp_recvfrom_loop (env : fan_env) :
    Nat → lstack → Option Int → Int → List Int → Option recvfrom_result
  | 0, _, _, _, _ => none
  | fuel + 1, st, sock, sockfd, polled =>
    let r := env.do_lwip_read_from_stack st sockfd
    if r.2 ≥ 0 then some { st := r.1, ret := r.2, polled := polled ++ [sockfd] }
    else if r.1.errno ≠ EAGAIN then some { st := r.1, ret := -1, polled := polled ++ [sockfd] }
    else
      match sock.bind (lwip_get_socket r.1) with
      | none => none
      | some s =>
        match s.listen_next with
        | none =>
          some { st := { r.1 with errno := EAGAIN }, ret := -1, polled := polled ++ [sockfd] }
        | some k =>
          match lwip_get_socket r.1 k with
          | none =>
            some { st := { r.1 with errno := EAGAIN }, ret := -1, polled := polled ++ [sockfd] }
          | some n =>
            if n.conn.isNone then
              some { st := { r.1 with errno := ENOTCONN }, ret := -1, polled := polled ++ [sockfd] }
            else rtw_udp_recvfrom_loop env fuel r.1 (some k) k (polled ++ [sockfd])

/-- The function `rtw_udp_recvfrom(sockfd, buf, len, flags, addr, addrlen)` of
`lstack_rtw_api.c`; the buffer and the address belong to `do_lwip_read_from_stack`. -/
def rtw_udp_recvfrom (env : fan_env) (fuel : Nat) (st : lstack) (sockfd : Int) :
    Option recvfrom_result :=
  rtw_udp_recvfrom_loop env fuel st ((lwip_get_socket st sockfd).map (fun _ => sockfd)) sockfd []

/-! ## The recv-list: `add_recv_list`, `read_lwip_data`, `read_recv_list` -/

def ERR_OK : Int := 0
def ERR_CLSD : Int := -15
def NETCONN_DONTBLOCK : Nat := 0x04
def NETCONN_NOFIN : Nat := 0x20

/-- The test `!list_is_empty(&sock->recv_list)`: the list node of the descriptor is linked
into the recv-list of one of the workers of the group. -/
def recv_list_linked (st : lstack) (fd : Int) : Bool :=
  (List.range st.stack_num).any (fun i => decide (fd ∈ (st.stack_group i).recv_list))

/-- The list helper `list_add_node(head, node)`: the node is linked in front of the head of
the circular list, which is the tail position. -/
def list_add_node (l : List Int) (fd : Int) : List Int := l ++ [fd]

/-- The list helper `list_del_node_init(node)`: the node is unlinked from the list it is in
and points to itself again. -/
def list_del_node_init (st : lstack) (fd : Int) : lstack :=
  { st with
    stack_group := fun i =>
      { st.stack_group i with recv_list := (st.stack_group i).recv_list.filter (· ≠ fd) } }

/-- The function `add_recv_list(fd)` of `lstack_lwip.c`; `none` when `get_socket` returns
`NULL`, which the source dereferences. -/
def add_recv_list (st : lstack) (fd : Int) : Option lstack :=
  match get_socket st fd with
  | none => none
  | some sock =>
    match sock.stack with
    | none => some st
    | some idx =>
      if ¬ recv_list_linked st fd then
        some (set_stack st idx
          { st.stack_group idx with recv_list := list_add_node (st.stack_group idx).recv_list fd })
      else some st

/-- Modelled from the spec: `add_epoll_event` (`lstack_epoll.c`) is not in the sources; it
raises the event to the readiness layer, recorded in the event mask of the socket. -/
def add_epoll_event (sock : lwip_sock) (event : Nat) : lwip_sock :=
  { sock with events := sock.events ||| event }

/-- lwIP's `netconn_recv_tcp_pbuf_flags(conn, &pbuf, apiflags)` as the data plane sees it:
an error code or the buffer handed over, and the connection afterwards. -/
abbrev netconn_recv_fn := netconn → Nat → Except Int pbuf × netconn

/-- The variables of the `for` loop of `read_lwip_data`: the connection, the receive ring,
`recv_len`, `apiflags`, the buffers freed and the number of drops counted. -/
structure lwip_read_vars where
  conn : netconn
  recv_ring : rte_ring
  recv_len : Int
  apiflags : Nat
  freed : List pbuf
  drop : Nat

/-- The `for` loop of `read_lwip_data` (lines 304-329) with the given number of rounds
left. The second component is the value of an early `return`, `none` when the loop ends
by exhaustion or `break`. -/
def read_lwip_data_loop (recv : netconn_recv_fn) (flags : Nat) :
    Nat → lwip_read_vars → lwip_read_vars × Option Int
  | 0, v => (v, none)
  | n + 1, v =>
    match recv v.conn v.apiflags with
    | (Except.error err, conn1) =>
      if v.recv_len > 0 then ({ v with conn := conn1 }, none)
      else ({ v with conn := conn1 }, some (if err = ERR_CLSD then 0 else -1))
    | (Except.ok p, conn1) =>
      if flags &&& MSG_PEEK = 0 then
        if (rte_ring_sp_enqueue v.recv_ring p).1 ≠ 0 then
          ({ v with conn := conn1, freed := v.freed ++ [p], drop := v.drop + 1 }, none)
        else
          read_lwip_data_loop recv flags n
            { v with
              conn := conn1
              recv_ring := (rte_ring_sp_enqueue v.recv_ring p).2
              recv_len := v.recv_len + p.len
              apiflags := v.apiflags ||| NETCONN_DONTBLOCK ||| NETCONN_NOFIN }
      else
        read_lwip_data_loop recv flags n
          { v with
            conn := conn1
            recv_len := v.recv_len + p.len
            apiflags := v.apiflags ||| NETCONN_DONTBLOCK ||| NETCONN_NOFIN }

/-- The statement `stack->stats.read_lwip_drop += n` for the worker `idx` (the source counts
one drop at a time, inside the loop). -/
def add_read_lwip_drop (st : lstack) (idx : Nat) (n : Nat) : lstack :=
  set_stack st idx
    { st.stack_group idx with
      stats := { (st.stack_group idx).stats with
        read_lwip_drop := (st.stack_group idx).stats.read_lwip_drop + n } }

/-- The statement `stack->stats.read_lwip_cnt += n` for the worker `idx`. -/
def add_read_lwip_cnt (st : lstack) (idx : Nat) (n : Nat) : lstack :=
  set_stack st idx
    { st.stack_group idx with
      stats := { (st.stack_group idx).stats with
        read_lwip_cnt := (st.stack_group idx).stats.read_lwip_cnt + n } }

/-- The socket after the loop of `read_lwip_data`: the connection and the receive ring are
as the loop left them. -/
def read_lwip_data_sock (sock : lwip_sock) (v : lwip_read_vars) : lwip_sock :=
  { sock with conn := some v.conn, recv_ring := some v.recv_ring }

/-- The part of `read_lwip_data` after its loop (lines 310-313 for an early `return`, lines
331-339 else), given the socket at entry, `free_count`, `data_count` and what the loop
left: its variables and the value of an early `return`, if any. -/
def read_lwip_data_finish (st : lstack) (fd : Int) (sock : lwip_sock) (flags : Nat)
    (free_count data_count : Nat) (r : lwip_read_vars × Option Int) : Option (lstack × Int) :=
  let st1 : lstack :=
    { set_socket st fd (read_lwip_data_sock sock r.1) with freed := r.1.freed }
  match r.2 with
  | some ret => some (st1, ret)
  | none =>
    match sock.stack with
    | none => none
    | some idx =>
      match (if data_count > free_count then
          add_recv_list (add_read_lwip_drop st1 idx r.1.drop) fd
        else some (add_read_lwip_drop st1 idx r.1.drop)) with
      | none => none
      | some st3 =>
        some (add_read_lwip_cnt
          (if r.1.recv_len > 0 ∧ flags &&& MSG_PEEK = 0 then
            set_socket st3 fd (add_epoll_event (read_lwip_data_sock sock r.1) EPOLLIN)
          else st3) idx (min free_count data_count),
          r.1.recv_len)

/-- The function `read_lwip_data(sock, flags, apiflags)` of `lstack_lwip.c`, for the socket
of descriptor `fd`; `none` when a `NULL` pointer is dereferenced. -/
def read_lwip_data (recv : netconn_recv_fn) (st : lstack) (fd : Int) (flags apiflags : Nat) :
    Option (lstack × Int) :=
  match get_socket st fd with
  | none => none
  | some sock =>
    match sock.conn with
    | none => none
    | some conn =>
      match conn.recvmbox with
      | none => some (st, 0)
      | some mbox =>
        match sock.recv_ring with
        | none => none
        | some ring =>
          read_lwip_data_finish st fd sock flags (rte_ring_free_count ring) (rte_ring_count mbox)
            (read_lwip_data_loop recv flags
              (min (rte_ring_free_count ring) (rte_ring_count mbox))
              { conn := conn, recv_ring := ring, recv_len := 0, apiflags := apiflags
                freed := st.freed, drop := 0 })

/-- Modelled from the spec: lwIP's `lwip_recv` is not in the sources; it is the engine's
receive entry point, which called with zero length pulls more data by running the hook
`read_lwip_data` on the socket of the descriptor. -/
def lwip_recv (recv : netconn_recv_fn) (st : lstack) (fd : Int) (flags : Nat) : Option lstack :=
  (read_lwip_data recv st fd flags 0).map (fun r => r.1)

/-- The successor `pos->next` of a position of the circular recv-list: `none` is the list
head, `some fd` the node of a descriptor; an unlinked node points to itself. -/
def list_next (l : List Int) (pos : Option Int) : Option Int :=
  match pos with
  | none => l.head?
  | some k =>
    match l.dropWhile (· ≠ k) with
    | [] => some k
    | _ :: rest => rest.head?

/-- The variables of `read_recv_list`: the state, the cursors `node` and `temp` of
`list_for_each_safe`, the pointer `first_sock`, and the descriptors passed to `lwip_recv`
so far, oldest first. -/
structure recv_list_vars where
  st : lstack
  node : Option Int
  temp : Option Int
  first_sock : Option Int
  serviced : List Int

/-- How one round of the loop of `read_recv_list` ends. -/
inductive recv_list_step where
  | exit : recv_list_step
  | crash : recv_list_step
  | next (v : recv_list_vars) : recv_list_step

/-- One round of the loop `list_for_each_safe(node, temp, list)` of `read_recv_list` (lines
411-428) for the worker `idx`: the loop test, the body and the step to the next node. -/
def read_recv_list_step (recv : netconn_recv_fn) (idx : Nat) (v : recv_list_vars) :
    recv_list_step :=
  match v.node with
  | none => recv_list_step.exit
  | some k =>
    if v.first_sock = some k then recv_list_step.exit
    else
      match get_socket v.st k with
      | none => recv_list_step.crash
      | some sock =>
        let first := if v.first_sock = none then some k else v.first_sock
        let serviceable : Bool :=
          match sock.conn, sock.recv_ring, sock.send_ring with
          | some _, some ring, some _ => decide (rte_ring_free_count ring ≠ 0)
          | _, _, _ => false
        if serviceable then
          match lwip_recv recv (list_del_node_init v.st k) k sock.recv_flags with
          | none => recv_list_step.crash
          | some st1 =>
            recv_list_step.next
              { st := st1, node := v.temp
                temp := list_next (st1.stack_group idx).recv_list v.temp
                first_sock := first, serviced := v.serviced ++ [k] }
        else
          recv_list_step.next
            { st := v.st, node := v.temp
              temp := list_next (v.st.stack_group idx).recv_list v.temp
              first_sock := first, serviced := v.serviced }

/-- The variables of `read_recv_list` after at most `n` rounds, and whether the loop has
ended by then (`some true` by its test or `break`, `some false` by a `NULL` dereference). -/
def read_recv_list_iter (recv : netconn_recv_fn) (idx : Nat) :
    Nat → recv_list_vars → recv_list_vars × Option Bool
  | 0, v => (v, none)
  | n + 1, v =>
    match read_recv_list_step recv idx v with
    | recv_list_step.exit => (v, some true)
    | recv_list_step.crash => (v, some false)
    | recv_list_step.next v1 => read_recv_list_iter recv idx n v1

/-- The variables of `read_recv_list` when the loop is entered. -/
def read_recv_list_init (st : lstack) (idx : Nat) : recv_list_vars :=
  { st := st
    node := list_next (st.stack_group idx).recv_list none
    temp := list_next (st.stack_group idx).recv_list
      (list_next (st.stack_group idx).recv_list none)
    first_sock := none, serviced := [] }

/-- The function `read_recv_list()` of `lstack_lwip.c`, run by the worker `idx` with the
given fuel: the state it leaves and the descriptors it passed to `lwip_recv`, in order. -/
def read_recv_list (recv : netconn_recv_fn) (fuel : Nat) (st : lstack) (idx : Nat) :
    Option (lstack × List Int) :=
  match read_recv_list_iter recv idx fuel (read_recv_list_init st idx) with
  | (v, some true) => some (v.st, v.serviced)
  | _ => none

/-- An engine for the examples: a receive hands over the oldest buffer of the mailbox and
fails with `ERR_WOULDBLOCK` (-7) when the mailbox is empty or absent. -/
def ex_netconn_recv : netconn_recv_fn := fun conn _ =>
  match conn.recvmbox with
  | none => (Except.error (-7), conn)
  | some mbox =>
    match rte_ring_sc_dequeue mbox with
    | (_, some p, mbox1) => (Except.ok p, { conn with recvmbox := some mbox1 })
    | (_, none, _) => (Except.error (-7), conn)

/-- A descriptor whose receive ring (one slot) is full. -/
def ex_full_sock : lwip_sock :=
  { conn := some { recvmbox := some { capacity := 4, objs := [pbuf.last [1] 1 1] } }
    recv_ring := some { capacity := 1, objs := [pbuf.last [0] 1 1] }
    send_ring := some { capacity := 4, objs := [] } }

/-- A descriptor last read with `MSG_PEEK`, with one free slot in its receive ring and two
buffers in the mailbox of the engine. -/
def ex_peek_list_sock : lwip_sock :=
  { conn := some { recvmbox := some { capacity := 4, objs := [pbuf.last [1] 1 1, pbuf.last [2] 1 1] } }
    recv_ring := some { capacity := 1, objs := [] }
    send_ring := some { capacity := 4, objs := [] }
    recv_flags := MSG_PEEK }

/-- A process with one worker whose recv-list holds the descriptors 5, 6 and 7: the receive
ring of 5 is full, 6 and 7 are as `ex_peek_list_sock`. -/
def ex_list_state : lstack :=
  { sockets := fun i =>
      if i = 5 then some ex_full_sock
      else if i = 6 ∨ i = 7 then some ex_peek_list_sock else none
    stack_group := fun _ => { send_idle_ring := ex_idle_ring, recv_list := [5, 6, 7] } }

/-- The function `rtw_connect(s, name, namelen)` of `lstack_rtw_api.c`. -/
def rtw_connect (engine : rpc_engine) (st : lstack) (s : Int) (name : sockaddr_in)
    (namelen : Nat) : lstack × Int :=
  match get_protocol_stack_by_fd st s with
  | none => GAZELLE_RETURN EBADF st
  | some idx => rpc_call engine st idx (rpc_msg.connect s name namelen)

/-- The function `rtw_setsockopt(s, level, optname, optval, optlen)` of `lstack_rtw_api.c`. -/
def rtw_setsockopt (engine : rpc_engine) (st : lstack) (s : Int) (level optname : Int) :
    lstack × Int :=
  match get_protocol_stack_by_fd st s with
  | none => GAZELLE_RETURN EBADF st
  | some idx => rpc_call engine st idx (rpc_msg.setsockopt s level optname)

/-- The function `rtw_getsockopt(s, level, optname, optval, optlen)` of `lstack_rtw_api.c`. -/
def rtw_getsockopt (engine : rpc_engine) (st : lstack) (s : Int) (level optname : Int) :
    lstack × Int :=
  match get_protocol_stack_by_fd st s with
  | none => GAZELLE_RETURN EBADF st
  | some idx => rpc_call engine st idx (rpc_msg.getsockopt s level optname)

/-- The function `rtw_getpeername(s, name, namelen)` of `lstack_rtw_api.c`. -/
def rtw_getpeername (engine : rpc_engine) (st : lstack) (s : Int) : lstack × Int :=
  match get_protocol_stack_by_fd st s with
  | none => GAZELLE_RETURN EBADF st
  | some idx => rpc_call engine st idx (rpc_msg.getpeername s)

/-- The function `rtw_getsockname(s, name, namelen)` of `lstack_rtw_api.c`. -/
def rtw_getsockname (engine : rpc_engine) (st : lstack) (s : Int) : lstack × Int :=
  match get_protocol_stack_by_fd st s with
  | none => GAZELLE_RETURN EBADF st
  | some idx => rpc_call engine st idx (rpc_msg.getsockname s)

/-! ## Notions used to state the properties of the fan-out and of the recv-list -/

/-- What the walks along a clone chain read of the socket of a descriptor: the next-clone
link, the connection and the owning worker. -/
def sock_links (st : lstack) (fd : Int) : Option (Option Int × Option netconn × Option Nat) :=
  (st.sockets fd).map (fun s => (s.listen_next, s.conn, s.stack))

/-- The descriptors of the list are linked in this order through `listen_next`, every clone
after the first has a connection, and the link of the last one is `NULL`. -/
def clone_chain : lstack → List Int → Prop
  | _, [] => False
  | st, [f] => (st.sockets f).map (fun s => s.listen_next) = some none
  | st, f :: g :: rest =>
    (st.sockets f).map (fun s => s.listen_next) = some (some g) ∧
      POSIX_IS_CLOSED (st.sockets g) = false ∧ clone_chain st (g :: rest)

instance decCloneChain (st : lstack) : (l : List Int) → Decidable (clone_chain st l)
  | [] => isFalse (fun h => h)
  | [f] => by unfold clone_chain; exact inferInstance
  | f :: g :: rest => by
    unfold clone_chain
    have := decCloneChain st (g :: rest)
    exact inferInstance

/-- The flag `is_master_fd` of the connection of a descriptor, if it has one. -/
def is_master (st : lstack) (fd : Int) : Option Nat :=
  ((st.sockets fd).bind (fun s => s.conn)).map (fun c => c.is_master_fd)

/-- The descriptor has a connection with the ACCEPT-IN flag set. -/
def accept_in (st : lstack) (fd : Int) : Bool :=
  ((st.sockets fd).bind (fun s => s.conn)).map (fun c => c.acceptin) = some true

/-- The connection count of the worker that owns a descriptor (0 without worker). -/
def owner_conn_num (st : lstack) (fd : Int) : Nat := (sock_conn_num st fd).getD 0

/-- The scan of `get_min_accept_sock` over a chain given as a list: `m` is `min_sock`. -/
def min_accept_scan (acc : Int → Bool) (cn : Int → Nat) : List Int → Option Int → Option Int
  | [], m => m
  | k :: rest, m =>
    if acc k then
      match m with
      | none => min_accept_scan acc cn rest (some k)
      | some x => min_accept_scan acc cn rest (if cn x > cn k then some k else some x)
    else min_accept_scan acc cn rest m

/-- The state after posting `ShadowFd(fd, name, namelen)` to the workers of the list, in
order. -/
def shadow_run (engine : rpc_engine) (fd : Int) (name : sockaddr_in) (namelen : Nat) :
    List Nat → lstack → lstack
  | [], st => st
  | i :: rest, st =>
    shadow_run engine fd name namelen rest
      (rpc_call engine st i (rpc_msg.shadow_fd fd name namelen)).1

/-- No recv-list of a worker of the group holds a descriptor twice. -/
def recv_list_nodup (st : lstack) : Prop :=
  ∀ i, i < st.stack_num → (st.stack_group i).recv_list.Nodup

instance (st : lstack) : Decidable (recv_list_nodup st) := by
  unfold recv_list_nodup; exact inferInstance

/-- The owning worker of the descriptor, if it has one, is a worker of the group. -/
def owner_in_group (st : lstack) (fd : Int) : Prop :=
  ∀ idx, get_protocol_stack_by_fd st fd = some idx → idx < st.stack_num

/-! ## Concrete engines and states used to instantiate the fan-out theorems -/

/-- An engine for the examples. `ShadowFd(fd)` on worker `idx` fails on the worker
`fail_at` and when descriptor `1000 + idx` is taken; else it creates the clone `1000 + idx`
owned by `idx` and links it behind `fd`. `Close(fd)` releases the connection of `fd`. Every
other command succeeds and changes nothing. -/
def ex_engine (fail_at : Option Nat) : rpc_engine := fun st idx msg =>
  match msg with
  | rpc_msg.shadow_fd fd _ _ =>
    match st.sockets fd, st.sockets (1000 + idx) with
    | some s, none =>
      if fail_at = some idx then (st, -1)
      else
        (set_socket
          (set_socket st (1000 + idx)
            { recv_ring := none, send_ring := none, stack := some idx
              listen_next := s.listen_next })
          fd { s with listen_next := some (1000 + idx) }, 1000 + idx)
    | _, _ => (st, -1)
  | rpc_msg.close fd =>
    match st.sockets fd with
    | some s => (set_socket st fd { s with conn := none }, 0)
    | none => (st, -1)
  | _ => (st, 0)

/-- Surroundings for the examples: the engine `ex_engine`, the local address 0.0.0.0:80,
a wakeup object can be built, and every read fails with `EAGAIN`. -/
def ex_fan_env (fail_at : Option Nat) : fan_env :=
  { engine := ex_engine fail_at
    sockname := fun _ _ => ({ sin_family := AF_INET, sin_port := 80, sin_addr := 0 }, 16)
    poll_construct_wakeup := some {}
    close := fun st _ => (st, 0)
    do_lwip_read_from_stack := fun st _ => ({ st with errno := EAGAIN }, -1)
    lstack_block_wait := fun st => st }

/-- A process with three workers, with connection counts 4, 2 and 2, and the descriptor 5,
owned by worker 0, without clones. -/
def ex_fan_state : lstack :=
  { sockets := fun i => if i = 5 then some { recv_ring := none, send_ring := none } else none
    stack_group := fun i => { send_idle_ring := ex_idle_ring, conn_num := if i = 0 then 4 else 2 }
    stack_num := 3 }

/-- The state `ex_fan_state` with the clones 6 (worker 1) and 7 (worker 2) chained behind
descriptor 5; the clones 6 and 7 have ACCEPT-IN set. -/
def ex_chain_state : lstack :=
  { ex_fan_state with
    sockets := fun i =>
      if i = 5 then some { recv_ring := none, send_ring := none, listen_next := some 6 }
      else if i = 6 then
        some { conn := some { acceptin := true }, recv_ring := none, send_ring := none
               stack := some 1, listen_next := some 7 }
      else if i = 7 then
        some { conn := some { acceptin := true }, recv_ring := none, send_ring := none
               stack := some 2 }
      else none }

/-- A process with two workers and a shadow descriptor whose two clones, 5 on worker 0 and
6 on worker 1, are chained cyclically. -/
def ex_cycle_state : lstack :=
  { sockets := fun i =>
      if i = 5 then some { recv_ring := none, send_ring := none, listen_next := some 6 }
      else if i = 6 then
        some { recv_ring := none, send_ring := none, stack := some 1, listen_next := some 5 }
      else none
    stack_group := fun _ => { send_idle_ring := ex_idle_ring }
    stack_num := 2 }

/-- An engine whose commands all succeed and change nothing. -/
def ex_idle_engine : rpc_engine := fun st _ _ => (st, 0)

/-- The invariant of the recv-lists: no list of a worker of the group holds a descriptor
twice, and the owning worker of every descriptor is a worker of the group. -/
def recv_list_inv (st : lstack) : Prop :=
  recv_list_nodup st ∧ ∀ fd, owner_in_group st fd

/-- Every `ShadowFd(fd, name, namelen)` posted to the workers of the list, in order,
succeeds (its result is not negative). -/
def shadow_ok (engine : rpc_engine) (fd : Int) (name : sockaddr_in) (namelen : Nat) :
    List Nat → lstack → Prop
  | [], _ => True
  | i :: rest, st =>
    0 ≤ (rpc_call engine st i (rpc_msg.shadow_fd fd name namelen)).2 ∧
      shadow_ok engine fd name namelen rest
        (rpc_call engine st i (rpc_msg.shadow_fd fd name namelen)).1

instance decShadowOk (engine : rpc_engine) (fd : Int) (name : sockaddr_in) (namelen : Nat) :
    (l : List Nat) → (st : lstack) → Decidable (shadow_ok engine fd name namelen l st)
  | [], _ => isTrue trivial
  | i :: rest, st => by
    unfold shadow_ok
    have := decShadowOk engine fd name namelen rest
      (rpc_call engine st i (rpc_msg.shadow_fd fd name namelen)).1
    exact inferInstance

/-- The commands that `stack_broadcast_listen` posts inside its loop. -/
def is_listen_cmd : rpc_msg → Bool
  | rpc_msg.shadow_fd _ _ _ => true
  | rpc_msg.listen _ _ => true
  | _ => false

/-- What the fan-out of a listen relies on in the engine: `ShadowFd` and `Listen` leave
every socket that exists in place, with its `is_master_fd` flag, and a `ShadowFd` that
succeeds returns a descriptor that had no socket before. -/
def engine_clones_fresh (engine : rpc_engine) : Prop :=
  (∀ st idx msg g, is_listen_cmd msg = true →
    ((st.sockets g).isSome = true → ((engine st idx msg).1.sockets g).isSome = true) ∧
    ∀ v, is_master st g = some v → is_master (engine st idx msg).1 g = some v) ∧
  ∀ st idx fd name namelen, 0 ≤ (engine st idx (rpc_msg.shadow_fd fd name namelen)).2 →
    st.sockets (engine st idx (rpc_msg.shadow_fd fd name namelen)).2 = none

/-- The commands posted by the loop of `stack_broadcast_listen` for the workers of the
list, when `clone i` is the descriptor of the clone on worker `i`. -/
def listen_cmds (fd : Int) (addr : sockaddr_in) (addr_len : Nat) (backlog : Int) (cur : Nat)
    (clone : Nat → Int) (ws : List Nat) : List (Nat × rpc_msg) :=
  (ws.map (fun i =>
    (if i ≠ cur then [(i, rpc_msg.shadow_fd fd addr addr_len)] else []) ++
      [(i, rpc_msg.listen (clone i) backlog)])).flatten

/-! ## The POSIX shim: `do_epoll_wait`, `do_close`, `do_poll`, `do_ppoll` -/

/-- The function `do_epoll_wait(epfd, events, maxevents, timeout)` of `lstack_wrap.c`;
`events_null` says whether `events` is `NULL`. -/
def do_epoll_wait (env : shim_env) (st : lstack) (epfd : Int) (events_null : Bool)
    (maxevents timeout : Int) : shim_result :=
  if env.select_posix_path = posix_path.PATH_KERNEL then
    { st := st, ret := env.posix_epoll_wait_fn epfd maxevents timeout
      calls := [shim_call.posix_epoll_wait epfd maxevents timeout] }
  else if epfd < 0 then
    { st := (GAZELLE_RETURN EBADF st).1, ret := (GAZELLE_RETURN EBADF st).2, calls := [] }
  else if events_null ∨ timeout < -1 ∨ maxevents ≤ 0 then
    { st := (GAZELLE_RETURN EINVAL st).1, ret := (GAZELLE_RETURN EINVAL st).2, calls := [] }
  else
    { st := st, ret := env.wrap_epoll_wait_fn epfd maxevents timeout
      calls := [shim_call.wrap_epoll_wait epfd maxevents timeout] }

/-- The function `do_close(s)` of `lstack_wrap.c`. The result is `none` when the source
calls through the pointer `posix_api` although it is `NULL`. -/
def do_close (env : shim_env) (st : lstack) (s : Int) : Option shim_result :=
  if env.select_posix_path = posix_path.PATH_KERNEL ∨
      env.select_fd_posix_path s = posix_path.PATH_KERNEL then
    if ¬ env.posix_api_null ∧ ¬ env.ues_posix then
      if (env.wrap_close_fn st s).2 = 0 then
        some { st := (env.wrap_close_fn st s).1, ret := 0, calls := [shim_call.wrap_close s] }
      else
        some { st := (env.wrap_close_fn st s).1, ret := env.posix_close_fn s
               calls := [shim_call.wrap_close s, shim_call.posix_close s] }
    else if env.posix_api_null then none
    else some { st := st, ret := env.posix_close_fn s, calls := [shim_call.posix_close s] }
  else
    some { st := (env.wrap_close_fn st s).1, ret := (env.wrap_close_fn st s).2
           calls := [shim_call.wrap_close s] }

/-- The function `do_poll(fds, nfds, timeout)` of `lstack_wrap.c`; `fds_null` says whether
`fds` is `NULL`. -/
def do_poll (env : shim_env) (st : lstack) (fds_null : Bool) (nfds : Nat) (timeout : Int) :
    shim_result :=
  if env.select_posix_path = posix_path.PATH_KERNEL ∨ fds_null ∨ nfds = 0 then
    { st := st, ret := env.posix_poll_fn nfds timeout
      calls := [shim_call.posix_poll nfds timeout] }
  else
    { st := st, ret := env.wrap_poll_fn nfds timeout, calls := [shim_call.wrap_poll nfds timeout] }

/-- The fields of `struct timespec`. -/
structure timespec where
  tv_sec : Int
  tv_nsec : Int
deriving DecidableEq, Repr

/-- The conversion of a value to `int32_t` (two's complement, modulo 2^32). -/
def to_int32 (x : Int) : Int := (x + 2 ^ 31) % 2 ^ 32 - 2 ^ 31

/-- The function `do_ppoll(fds, nfds, tmo_p, sigmask)` of `lstack_wrap.c`; `tmo_p` is
`none` for `NULL`. The sum is computed in `long` and stored in the `int32_t` variable
`timeout`; `sigmask` is not used by the source. -/
def do_ppoll (env : shim_env) (st : lstack) (fds_null : Bool) (nfds : Nat)
    (tmo_p : Option timespec) : shim_result :=
  match tmo_p with
  | none => { st := (GAZELLE_RETURN EINVAL st).1, ret := (GAZELLE_RETURN EINVAL st).2, calls := [] }
  | some t =>
    if fds_null then
      { st := (GAZELLE_RETURN EINVAL st).1, ret := (GAZELLE_RETURN EINVAL st).2, calls := [] }
    else do_poll env st fds_null nfds (to_int32 (t.tv_sec * 1000 + Int.tdiv t.tv_nsec 1000000))

/-- Surroundings in which the kernel path is selected and the pointer `posix_api` is
`NULL`. -/
def ex_null_env : shim_env :=
  { ex_env with select_posix_path := posix_path.PATH_KERNEL, posix_api_null := true }

/-! ## `stack_broadcast_accept4` -/

/-- The function `del_accept_in_event(sock)` of `lstack_rtw_api.c`, for a socket with a
wakeup object; `events` is a 32-bit mask. The event list of the wakeup object is not
modelled. `none` when the connection read by `NETCONN_IS_ACCEPTIN` is `NULL`. -/
def del_accept_in_event (sock : lwip_sock) : Option lwip_sock :=
  match sock.conn with
  | none => none
  | some conn =>
    if ¬ conn.acceptin then some { sock with events := sock.events &&& (0xffffffff - EPOLLIN) }
    else some sock

/-- The loop `while ((min_sock = get_min_accept_sock(fd)) == NULL) lstack_block_wait(..)`
of `stack_broadcast_accept4` (lines 177-179); `rounds` bounds the number of waits. -/
def accept4_wait (env : fan_env) (fuel : Nat) (fd : Int) :
    Nat → lstack → Option (lstack × Option Int)
  | 0, _ => none
  | rounds + 1, st =>
    match get_min_accept_sock env fuel st fd with
    | none => none
    | some (st1, some m) => some (st1, some m)
    | some (st1, none) => accept4_wait env fuel fd rounds (env.lstack_block_wait st1)

/-- The statement `if (min_sock && min_sock->wakeup && min_sock->wakeup->type ==
WAKEUP_EPOLL) del_accept_in_event(min_sock);` of `stack_broadcast_accept4` (lines
190-192). -/
def accept4_del_event (st : lstack) (min_sock : Option Int) : Option lstack :=
  match min_sock.bind (fun m => (lwip_get_socket st m).map (fun s => (m, s))) with
  | none => some st
  | some (m, s) =>
    match s.wakeup with
    | none => some st
    | some w =>
      if w.type = wakeup_type.WAKEUP_EPOLL then
        (del_accept_in_event s).map (fun s1 => set_socket st m s1)
      else some st

/-- The part of `stack_broadcast_accept4` after `min_sock` is chosen (lines 182-197). -/
def accept4_finish (env : fan_env) (st : lstack) (min_sock : Option Int) (flags : Int) :
    Option (lstack × Int) :=
  match min_sock.bind (fun m => (lwip_get_socket st m).bind (fun s => s.conn.map (fun _ => m)))
  with
  | some m =>
    match get_protocol_stack_by_fd st m with
    | none => some (GAZELLE_RETURN EBADF st)
    | some idx =>
      (accept4_del_event (rpc_call env.engine st idx (rpc_msg.accept m flags)).1 min_sock).map
        (fun st2 =>
          if (rpc_call env.engine st idx (rpc_msg.accept m flags)).2 < 0 then
            ({ st2 with errno := EAGAIN }, (rpc_call env.engine st idx (rpc_msg.accept m flags)).2)
          else (st2, (rpc_call env.engine st idx (rpc_msg.accept m flags)).2))
  | none =>
    (accept4_del_event st min_sock).map (fun st2 => ({ st2 with errno := EAGAIN }, -1))

/-- The function `stack_broadcast_accept4(fd, addr, addrlen, flags)` of `lstack_rtw_api.c`;
the address of the peer belongs to the engine. `fuel` bounds the walks along the clone
chain and the number of waits of a blocking listener. -/
def stack_broadcast_accept4 (env : fan_env) (fuel : Nat) (st : lstack) (fd : Int)
    (flags : Int) : Option (lstack × Int) :=
  match lwip_get_socket st fd with
  | none => some (GAZELLE_RETURN EBADF st)
  | some sock =>
    match sock.conn with
    | none => none
    | some conn =>
      match (if conn.nonblocking then get_min_accept_sock env fuel st fd
        else accept4_wait env fuel fd fuel st) with
      | none => none
      | some r => accept4_finish env r.1 r.2 flags

def ECONNABORTED : Int := 103

/-- An engine whose `Accept` fails with `ECONNABORTED`; every other command succeeds and
changes nothing. -/
def ex_accept_engine : rpc_engine := fun st _ msg =>
  match msg with
  | rpc_msg.accept _ _ => ({ st with errno := ECONNABORTED }, -1)
  | _ => (st, 0)

/-! ## `tcp_pktmbuf_alloc` and `stack_replenish_send_idlembuf` -/

/-- DPDK's mempool as `stack_replenish_send_idlembuf` sees it: the result of the `i`-th
`rte_pktmbuf_alloc_bulk(pool, &mbuf, 1)` of a call, `none` when it fails, else the tailroom
of the mbuf handed out. -/
structure rte_mempool where
  alloc : Nat → Option Nat

/-- lwIP's macro `LWIP_MEM_ALIGN_SIZE(size)`: `size` rounded up to a multiple of
`MEM_ALIGNMENT`. -/
def LWIP_MEM_ALIGN_SIZE (MEM_ALIGNMENT size : Nat) : Nat :=
  (size + MEM_ALIGNMENT - 1) / MEM_ALIGNMENT * MEM_ALIGNMENT

/-- The transmit buffer `tcp_pktmbuf_alloc` forms for `len` bytes. -/
def tx_pbuf (len : Nat) : pbuf := pbuf.last (List.replicate len 0) len len

/-- The function `tcp_pktmbuf_alloc(pool, layer, len)` of `lstack_lwip.c`, given the result
`mbuf` of its `rte_pktmbuf_alloc_bulk`. `total_len` is a `u16_t`. The result is `some none`
for `NULL` and `none` when `pbuf_alloced_custom` returns `NULL` (no room for `len` bytes
behind the header), which the source dereferences. -/
def tcp_pktmbuf_alloc (MEM_ALIGNMENT : Nat) (mbuf : Option Nat) (layer len : Nat) :
    Option (Option pbuf) :=
  match mbuf with
  | none => some none
  | some tailroom =>
    if (LWIP_MEM_ALIGN_SIZE MEM_ALIGNMENT layer + LWIP_MEM_ALIGN_SIZE MEM_ALIGNMENT len)
        % U16_MAX1 > tailroom then some none
    else if LWIP_MEM_ALIGN_SIZE MEM_ALIGNMENT layer + len >
        (LWIP_MEM_ALIGN_SIZE MEM_ALIGNMENT layer + LWIP_MEM_ALIGN_SIZE MEM_ALIGNMENT len)
          % U16_MAX1 then none
    else some (some (tx_pbuf len))

/-- The `for` loop of `stack_replenish_send_idlembuf` (lines 172-183) with `n` rounds
left, `i` allocations made; the result is the idle ring and the buffers freed. -/
def stack_replenish_send_idlembuf_loop (MEM_ALIGNMENT : Nat) (pool : rte_mempool)
    (layer len : Nat) : Nat → Nat → rte_ring → List pbuf → Option (rte_ring × List pbuf)
  | 0, _, ring, freed => some (ring, freed)
  | n + 1, i, ring, freed =>
    match tcp_pktmbuf_alloc MEM_ALIGNMENT (pool.alloc i) layer len with
    | none => none
    | some none => some (ring, freed)
    | some (some p) =>
      if (rte_ring_sp_enqueue ring p).1 < 0 then some (ring, freed ++ [p])
      else
        stack_replenish_send_idlembuf_loop MEM_ALIGNMENT pool layer len n (i + 1)
          (rte_ring_sp_enqueue ring p).2 freed

/-- The function `stack_replenish_send_idlembuf(stack)` of `lstack_lwip.c` for the worker
`idx`, whose transmit mempool is `pool`; `PBUF_TRANSPORT` and `TCP_MSS` are the lwIP
constants of these names. -/
def stack_replenish_send_idlembuf (MEM_ALIGNMENT PBUF_TRANSPORT TCP_MSS : Nat)
    (pool : rte_mempool) (st : lstack) (idx : Nat) : Option lstack :=
  (stack_replenish_send_idlembuf_loop MEM_ALIGNMENT pool PBUF_TRANSPORT TCP_MSS
    (rte_ring_free_count (st.stack_group idx).send_idle_ring) 0
    (st.stack_group idx).send_idle_ring st.freed).map
    (fun r => { set_stack st idx { st.stack_group idx with send_idle_ring := r.1 } with
                freed := r.2 })

/-- A mempool for the examples: the first two allocations hand out mbufs of 2048 bytes,
the third fails. -/
def ex_pool : rte_mempool := { alloc := fun i => if i < 2 then some 2048 else none }

/-- The `i`-th call of `tcp_pktmbuf_alloc` returns a buffer. -/
def alloc_succeeds (MEM_ALIGNMENT : Nat) (pool : rte_mempool) (layer len : Nat) (i : Nat) :
    Prop :=
  tcp_pktmbuf_alloc MEM_ALIGNMENT (pool.alloc i) layer len = some (some (tx_pbuf len))

instance (MEM_ALIGNMENT : Nat) (pool : rte_mempool) (layer len i : Nat) :
    Decidable (alloc_succeeds MEM_ALIGNMENT pool layer len i) := by
  unfold alloc_succeeds; exact inferInstance

/-! ## `stack_send` -/

/-- The protocol engine as `stack_send` sees it. The first argument of each function is
the list of the buffers handed to `lwip_send` so far in the call, oldest first:
`tcp_sndbuf` is the send window the engine then reports, `lwip_send` the result of handing
it the next buffer with the given flags, `tcp_sndqueuelen` the length of its send queue.
`TCP_SNDLOWAT` and `TCP_SNDQUEUELOWAT` are the lwIP constants of these names. -/
structure send_env where
  tcp_sndbuf : List pbuf → Nat
  lwip_send : List pbuf → pbuf → Int → Int
  tcp_sndqueuelen : List pbuf → Nat
  TCP_SNDLOWAT : Nat
  TCP_SNDQUEUELOWAT : Nat

/-- The variables of the loop of `stack_send`: the send ring, `sock->send_lastdata`, the
counters of the worker, the buffers handed to `lwip_send` so far, and the variable `ret`. -/
structure send_vars where
  send_ring : rte_ring
  send_lastdata : Option pbuf
  stats : gazelle_stack_stat
  sent : List pbuf
  ret : Int
deriving DecidableEq, Repr

/-- The body of the loop of `stack_send` from the window test on (lines 220-233) for the
buffer `p`, and the loop test `while (ret == 0)`: `Sum.inl` when the loop is left,
`Sum.inr` when it goes round again; `none` when `pcb.tcp` or the worker is `NULL` where
the source dereferences it. `available` is a `uint16_t`. -/
def stack_send_body (env : send_env) (flags : Int) (has_pcb has_stack : Bool) (p : pbuf)
    (v : send_vars) : Option (send_vars ⊕ send_vars) :=
  if ¬ has_pcb then none
  else if env.tcp_sndbuf v.sent % U16_MAX1 < p.tot_len then
    some (Sum.inl { v with send_lastdata := some p })
  else if ¬ has_stack then none
  else if env.lwip_send v.sent p flags ≠ p.tot_len then
    some (Sum.inl { v with
      stats := { v.stats with write_lwip_drop := v.stats.write_lwip_drop + 1 }
      sent := v.sent ++ [p] })
  else if v.ret = 0 then
    some (Sum.inr { v with
      stats := { v.stats with write_lwip_cnt := v.stats.write_lwip_cnt + 1 }
      sent := v.sent ++ [p] })
  else
    some (Sum.inl { v with
      stats := { v.stats with write_lwip_cnt := v.stats.write_lwip_cnt + 1 }
      sent := v.sent ++ [p] })

/-- The loop `do { ... } while (ret == 0)` of `stack_send` (lines 209-234). -/
def stack_send_loop (env : send_env) (flags : Int) (has_pcb has_stack : Bool) :
    Nat → send_vars → Option send_vars
  | 0, _ => none
  | fuel + 1, v =>
    match v.send_lastdata with
    | some p =>
      match stack_send_body env flags has_pcb has_stack p { v with send_lastdata := none } with
      | none => none
      | some (Sum.inl v1) => some v1
      | some (Sum.inr v1) => stack_send_loop env flags has_pcb has_stack fuel v1
    | none =>
      match (rte_ring_sc_dequeue v.send_ring).2.1 with
      | none => some { v with ret := (rte_ring_sc_dequeue v.send_ring).1 }
      | some p =>
        match stack_send_body env flags has_pcb has_stack p
            { v with
              send_ring := (rte_ring_sc_dequeue v.send_ring).2.2
              ret := (rte_ring_sc_dequeue v.send_ring).1 } with
        | none => none
        | some (Sum.inl v1) => some v1
        | some (Sum.inr v1) => stack_send_loop env flags has_pcb has_stack fuel v1

/-- The function `update_lwip_outevent(conn)` of `lstack_lwip.c`: the connection
afterwards, and whether `API_EVENT(conn, NETCONN_EVT_SENDPLUS, 0)` was raised. -/
def update_lwip_outevent (env : send_env) (sent : List pbuf) (conn : netconn) :
    netconn × Bool :=
  if conn.pcb_tcp ∧ env.tcp_sndbuf sent > env.TCP_SNDLOWAT ∧
      env.tcp_sndqueuelen sent < env.TCP_SNDQUEUELOWAT then
    ({ conn with check_writespace := false }, true)
  else (conn, false)

/-- What `stack_send` leaves behind: the state, the return value (a `uint32_t`), the
buffers handed to `lwip_send`, in order, and whether the SEND-PLUS event was raised. -/
structure send_result where
  st : lstack
  ret : Nat
  sent : List pbuf
  sendplus : Bool

/-- The function `stack_send(fd, flags)` of `lstack_lwip.c`. `ret0` is the value the
variable `ret` happens to hold at entry: the source declares it without initialising it.
`none` when a `NULL` pointer is dereferenced. -/
def stack_send (env : send_env) (ret0 : Int) (st : lstack) (fd : Int) (flags : Int) :
    Option send_result :=
  match get_socket st fd with
  | none => some { st := st, ret := 2 ^ 32 - 22, sent := [], sendplus := false }
  | some sock =>
    match sock.send_ring, sock.conn with
    | some ring, some conn =>
      match stack_send_loop env flags conn.pcb_tcp sock.stack.isSome (rte_ring_count ring + 2)
          { send_ring := ring, send_lastdata := sock.send_lastdata
            stats := ((sock.stack.map (fun i => (st.stack_group i).stats)).getD {})
            sent := [], ret := ret0 } with
      | none => none
      | some v =>
        some
          { st :=
              match sock.stack with
              | some idx =>
                set_stack
                  (set_socket st fd
                    { sock with
                      conn := some (update_lwip_outevent env v.sent conn).1
                      send_ring := some v.send_ring
                      send_lastdata := v.send_lastdata })
                  idx { st.stack_group idx with stats := v.stats }
              | none =>
                set_socket st fd
                  { sock with
                    conn := some (update_lwip_outevent env v.sent conn).1
                    send_ring := some v.send_ring
                    send_lastdata := v.send_lastdata }
            ret := rte_ring_count v.send_ring
            sent := v.sent
            sendplus := (update_lwip_outevent env v.sent conn).2 }
    | _, _ => none

/-- An engine that accepts every buffer in full: its window is always 65535 bytes and
`lwip_send` returns the length of the buffer. -/
def ex_send_env : send_env :=
  { tcp_sndbuf := fun _ => 65535
    lwip_send := fun _ p _ => p.tot_len
    tcp_sndqueuelen := fun _ => 0
    TCP_SNDLOWAT := 1071
    TCP_SNDQUEUELOWAT := 5 }

/-- A descriptor with the send-residue "8 9" and the buffers "7" and "6" in its send ring. -/
def ex_send_sock : lwip_sock :=
  { recv_ring := some { capacity := 4, objs := [] }
    send_ring := some { capacity := 4, objs := [pbuf.last [7] 1 1, pbuf.last [6] 1 1] }
    send_lastdata := some (pbuf.last [8, 9] 2 2) }

/-- The buffer the loop of `stack_send` takes next: the send-residue if present, else the
head of the send ring. -/
def send_next (v : send_vars) : Option pbuf :=
  match v.send_lastdata with
  | some p => some p
  | none => v.send_ring.objs.head?

/-! # Theorems -/

/-! ## `write_stack_data`: the bytes appended (C1) -/

theorem idle_pbuf_fill (p : pbuf) (d : List Nat) (c : Nat) (hp : idle_pbuf p)
    (hc : c ≤ p.len) (hd : c ≤ d.length) :
    (((pbuf_take p d c).set_len (c % U16_MAX1)).set_tot_len (c % U16_MAX1)).data = d.take c ∧
    (((pbuf_take p d c).set_len (c % U16_MAX1)).set_tot_len (c % U16_MAX1)).len = c ∧
    (((pbuf_take p d c).set_len (c % U16_MAX1)).set_tot_len (c % U16_MAX1)).tot_len = c ∧
    (((pbuf_take p d c).set_len (c % U16_MAX1)).set_tot_len (c % U16_MAX1)).wf := by
  cases p with
  | link pl l t n => simp [idle_pbuf, pbuf.next] at hp
  | last pl l t =>
    obtain ⟨-, h1, h2, h3⟩ := hp
    simp only [pbuf.len] at hc
    have hc' : c % U16_MAX1 = c := Nat.mod_eq_of_lt (by omega)
    have ht : ¬ (t < c) := by omega
    simp only [pbuf_take, pbuf.tot_len, ht, if_false, pbuf_take_loop, hc']
    by_cases h0 : c = 0
    · subst h0
      simp [pbuf.set_len, pbuf.set_tot_len, pbuf.data, pbuf.len, pbuf.tot_len, pbuf.wf,
        U16_MAX1]
    · simp only [h0, if_false, pbuf.set_len, pbuf.set_tot_len, pbuf.data, pbuf.len, pbuf.tot_len,
        memcpy, Nat.min_eq_left hc, true_and, pbuf.wf]
      refine ⟨?_, ?_, by omega⟩
      · rw [List.take_append_of_le_length (by simp; omega)]
        simp
      · simp only [List.length_append, List.length_take, List.length_drop]
        omega

theorem write_stack_data_loop_spec (buf : List Nat) (len idle_cont : Nat)
    (hbuf : len ≤ buf.length) :
    ∀ (fuel : Nat) (v : write_vars),
      idle_cont - v.send_pkt < fuel →
      (∀ p ∈ v.stack.send_idle_ring.objs, idle_pbuf p) →
      v.send_len ≤ len →
      ∃ v' appended,
        write_stack_data_loop buf len idle_cont fuel v = some v' ∧
        v'.send_ring = { v.send_ring with objs := v.send_ring.objs ++ appended } ∧
        v'.send_len = v.send_len + ((appended.map pbuf.data).flatten).length ∧
        v'.send_len ≤ len ∧
        (appended.map pbuf.data).flatten = (buf.drop v.send_len).take (v'.send_len - v.send_len) ∧
        chunks (len - v.send_len) v.stack.send_idle_ring.objs appended ∧
        ∀ a ∈ appended, a.wf := by
  intro fuel
  induction fuel with
  | zero => intro v h; omega
  | succ fuel ih =>
    intro v hfuel hidle hle
    rw [write_stack_data_loop]
    by_cases hg : v.send_len < len ∧ v.send_pkt < idle_cont
    · rw [if_pos hg]
      rcases hobjs : v.stack.send_idle_ring.objs with _ | ⟨p, rest⟩
      · have hdq : rte_ring_sc_dequeue v.stack.send_idle_ring
            = (-ENOENT, none, v.stack.send_idle_ring) := by
          simp only [rte_ring_sc_dequeue, hobjs]
        rw [hdq]
        exact ⟨_, [], rfl, by simp, by simp, hle, by simp, by simp [chunks], by simp⟩
      · have hp : idle_pbuf p := hidle p (by rw [hobjs]; simp)
        have hdq : rte_ring_sc_dequeue v.stack.send_idle_ring
            = (0, some p, { v.stack.send_idle_ring with objs := rest }) := by
          simp only [rte_ring_sc_dequeue, hobjs]
        rw [hdq]
        simp only []
        set copy_len := if len - v.send_len > p.len then p.len else len - v.send_len with hcl
        have hc1 : copy_len ≤ p.len := by rw [hcl]; split <;> omega
        have hc2 : copy_len ≤ len - v.send_len := by rw [hcl]; split <;> omega
        have hc3 : copy_len = min (len - v.send_len) p.len := by rw [hcl]; split <;> omega
        have hd : copy_len ≤ (buf.drop v.send_len).length := by simp; omega
        obtain ⟨f1, f2, f3, f4⟩ := idle_pbuf_fill p (buf.drop v.send_len) copy_len hp hc1 hd
        set p2 := ((pbuf_take p (buf.drop v.send_len) copy_len).set_len
          (copy_len % U16_MAX1)).set_tot_len (copy_len % U16_MAX1) with hp2
        by_cases hroom : v.send_ring.objs.length < v.send_ring.capacity
        · simp only [rte_ring_sp_enqueue, hroom, if_true, ne_eq, not_true_eq_false, if_false]
          obtain ⟨v', app, e1, e2, e3, e4, e5, e6, e7⟩ := ih
            { send_ring := { v.send_ring with objs := v.send_ring.objs ++ [p2] }
              stack := { v.stack with
                send_idle_ring := { v.stack.send_idle_ring with objs := rest }
                stats := { v.stack.stats with app_write_cnt := v.stack.stats.app_write_cnt + 1 } }
              freed := v.freed
              send_len := v.send_len + copy_len
              send_pkt := v.send_pkt + 1 }
            (by simp only; omega)
            (by
              intro q hq
              exact hidle q (by rw [hobjs]; exact List.mem_cons_of_mem _ hq))
            (by simp only; omega)
          refine ⟨v', p2 :: app, e1, ?_, ?_, e4, ?_, ?_, ?_⟩
          · rw [e2]; simp
          · rw [e3]; simp [f1, List.length_take]; omega
          · simp only [List.map_cons, List.flatten_cons, f1, e5]
            simp only at e3
            have hlen : v'.send_len - v.send_len
                = copy_len + (v'.send_len - (v.send_len + copy_len)) := by rw [e3]; omega
            rw [hlen, List.take_add, List.drop_drop]
          · simp only [chunks, f1, f2, f3, List.length_take, List.length_drop]
            refine ⟨by omega, by omega, by omega, ?_⟩
            simp only at e6
            have : len - v.send_len - min copy_len (buf.length - v.send_len)
                = len - (v.send_len + copy_len) := by omega
            rw [this]; exact e6
          · intro a ha
            rcases List.mem_cons.mp ha with h | h
            · rw [h]; exact f4
            · exact e7 a h
        · simp only [rte_ring_sp_enqueue, hroom, if_false]
          rw [if_pos (by simp [ENOBUFS])]
          exact ⟨_, [], rfl, by simp, by simp, hle, by simp, by simp [chunks], by simp⟩
    · rw [if_neg hg]
      exact ⟨v, [], rfl, by simp, by simp, hle, by simp, by simp [chunks], by simp⟩

theorem chunks_index : ∀ (appended idle : List pbuf) (remaining i : Nat) (hi : i < appended.length),
    chunks remaining idle appended →
    ∃ q, idle[i]? = some q ∧
      (appended[i]).data.length
        = min (remaining - ((appended.take i).map pbuf.data).flatten.length) q.len ∧
      (appended[i]).len = (appended[i]).data.length ∧
      (appended[i]).tot_len = (appended[i]).data.length := by
  intro appended
  induction appended with
  | nil => intro idle remaining i hi; simp at hi
  | cons a as ih =>
    intro idle remaining i hi hch
    cases idle with
    | nil => simp [chunks] at hch
    | cons q qs =>
      obtain ⟨h1, h2, h3, h4⟩ := hch
      cases i with
      | zero => exact ⟨q, by simp, by simpa using h1, by simpa using h2, by simpa using h3⟩
      | succ i =>
        have hi' : i < as.length := by simpa using hi
        obtain ⟨q', g1, g2, g3, g4⟩ := ih qs (remaining - a.data.length) i hi' h4
        refine ⟨q', by simpa using g1, ?_, by simpa using g3, by simpa using g4⟩
        simp only [List.getElem_cons_succ, List.take_succ_cons, List.map_cons,
          List.flatten_cons, List.length_append]
        rw [g2, Nat.sub_sub]

/-- C1: on a descriptor whose send ring is not full, `write_stack_data` returns `r` with
`0 <= r <= len`; the buffers it appended to the send ring carry, concatenated in enqueue
order, exactly the first `r` bytes of `buf`; the `i`-th appended buffer holds
`min(bytes still to send, capacity of the i-th idle buffer)` bytes and its `len` and
`tot_len` are that number. -/
theorem write_stack_data_appends_prefix (VDEV_IDLE_QUEUE_SZ : Nat) (st : lstack) (fd : Int)
    (sock : lwip_sock) (sr : rte_ring) (idx : Nat) (buf : List Nat) (len : Nat)
    (hsock : get_socket st fd = some sock) (hring : sock.send_ring = some sr)
    (hstack : sock.stack = some idx) (hfree : rte_ring_free_count sr ≠ 0)
    (hidle : ∀ p ∈ (st.stack_group idx).send_idle_ring.objs, idle_pbuf p)
    (hbuf : buf.length = len) :
    ∃ (st' : lstack) (r : Nat) (appended : List pbuf),
      write_stack_data VDEV_IDLE_QUEUE_SZ st fd buf len = some (st', (r : Int)) ∧
      r ≤ len ∧
      (get_socket st' fd).map (fun s => s.send_ring)
        = some (some { sr with objs := sr.objs ++ appended }) ∧
      (appended.map pbuf.data).flatten = buf.take r ∧
      ∀ (i : Nat) (hi : i < appended.length),
        ∃ q, (st.stack_group idx).send_idle_ring.objs[i]? = some q ∧
          (appended[i]).data.length
            = min (len - ((appended.take i).map pbuf.data).flatten.length) q.len ∧
          (appended[i]).len = (appended[i]).data.length ∧
          (appended[i]).tot_len = (appended[i]).data.length := by
  obtain ⟨v', appended, e1, e2, e3, e4, e5, e6, -⟩ :=
    write_stack_data_loop_spec buf len (rte_ring_count (st.stack_group idx).send_idle_ring)
      (le_of_eq hbuf.symm)
      (rte_ring_count (st.stack_group idx).send_idle_ring + 1)
      { send_ring := sr, stack := st.stack_group idx, freed := st.freed,
        send_len := 0, send_pkt := 0 }
      (by simp) hidle (by simp)
  simp only [Nat.zero_add, Nat.sub_zero, List.drop_zero] at e3 e5 e6
  have hres : ∃ st', write_stack_data VDEV_IDLE_QUEUE_SZ st fd buf len
      = some (st', (v'.send_len : Int)) ∧
      get_socket st' fd = some { sock with send_ring := some v'.send_ring } := by
    simp only [write_stack_data, hsock, hring, hstack, hfree, if_false, e1]
    exact ⟨_, rfl, by simp [get_socket, set_socket, set_stack]⟩
  obtain ⟨st', hr1, hr2⟩ := hres
  refine ⟨st', v'.send_len, appended, hr1, e4, ?_, e5, ?_⟩
  · rw [hr2, e2]; rfl
  · intro i hi
    exact chunks_index appended _ len i hi e6

theorem write_stack_data_appends_prefix_witness :
    rte_ring_free_count { capacity := 4, objs := [] } ≠ 0 ∧
    ∃ (st' : lstack) (r : Nat) (appended : List pbuf),
      write_stack_data 8 (ex_state (ex_sock { capacity := 4, objs := [] }
        { capacity := 4, objs := [] })) 5 [1, 2, 3, 4, 5] 5 = some (st', (r : Int)) ∧
      r ≤ 5 ∧ (appended.map pbuf.data).flatten = [1, 2, 3, 4, 5].take r := by
  refine ⟨by decide, ?_⟩
  obtain ⟨st', r, appended, h1, h2, -, h4, -⟩ :=
    write_stack_data_appends_prefix 8
      (ex_state (ex_sock { capacity := 4, objs := [] } { capacity := 4, objs := [] })) 5
      (ex_sock { capacity := 4, objs := [] } { capacity := 4, objs := [] })
      { capacity := 4, objs := [] } 0 [1, 2, 3, 4, 5] 5 rfl rfl rfl (by decide)
      (by decide) rfl
  exact ⟨st', r, appended, h1, h2, h4⟩

/-! ## `write_stack_data`: full send ring (C4) and one free slot (C5) -/

/-- C4: on a descriptor whose send ring has no free slot, `write_stack_data` returns -1 and
sets `errno` to `EAGAIN`; the socket table, every worker (idle ring, counters, RPC queue)
and the pool are left as they were. -/
theorem write_stack_data_full_ring (VDEV_IDLE_QUEUE_SZ : Nat) (st : lstack) (fd : Int)
    (sock : lwip_sock) (sr : rte_ring) (buf : List Nat) (len : Nat)
    (hsock : get_socket st fd = some sock) (hring : sock.send_ring = some sr)
    (hfull : rte_ring_free_count sr = 0) :
    write_stack_data VDEV_IDLE_QUEUE_SZ st fd buf len
      = some ({ st with errno := EAGAIN }, -1) := by
  simp only [write_stack_data, hsock, hring, hfull, if_true, GAZELLE_RETURN]

theorem write_stack_data_full_ring_witness :
    rte_ring_free_count { capacity := 1, objs := [pbuf.last [7] 1 1] } = 0 ∧
    write_stack_data 8 (ex_state (ex_sock { capacity := 1, objs := [pbuf.last [7] 1 1] }
        { capacity := 4, objs := [] })) 5 [1, 2] 2
      = some ({ ex_state (ex_sock { capacity := 1, objs := [pbuf.last [7] 1 1] }
        { capacity := 4, objs := [] }) with errno := EAGAIN }, -1) :=
  ⟨by decide, write_stack_data_full_ring 8 _ 5 _ _ [1, 2] 2 rfl rfl (by decide)⟩

theorem write_stack_data_loop_full (buf : List Nat) (len idle_cont fuel : Nat) (v : write_vars)
    (hfull : ¬ v.send_ring.objs.length < v.send_ring.capacity) :
    ∃ v', write_stack_data_loop buf len idle_cont (fuel + 1) v = some v' ∧
      v'.send_ring = v.send_ring ∧ v'.send_len = v.send_len := by
  rw [write_stack_data_loop]
  by_cases hg : v.send_len < len ∧ v.send_pkt < idle_cont
  · rw [if_pos hg]
    rcases hobjs : v.stack.send_idle_ring.objs with _ | ⟨p, rest⟩
    · have hdq : rte_ring_sc_dequeue v.stack.send_idle_ring
          = (-ENOENT, none, v.stack.send_idle_ring) := by
        simp only [rte_ring_sc_dequeue, hobjs]
      rw [hdq]
      exact ⟨_, rfl, rfl, rfl⟩
    · have hdq : rte_ring_sc_dequeue v.stack.send_idle_ring
          = (0, some p, { v.stack.send_idle_ring with objs := rest }) := by
        simp only [rte_ring_sc_dequeue, hobjs]
      rw [hdq]
      simp only [rte_ring_sp_enqueue, hfull, if_false]
      rw [if_pos (by simp [ENOBUFS])]
      exact ⟨_, rfl, rfl, rfl⟩
  · rw [if_neg hg]
    exact ⟨v, rfl, rfl, rfl⟩

/-- C5: with exactly one free slot in the send ring, a non-empty idle ring and `len >= 1`,
`write_stack_data` returns `min(len, capacity of the first idle buffer)` and the send ring
has grown by exactly one buffer. -/
theorem write_stack_data_one_slot (VDEV_IDLE_QUEUE_SZ : Nat) (st : lstack) (fd : Int)
    (sock : lwip_sock) (sr : rte_ring) (idx : Nat) (buf : List Nat) (len : Nat)
    (q : pbuf) (rest : List pbuf)
    (hsock : get_socket st fd = some sock) (hring : sock.send_ring = some sr)
    (hstack : sock.stack = some idx) (hone : rte_ring_free_count sr = 1)
    (hidle : (st.stack_group idx).send_idle_ring.objs = q :: rest) (hlen : 1 ≤ len) :
    ∃ (st' : lstack) (a : pbuf),
      write_stack_data VDEV_IDLE_QUEUE_SZ st fd buf len = some (st', ((min len q.len : Nat) : Int)) ∧
      (get_socket st' fd).map (fun s => s.send_ring)
        = some (some { sr with objs := sr.objs ++ [a] }) := by
  have hroom : sr.objs.length < sr.capacity := by
    simp only [rte_ring_free_count] at hone; omega
  have hcnt : rte_ring_count (st.stack_group idx).send_idle_ring = rest.length + 1 := by
    simp [rte_ring_count, hidle]
  have hdq : rte_ring_sc_dequeue (st.stack_group idx).send_idle_ring
      = (0, some q, { (st.stack_group idx).send_idle_ring with objs := rest }) := by
    simp only [rte_ring_sc_dequeue, hidle]
  have hne : rte_ring_free_count sr ≠ 0 := by omega
  have hcl : (if len - 0 > q.len then q.len else len - 0) = min len q.len := by
    split <;> omega
  simp only [write_stack_data, hsock, hring, hstack, hne, if_false, hcnt]
  rw [write_stack_data_loop]
  rw [if_pos (by simp only; omega)]
  simp only [hdq, rte_ring_sp_enqueue, hroom, if_true, ne_eq, not_true_eq_false, if_false, hcl,
    Nat.zero_add, List.drop_zero]
  obtain ⟨v', e1, e2, e3⟩ := write_stack_data_loop_full buf len (rest.length + 1) rest.length
    { send_ring := { sr with objs := sr.objs ++
        [((pbuf_take q buf (min len q.len)).set_len
          (min len q.len % U16_MAX1)).set_tot_len (min len q.len % U16_MAX1)] }
      stack := { st.stack_group idx with
        send_idle_ring := { (st.stack_group idx).send_idle_ring with objs := rest }
        stats := { (st.stack_group idx).stats with
          app_write_cnt := (st.stack_group idx).stats.app_write_cnt + 1 } }
      freed := st.freed
      send_len := min len q.len
      send_pkt := 1 }
    (by simp only [rte_ring_free_count] at hone; simp; omega)
  rw [e1]
  simp only [e3, e2]
  exact ⟨_, ((pbuf_take q buf (min len q.len)).set_len
    (min len q.len % U16_MAX1)).set_tot_len (min len q.len % U16_MAX1), rfl,
    by simp [get_socket, set_socket, set_stack]⟩

theorem write_stack_data_one_slot_witness :
    rte_ring_free_count { capacity := 1, objs := [] } = 1 ∧
    ∃ (st' : lstack) (a : pbuf),
      write_stack_data 8 (ex_state (ex_sock { capacity := 1, objs := [] }
        { capacity := 4, objs := [] })) 5 [1, 2, 3, 4, 5] 5
        = some (st', ((min 5 (pbuf.last [0, 0, 0] 3 3).len : Nat) : Int)) ∧
      (get_socket st' 5).map (fun s => s.send_ring)
        = some (some { capacity := 1, objs := [] ++ [a] }) :=
  ⟨by decide, write_stack_data_one_slot 8 _ 5 _ { capacity := 1, objs := [] } 0
    [1, 2, 3, 4, 5] 5 _ _ rfl rfl rfl (by decide) rfl (by decide)⟩

/-! ## `read_stack_data`: the stream handed to the application -/

theorem pbuf_wf_tot_len : ∀ (p : pbuf), p.wf → p.tot_len = p.data.length
  | pbuf.last pl l t, h => by
      obtain ⟨h1, h2, -⟩ := h
      show t = (pl.take l).length
      rw [List.length_take]; omega
  | pbuf.link pl l t n, h => by
      obtain ⟨h1, h2, -, h4⟩ := h
      have := pbuf_wf_tot_len n h4
      show t = (pl.take l ++ n.data).length
      rw [List.length_append, List.length_take]; omega

theorem pbuf_wf_lt (p : pbuf) (h : p.wf) : p.tot_len < U16_MAX1 := by
  cases p with
  | last pl l t => exact h.2.2
  | link pl l t n => exact h.2.2.1

theorem take_min_take (pl : List Nat) (l n : Nat) :
    (pl.take l).take (min l n) = (pl.take l).take n := by
  simp only [List.take_take]
  congr 1
  omega

theorem pbuf_copy_partial_zero : ∀ (p : pbuf) (n : Nat), p.wf →
    pbuf_copy_partial p n 0 = p.data.take n
  | pbuf.last pl l t, n, h => by
      obtain ⟨h1, -, -⟩ := h
      by_cases hn : n = 0
      · simp [ pbuf_copy_partial, hn]
      · simp only [ pbuf_copy_partial, hn, if_false, ne_eq, not_true_eq_false, false_and,
          List.drop_zero, Nat.sub_zero, pbuf.data]
        exact take_min_take pl l n
  | pbuf.link pl l t nx, n, h => by
      obtain ⟨h1, -, -, h4⟩ := h
      by_cases hn : n = 0
      · simp [ pbuf_copy_partial, hn]
      · simp only [ pbuf_copy_partial, hn, if_false, ne_eq, not_true_eq_false, false_and,
          List.drop_zero, Nat.sub_zero, pbuf.data]
        rw [pbuf_copy_partial_zero nx _ h4, List.take_append_eq_append_take, take_min_take]
        have hl : (pl.take l).length = l := by simp [h1]
        rw [hl]
        congr 2
        omega

theorem pbuf_free_header_spec : ∀ (p : pbuf) (n : Nat), p.wf → n < p.tot_len →
    ∃ p', (pbuf_free_header p n).1 = some p' ∧ p'.wf ∧ p'.data = p.data.drop n
  | pbuf.last pl l t, n, h, hn => by
      obtain ⟨h1, h2, h3⟩ := h
      replace hn : n < t := hn
      by_cases h0 : n = 0
      · subst h0
        exact ⟨pbuf.last pl l t, by simp [pbuf_free_header], ⟨h1, h2, h3⟩, by simp⟩
      · have hl : ¬ n ≥ l := by omega
        refine ⟨pbuf.last (pl.drop n) (l - n) (t - n),
          by simp only [pbuf_free_header, h0, if_false, hl, pbuf_remove_header], ?_, ?_⟩
        · show (l - n ≤ (pl.drop n).length ∧ t - n = l - n ∧ t - n < U16_MAX1)
          rw [List.length_drop]
          omega
        · show (pl.drop n).take (l - n) = (pl.take l).drop n
          rw [List.drop_take]
  | pbuf.link pl l t nx, n, h, hn => by
      obtain ⟨h1, h2, h3, h4⟩ := h
      replace hn : n < t := hn
      by_cases h0 : n = 0
      · subst h0
        exact ⟨pbuf.link pl l t nx, by simp [pbuf_free_header], ⟨h1, h2, h3, h4⟩, by simp⟩
      · by_cases hl : n ≥ l
        · have hn' : n - l < nx.tot_len := by omega
          obtain ⟨p', e1, e2, e3⟩ := pbuf_free_header_spec nx (n - l) h4 hn'
          refine ⟨p', by simp only [pbuf_free_header, h0, if_false, hl, if_true, e1], e2, ?_⟩
          rw [e3]
          show nx.data.drop (n - l) = (pl.take l ++ nx.data).drop n
          have hlen : (pl.take l).length = l := by simp [h1]
          have hd : (pl.take l).drop n = [] :=
            List.drop_eq_nil_of_le (by rw [hlen]; exact hl)
          rw [List.drop_append_eq_append_drop, hd, hlen, List.nil_append]
        · refine ⟨pbuf.link (pl.drop n) (l - n) (t - n) nx,
            by simp only [pbuf_free_header, h0, if_false, hl, pbuf_remove_header], ?_, ?_⟩
          · show (l - n ≤ (pl.drop n).length ∧ t - n = l - n + nx.tot_len ∧
              t - n < U16_MAX1 ∧ nx.wf)
            rw [List.length_drop]
            exact ⟨by omega, by omega, by omega, h4⟩
          · show (pl.drop n).take (l - n) ++ nx.data = (pl.take l ++ nx.data).drop n
            rw [List.drop_append_eq_append_drop, List.drop_take]
            have : n - (pl.take l).length = 0 := by simp [h1]; omega
            rw [this]; simp

theorem memcpy_at_nil (b : List Nat) (o : Nat) : memcpy_at b o [] = b := by
  simp [memcpy_at]

theorem memcpy_at_append (b x y : List Nat) (o : Nat) (h : o + x.length ≤ b.length) :
    memcpy_at (memcpy_at b o x) (o + x.length) y = memcpy_at b o (x ++ y) := by
  have h1 : (b.take o).length = o := by simp; omega
  have h2 : (b.take o ++ x).length = o + x.length := by simp [h1]
  have e1 : (b.take o ++ x ++ b.drop (o + x.length)).take (o + x.length) = b.take o ++ x := by
    rw [List.take_append_of_le_length (by rw [h2]), List.take_of_length_le (by rw [h2])]
  have e2 : (b.take o ++ x ++ b.drop (o + x.length)).drop (o + x.length + y.length)
      = b.drop (o + (x ++ y).length) := by
    rw [List.drop_append_eq_append_drop, List.drop_eq_nil_of_le (by rw [h2]; omega), h2,
      List.nil_append, List.drop_drop]
    congr 1
    simp only [List.length_append]
    omega
  simp only [memcpy_at]
  rw [e1, e2]
  simp only [List.append_assoc]

theorem recv_stream_none (ring : rte_ring) : recv_stream none ring = ring_data ring := by
  simp [recv_stream]

theorem length_memcpy_at (b x : List Nat) (o : Nat) (h : o + x.length ≤ b.length) :
    (memcpy_at b o x).length = b.length := by
  simp [memcpy_at]; omega

theorem read_stack_data_loop_spec : ∀ (fuel : Nat) (v : read_vars),
    (if v.recv_left = 0 then 0
      else v.recv_ring.objs.length + (if v.recv_lastdata.isSome then 1 else 0)) < fuel →
    recv_wf v.recv_lastdata v.recv_ring →
    v.recvd + v.recv_left ≤ v.buf.length →
    ∃ v', read_stack_data_loop fuel v = some v' ∧
      v'.recvd = v.recvd
        + min v.recv_left (recv_stream v.recv_lastdata v.recv_ring).length ∧
      v'.buf = memcpy_at v.buf v.recvd
        ((recv_stream v.recv_lastdata v.recv_ring).take v.recv_left) ∧
      recv_stream v'.recv_lastdata v'.recv_ring
        = (recv_stream v.recv_lastdata v.recv_ring).drop v.recv_left ∧
      recv_wf v'.recv_lastdata v'.recv_ring ∧
      (∃ k, v'.recv_ring.objs = v.recv_ring.objs.drop k) ∧
      v'.recv_ring.capacity = v.recv_ring.capacity := by
  intro fuel
  induction fuel with
  | zero => intro v h; omega
  | succ fuel ih =>
    intro v hfuel hwf hroom
    rw [read_stack_data_loop]
    by_cases hleft : v.recv_left > 0
    swap
    · rw [if_neg hleft]
      have h0 : v.recv_left = 0 := by omega
      exact ⟨v, rfl, by simp [h0], by simp [h0, memcpy_at_nil], by simp [h0], hwf,
        ⟨0, by simp⟩, rfl⟩
    rw [if_pos hleft]
    have hne : v.recv_left ≠ 0 := by omega
    rw [if_neg hne] at hfuel
    -- the buffer this iteration works on
    have hpick : (read_stack_data_pick v = none ∧ v.recv_lastdata = none ∧ v.recv_ring.objs = [])
        ∨ ∃ p ring, read_stack_data_pick v = some (p, ring) ∧ p.wf ∧ (∀ q ∈ ring.objs, q.wf) ∧
          recv_stream v.recv_lastdata v.recv_ring = p.data ++ ring_data ring ∧
          ring.objs.length < fuel ∧ (∃ k, ring.objs = v.recv_ring.objs.drop k) ∧
          ring.capacity = v.recv_ring.capacity := by
      rcases hl : v.recv_lastdata with _ | p
      · rcases hobjs : v.recv_ring.objs with _ | ⟨p, rest⟩
        · left
          exact ⟨by simp [read_stack_data_pick, hl, rte_ring_sc_dequeue, hobjs], rfl, rfl⟩
        · right
          refine ⟨p, { v.recv_ring with objs := rest },
            by simp [read_stack_data_pick, hl, rte_ring_sc_dequeue, hobjs],
            hwf.2 p (by rw [hobjs]; simp), ?_, ?_, ?_, ⟨1, by simp [hobjs]⟩, rfl⟩
          · intro q hq
            exact hwf.2 q (by rw [hobjs]; exact List.mem_cons_of_mem _ hq)
          · simp [recv_stream, ring_data, hobjs]
          · rw [hl, hobjs] at hfuel
            simp at hfuel
            simpa using hfuel
      · right
        refine ⟨p, v.recv_ring, by simp [read_stack_data_pick, hl], hwf.1 p hl, hwf.2,
          by simp [recv_stream], ?_, ⟨0, by simp⟩, rfl⟩
        rw [hl] at hfuel
        simp at hfuel
        omega
    rcases hpick with ⟨hp, hl, hobjs⟩ | ⟨p, ring, hp, hpwf, hrwf, hS, hcnt, hsuf, hcap⟩
    · rw [hp]
      have hS : recv_stream v.recv_lastdata v.recv_ring = [] := by
        simp [recv_stream, ring_data, hl, hobjs]
      exact ⟨v, rfl, by simp [hS], by simp [hS, memcpy_at_nil], by simp [hS], hwf,
        ⟨0, by simp⟩, rfl⟩
    rw [hp]
    simp only []
    have htl : p.tot_len = p.data.length := pbuf_wf_tot_len p hpwf
    have hlt : p.tot_len < U16_MAX1 := pbuf_wf_lt p hpwf
    have hcl : (if v.recv_left > p.tot_len then p.tot_len else v.recv_left % U16_MAX1)
        = min v.recv_left p.tot_len := by
      split
      · omega
      · rw [Nat.mod_eq_of_lt (by omega)]; omega
    rw [hcl, pbuf_copy_partial_zero p _ hpwf, hS]
    set c := min v.recv_left p.tot_len with hc
    have hcle : c ≤ p.data.length := by omega
    have htake : (p.data.take c).length = c := by simp; omega
    by_cases hpart : (p.tot_len : Int) - (c : Int) > 0
    · rw [if_pos hpart]
      have hclt : c < p.tot_len := by omega
      have hceq : c = v.recv_left := by omega
      obtain ⟨p', f1, f2, f3⟩ := pbuf_free_header_spec p c hpwf hclt
      obtain ⟨v', e1, e2, e3, e4, e5, e6, e7⟩ := ih
        { recv_ring := ring
          recv_lastdata := (pbuf_free_header p c).1
          stats := v.stats
          freed := v.freed ++ (pbuf_free_header p c).2
          buf := memcpy_at v.buf v.recvd (p.data.take c)
          recvd := v.recvd + c
          recv_left := v.recv_left - c }
        (by simp only; rw [if_pos (by omega)]; omega)
        (by
          refine ⟨?_, hrwf⟩
          intro q hq
          simp only [f1, Option.some.injEq] at hq
          rw [← hq]; exact f2)
        (by simp only; rw [length_memcpy_at _ _ _ (by rw [htake]; omega)]; omega)
      simp only [f1] at e2 e3 e4
      have hz : v.recv_left - c = 0 := by omega
      simp only [hz, Nat.zero_min, Nat.add_zero, List.take_zero, memcpy_at_nil,
        List.drop_zero] at e2 e3 e4
      refine ⟨v', e1, ?_, ?_, ?_, e5, ?_, by rw [e7, hcap]⟩
      · rw [e2, List.length_append]; omega
      · rw [e3, List.take_append_of_le_length (by omega), hceq]
      · rw [e4]
        simp only [recv_stream, f3]
        rw [List.drop_append_of_le_length (by omega), hceq]
      · obtain ⟨k, hk⟩ := e6
        obtain ⟨k', hk'⟩ := hsuf
        exact ⟨k' + k, by rw [hk]; simp only; rw [hk', List.drop_drop]⟩
    · rw [if_neg hpart]
      have hceq : c = p.data.length := by omega
      have hcle' : p.data.length ≤ v.recv_left := by omega
      obtain ⟨v', e1, e2, e3, e4, e5, e6, e7⟩ := ih
        { recv_ring := ring
          recv_lastdata := none
          stats := { v.stats with app_read_cnt := v.stats.app_read_cnt + 1 }
          freed := v.freed ++ [p]
          buf := memcpy_at v.buf v.recvd (p.data.take c)
          recvd := v.recvd + c
          recv_left := v.recv_left - c }
        (by
          simp only
          split
          · omega
          · simp; omega)
        ⟨fun q hq => by simp at hq, hrwf⟩
        (by simp only; rw [length_memcpy_at _ _ _ (by rw [htake]; omega)]; omega)
      simp only [recv_stream_none] at e2 e3 e4
      have htk : p.data.take c = p.data := List.take_of_length_le (by omega)
      refine ⟨v', e1, ?_, ?_, ?_, e5, ?_, by rw [e7, hcap]⟩
      · rw [e2, List.length_append]; omega
      · rw [e3, htk]
        have := memcpy_at_append v.buf p.data ((ring_data ring).take (v.recv_left - c))
          v.recvd (by omega)
        rw [← hceq] at this
        rw [this, List.take_append_eq_append_take, List.take_of_length_le hcle', hceq]
      · rw [e4, List.drop_append_eq_append_drop, List.drop_eq_nil_of_le hcle', hceq,
          List.nil_append]
      · obtain ⟨k, hk⟩ := e6
        obtain ⟨k', hk'⟩ := hsuf
        exact ⟨k' + k, by rw [hk]; simp only; rw [hk', List.drop_drop]⟩

theorem recv_avail_eq (lastdata : Option pbuf) (ring : rte_ring) (h : recv_wf lastdata ring) :
    recv_avail lastdata ring = (recv_stream lastdata ring).length := by
  obtain ⟨h1, h2⟩ := h
  have hring : ∀ (l : List pbuf), (∀ p ∈ l, p.wf) →
      (l.map pbuf.tot_len).sum = ((l.map pbuf.data).flatten).length := by
    intro l
    induction l with
    | nil => intro _; simp
    | cons a l ih =>
      intro hl
      simp only [List.map_cons, List.sum_cons, List.flatten_cons, List.length_append]
      rw [ih (fun p hp => hl p (List.mem_cons_of_mem _ hp)),
        pbuf_wf_tot_len a (hl a (List.mem_cons_self _ _))]
  simp only [recv_avail, recv_stream, List.length_append, ring_data, hring _ h2]
  cases lastdata with
  | none => simp
  | some p => simp [pbuf_wf_tot_len p (h1 p rfl)]

/-- What one call of `read_stack_data` does on a descriptor whose buffers satisfy the
chain invariant; `S` is the stream held before the call. -/
theorem read_stack_data_spec (st : lstack) (fd : Int) (sock : lwip_sock) (rr : rte_ring)
    (idx : Nat) (buf : List Nat) (len flags : Nat)
    (hsock : get_socket st fd = some sock) (hring : sock.recv_ring = some rr)
    (hstack : sock.stack = some idx) (hwf : recv_wf sock.recv_lastdata rr)
    (hbuf : len ≤ buf.length) :
    ∃ (st' : lstack) (sock' : lwip_sock) (rr' : rte_ring),
      read_stack_data st fd buf len flags
        = some (st',
            (if min len (recv_stream sock.recv_lastdata rr).length = 0 then (-1 : Int)
              else ((min len (recv_stream sock.recv_lastdata rr).length : Nat) : Int)),
            memcpy_at buf 0 ((recv_stream sock.recv_lastdata rr).take len)) ∧
      get_socket st' fd = some sock' ∧ sock'.recv_ring = some rr' ∧
      sock'.stack = some idx ∧
      recv_stream sock'.recv_lastdata rr' = (recv_stream sock.recv_lastdata rr).drop len ∧
      recv_wf sock'.recv_lastdata rr' ∧
      (∃ k, rr'.objs = rr.objs.drop k) ∧
      (min len (recv_stream sock.recv_lastdata rr).length = 0 → st'.errno = EAGAIN) ∧
      (min len (recv_stream sock.recv_lastdata rr).length ≠ 0 → st'.errno = st.errno) := by
  obtain ⟨v', e1, e2, e3, e4, e5, e6, -⟩ := read_stack_data_loop_spec
    (rte_ring_count rr + 2)
    { recv_ring := rr, recv_lastdata := sock.recv_lastdata, stats := (st.stack_group idx).stats,
      freed := st.freed, buf := buf, recvd := 0, recv_left := len }
    (by
      simp only [rte_ring_count]
      split
      · omega
      · split <;> omega)
    hwf (by simp only; omega)
  simp only [Nat.zero_add] at e2 e3 e4
  by_cases hr : min len (recv_stream sock.recv_lastdata rr).length = 0
  · rw [if_pos hr]
    have hv : v'.recvd = 0 := by rw [e2]; exact hr
    simp only [read_stack_data, hsock, hring, hstack, e1, hv, if_true, GAZELLE_RETURN, e3]
    apply Exists.intro
    apply Exists.intro
    apply Exists.intro
    refine ⟨rfl, ?_⟩
    refine ⟨by simp only [get_socket, set_socket, set_stack, if_true]; rfl, ?_⟩
    exact ⟨rfl, rfl, e4, e5, e6, fun _ => rfl, fun h => absurd hr h⟩
  · rw [if_neg hr]
    have hv : ¬ v'.recvd = 0 := by rw [e2]; exact hr
    simp only [read_stack_data, hsock, hring, hstack, e1, hv, if_false, e3]
    rw [e2]
    apply Exists.intro
    apply Exists.intro
    apply Exists.intro
    refine ⟨rfl, ?_⟩
    refine ⟨by simp only [get_socket, set_socket, set_stack, if_true]; rfl, ?_⟩
    exact ⟨rfl, rfl, e4, e5, e6, fun h => absurd h hr, fun _ => rfl⟩

theorem take_min_length (S : List Nat) (n : Nat) : S.take (min n S.length) = S.take n := by
  rcases Nat.le_total n S.length with h | h
  · rw [Nat.min_eq_left h]
  · rw [Nat.min_eq_right h, List.take_length, List.take_of_length_le h]

theorem drop_min_length (S : List Nat) (n : Nat) : S.drop (min n S.length) = S.drop n := by
  rcases Nat.le_total n S.length with h | h
  · rw [Nat.min_eq_left h]
  · rw [Nat.min_eq_right h, List.drop_length, List.drop_eq_nil_of_le h]

/-- C2: let `S` be the recv-residue followed by the receive-ring buffers. `read_stack_data`
returns `r = min(len, |S|)` when that is positive, the caller's buffer then starts with
the first `r` bytes of `S` (the rest of it is untouched), and the new residue followed by
the remaining ring buffers is `S` without those `r` bytes; the ring keeps a suffix of its
buffers, so the unread tail of a partly consumed buffer is the new residue. -/
theorem read_stack_data_stream (st : lstack) (fd : Int) (sock : lwip_sock) (rr : rte_ring)
    (idx : Nat) (buf : List Nat) (len flags : Nat)
    (hsock : get_socket st fd = some sock) (hring : sock.recv_ring = some rr)
    (hstack : sock.stack = some idx) (hwf : recv_wf sock.recv_lastdata rr)
    (hbuf : len ≤ buf.length) :
    ∃ (st' : lstack) (ret : Int) (buf' : List Nat) (sock' : lwip_sock) (rr' : rte_ring),
      read_stack_data st fd buf len flags = some (st', ret, buf') ∧
      get_socket st' fd = some sock' ∧ sock'.recv_ring = some rr' ∧
      (0 < min len (recv_stream sock.recv_lastdata rr).length →
        ret = ((min len (recv_stream sock.recv_lastdata rr).length : Nat) : Int)) ∧
      buf'.take (min len (recv_stream sock.recv_lastdata rr).length)
        = (recv_stream sock.recv_lastdata rr).take
            (min len (recv_stream sock.recv_lastdata rr).length) ∧
      buf'.drop (min len (recv_stream sock.recv_lastdata rr).length)
        = buf.drop (min len (recv_stream sock.recv_lastdata rr).length) ∧
      recv_stream sock'.recv_lastdata rr'
        = (recv_stream sock.recv_lastdata rr).drop
            (min len (recv_stream sock.recv_lastdata rr).length) ∧
      ∃ k, rr'.objs = rr.objs.drop k := by
  obtain ⟨st', sock', rr', h1, h2, h3, -, h5, -, h7, -, -⟩ :=
    read_stack_data_spec st fd sock rr idx buf len flags hsock hring hstack hwf hbuf
  have hlen : ((recv_stream sock.recv_lastdata rr).take len).length
      = min len (recv_stream sock.recv_lastdata rr).length := List.length_take _ _
  refine ⟨st', _, _, sock', rr', h1, h2, h3, ?_, ?_, ?_, ?_, h7⟩
  · intro hpos
    rw [if_neg (by omega)]
  · simp only [memcpy_at, List.take_zero, List.nil_append, Nat.zero_add]
    rw [List.take_append_of_le_length (by rw [hlen]), take_min_length, List.take_take,
      Nat.min_eq_left (Nat.min_le_left _ _), take_min_length]
  · simp only [memcpy_at, List.take_zero, List.nil_append, Nat.zero_add]
    rw [List.drop_append_eq_append_drop, List.drop_eq_nil_of_le (by rw [hlen]), hlen,
      Nat.sub_self, List.drop_zero, List.nil_append]
  · rw [h5, drop_min_length]

theorem read_stack_data_stream_witness :
    recv_wf ex_recv_sock.recv_lastdata ex_recv_ring ∧
    ∃ (st' : lstack) (ret : Int) (buf' : List Nat) (sock' : lwip_sock) (rr' : rte_ring),
      read_stack_data (ex_state ex_recv_sock) 5 [0, 0, 0, 0, 0, 0, 0, 0] 6 0
        = some (st', ret, buf') ∧
      get_socket st' 5 = some sock' ∧ sock'.recv_ring = some rr' ∧
      buf'.take (min 6 (recv_stream ex_recv_sock.recv_lastdata ex_recv_ring).length)
        = (recv_stream ex_recv_sock.recv_lastdata ex_recv_ring).take
            (min 6 (recv_stream ex_recv_sock.recv_lastdata ex_recv_ring).length) ∧
      recv_stream sock'.recv_lastdata rr'
        = (recv_stream ex_recv_sock.recv_lastdata ex_recv_ring).drop
            (min 6 (recv_stream ex_recv_sock.recv_lastdata ex_recv_ring).length) := by
  have hwf : recv_wf ex_recv_sock.recv_lastdata ex_recv_ring := by
    constructor
    · intro p hp
      simp only [ex_recv_sock, Option.some.injEq] at hp
      subst hp
      decide
    · decide
  obtain ⟨st', ret, buf', sock', rr', h1, h2, h3, -, h5, -, h7, -⟩ :=
    read_stack_data_stream (ex_state ex_recv_sock) 5 ex_recv_sock ex_recv_ring 0
      [0, 0, 0, 0, 0, 0, 0, 0] 6 0 rfl rfl rfl hwf (by decide)
  exact ⟨hwf, st', ret, buf', sock', rr', h1, h2, h3, h5, h7⟩

/-- C6: `read_stack_data` returns `min(len, A)` when that is positive, `A` being the bytes
held in the recv-residue and the receive ring; it returns -1 with `errno = EAGAIN` exactly
when `A = 0` or `len = 0`. -/
theorem read_stack_data_return (st : lstack) (fd : Int) (sock : lwip_sock) (rr : rte_ring)
    (idx : Nat) (buf : List Nat) (len flags : Nat)
    (hsock : get_socket st fd = some sock) (hring : sock.recv_ring = some rr)
    (hstack : sock.stack = some idx) (hwf : recv_wf sock.recv_lastdata rr)
    (hbuf : len ≤ buf.length) :
    ∃ (st' : lstack) (ret : Int) (buf' : List Nat),
      read_stack_data st fd buf len flags = some (st', ret, buf') ∧
      (0 < min len (recv_avail sock.recv_lastdata rr) →
        ret = ((min len (recv_avail sock.recv_lastdata rr) : Nat) : Int)) ∧
      ((ret = -1 ∧ st'.errno = EAGAIN) ↔ (recv_avail sock.recv_lastdata rr = 0 ∨ len = 0)) := by
  obtain ⟨st', sock', rr', h1, -, -, -, -, -, -, h8, -⟩ :=
    read_stack_data_spec st fd sock rr idx buf len flags hsock hring hstack hwf hbuf
  rw [recv_avail_eq _ _ hwf]
  refine ⟨st', _, _, h1, ?_, ?_⟩
  · intro hpos
    rw [if_neg (by omega)]
  · by_cases hr : min len (recv_stream sock.recv_lastdata rr).length = 0
    · rw [if_pos hr]
      constructor
      · intro _; omega
      · intro _; exact ⟨rfl, h8 hr⟩
    · rw [if_neg hr]
      constructor
      · rintro ⟨hneg, -⟩; omega
      · intro h; omega

theorem read_stack_data_return_witness :
    recv_wf ex_recv_sock.recv_lastdata ex_recv_ring ∧
    ∃ (st' : lstack) (ret : Int) (buf' : List Nat),
      read_stack_data (ex_state ex_recv_sock) 5 [0, 0, 0, 0, 0, 0, 0, 0] 6 0
        = some (st', ret, buf') ∧
      (0 < min 6 (recv_avail ex_recv_sock.recv_lastdata ex_recv_ring) →
        ret = ((min 6 (recv_avail ex_recv_sock.recv_lastdata ex_recv_ring) : Nat) : Int)) := by
  have hwf : recv_wf ex_recv_sock.recv_lastdata ex_recv_ring := by
    constructor
    · intro p hp
      simp only [ex_recv_sock, Option.some.injEq] at hp
      subst hp
      decide
    · decide
  obtain ⟨st', ret, buf', h1, h2, -⟩ :=
    read_stack_data_return (ex_state ex_recv_sock) 5 ex_recv_sock ex_recv_ring 0
      [0, 0, 0, 0, 0, 0, 0, 0] 6 0 rfl rfl rfl hwf (by decide)
  exact ⟨hwf, st', ret, buf', h1, h2⟩

/-! ## Round trip (C3) -/

theorem recv_all_spec : ∀ (lens : List Nat) (st : lstack) (fd : Int) (sock : lwip_sock)
    (rr : rte_ring) (idx : Nat),
    get_socket st fd = some sock → sock.recv_ring = some rr → sock.stack = some idx →
    recv_wf sock.recv_lastdata rr →
    ∃ st', recv_all st fd lens
      = some (st', (recv_stream sock.recv_lastdata rr).take lens.sum) := by
  intro lens
  induction lens with
  | nil => intro st fd sock rr idx _ _ _ _; exact ⟨st, by simp [recv_all]⟩
  | cons n ns ih =>
    intro st fd sock rr idx hsock hring hstack hwf
    obtain ⟨st1, sock1, rr1, h1, h2, h3, h4, h5, h6, -, -, -⟩ :=
      read_stack_data_spec st fd sock rr idx (List.replicate n 0) n 0 hsock hring hstack hwf
        (by simp)
    obtain ⟨st2, h7⟩ := ih st1 fd sock1 rr1 idx h2 h3 h4 h6
    refine ⟨st2, ?_⟩
    simp only [recv_all, h1, h7, h5, List.sum_cons]
    have hlen : ((recv_stream sock.recv_lastdata rr).take n).length
        = min n (recv_stream sock.recv_lastdata rr).length := List.length_take _ _
    have hgot : (if (if min n (recv_stream sock.recv_lastdata rr).length = 0 then (-1 : Int)
          else ((min n (recv_stream sock.recv_lastdata rr).length : Nat) : Int)) > 0
        then (memcpy_at (List.replicate n 0) 0 ((recv_stream sock.recv_lastdata rr).take n)).take
          (if min n (recv_stream sock.recv_lastdata rr).length = 0 then (-1 : Int)
            else ((min n (recv_stream sock.recv_lastdata rr).length : Nat) : Int)).toNat
        else []) = (recv_stream sock.recv_lastdata rr).take n := by
      by_cases hr : min n (recv_stream sock.recv_lastdata rr).length = 0
      · rw [if_pos hr, if_neg (by omega)]
        exact (List.eq_nil_of_length_eq_zero (by rw [hlen]; exact hr)).symm
      · rw [if_neg hr, if_pos (by omega)]
        simp only [Int.toNat_ofNat, memcpy_at, List.take_zero, List.nil_append, Nat.zero_add]
        rw [List.take_append_of_le_length (by rw [hlen]), List.take_take,
          Nat.min_eq_left (Nat.min_le_left _ _), take_min_length]
    rw [hgot, List.take_add]

/-- C3: the bytes `write_stack_data` accepted on one descriptor, once its send-ring
buffers are delivered unchanged and in order into the peer's receive ring, are what
successive `read_stack_data` calls on the peer return, concatenated: exactly the first `r`
bytes written, in order, for any read lengths that add up to at least `r`. -/
theorem write_read_round_trip (VDEV_IDLE_QUEUE_SZ : Nat) (st : lstack) (fd : Int)
    (sock : lwip_sock) (sr : rte_ring) (idx : Nat) (buf : List Nat) (len : Nat)
    (stp : lstack) (fdp : Int) (sockp : lwip_sock) (rrp : rte_ring) (idxp : Nat)
    (hsock : get_socket st fd = some sock) (hring : sock.send_ring = some sr)
    (hstack : sock.stack = some idx) (hfree : rte_ring_free_count sr ≠ 0)
    (hidle : ∀ p ∈ (st.stack_group idx).send_idle_ring.objs, idle_pbuf p)
    (hbuf : buf.length = len)
    (hpstack : sockp.stack = some idxp) (hpres : sockp.recv_lastdata = none) :
    ∃ (st' : lstack) (r : Nat) (sent : List pbuf),
      write_stack_data VDEV_IDLE_QUEUE_SZ st fd buf len = some (st', (r : Int)) ∧
      r ≤ len ∧
      (get_socket st' fd).map (fun s => s.send_ring)
        = some (some { sr with objs := sr.objs ++ sent }) ∧
      ∀ lens : List Nat, r ≤ lens.sum →
        ∃ stp', recv_all (deliver stp fdp sockp rrp sent) fdp lens = some (stp', buf.take r) := by
  obtain ⟨v', sent, e1, e2, e3, e4, e5, -, e7⟩ :=
    write_stack_data_loop_spec buf len (rte_ring_count (st.stack_group idx).send_idle_ring)
      (le_of_eq hbuf.symm)
      (rte_ring_count (st.stack_group idx).send_idle_ring + 1)
      { send_ring := sr, stack := st.stack_group idx, freed := st.freed,
        send_len := 0, send_pkt := 0 }
      (by simp) hidle (by simp)
  simp only [Nat.zero_add, Nat.sub_zero, List.drop_zero] at e3 e5
  have hres : ∃ st', write_stack_data VDEV_IDLE_QUEUE_SZ st fd buf len
      = some (st', (v'.send_len : Int)) ∧
      get_socket st' fd = some { sock with send_ring := some v'.send_ring } := by
    simp only [write_stack_data, hsock, hring, hstack, hfree, if_false, e1]
    exact ⟨_, rfl, by simp [get_socket, set_socket, set_stack]⟩
  obtain ⟨st', hr1, hr2⟩ := hres
  refine ⟨st', v'.send_len, sent, hr1, e4, by rw [hr2, e2]; rfl, ?_⟩
  intro lens hsum
  obtain ⟨stp', h⟩ := recv_all_spec lens (deliver stp fdp sockp rrp sent) fdp
    { sockp with recv_ring := some { rrp with objs := sent } } { rrp with objs := sent } idxp
    (by simp [deliver, get_socket, set_socket]) rfl hpstack
    ⟨fun p hp => by simp [hpres] at hp, e7⟩
  refine ⟨stp', ?_⟩
  rw [h]
  simp only [recv_stream, hpres, List.nil_append, ring_data, e5]
  rw [List.take_of_length_le (by rw [List.length_take]; omega)]

theorem write_read_round_trip_witness :
    rte_ring_free_count { capacity := 4, objs := [] } ≠ 0 ∧
    ∃ (st' : lstack) (r : Nat) (sent : List pbuf),
      write_stack_data 8 (ex_state (ex_sock { capacity := 4, objs := [] }
        { capacity := 4, objs := [] })) 5 [1, 2, 3, 4, 5] 5 = some (st', (r : Int)) ∧
      ∃ stp', recv_all (deliver (ex_state (ex_sock { capacity := 4, objs := [] }
          { capacity := 4, objs := [] })) 5 (ex_sock { capacity := 4, objs := [] }
          { capacity := 4, objs := [] }) { capacity := 4, objs := [] } sent) 5 [2, 2, 2, 2]
        = some (stp', [1, 2, 3, 4, 5].take r) := by
  refine ⟨by decide, ?_⟩
  obtain ⟨st', r, sent, h1, hr, -, h3⟩ :=
    write_read_round_trip 8
      (ex_state (ex_sock { capacity := 4, objs := [] } { capacity := 4, objs := [] })) 5
      (ex_sock { capacity := 4, objs := [] } { capacity := 4, objs := [] })
      { capacity := 4, objs := [] } 0 [1, 2, 3, 4, 5] 5
      (ex_state (ex_sock { capacity := 4, objs := [] } { capacity := 4, objs := [] })) 5
      (ex_sock { capacity := 4, objs := [] } { capacity := 4, objs := [] })
      { capacity := 4, objs := [] } 0 rfl rfl rfl (by decide) (by decide) rfl rfl rfl
  exact ⟨st', r, sent, h1, h3 [2, 2, 2, 2] (by simp; omega)⟩

/-! ## `MSG_PEEK` (C7) and buffers at close (C8) -/

/-- C7 fails on the code: `read_stack_data(fd, buf, 5, MSG_PEEK)` on a descriptor holding
"1 2 3 4 5" returns those 5 bytes and leaves the receive ring empty with no residue; the
`read_stack_data(fd, buf, 5, 0)` that follows returns -1 with `errno = EAGAIN`. -/
theorem read_stack_data_peek_consumes :
    (read_stack_data (ex_state ex_peek_sock) 5 [0, 0, 0, 0, 0] 5 MSG_PEEK).map
        (fun r => (r.2.1, r.2.2, (get_socket r.1 5).map
          (fun s => (s.recv_ring, s.recv_lastdata))))
      = some (5, [1, 2, 3, 4, 5], some (some { capacity := 4, objs := [] }, none)) ∧
    ((read_stack_data (ex_state ex_peek_sock) 5 [0, 0, 0, 0, 0] 5 MSG_PEEK).bind
        (fun r => read_stack_data r.1 5 [0, 0, 0, 0, 0] 5 0)).map
        (fun r => (r.2.1, r.2.2, r.1.errno))
      = some (-1, [0, 0, 0, 0, 0], EAGAIN) := by
  constructor <;> decide

/-- C8 fails on the code: `gazelle_clean_sock` on a descriptor with the buffer "7" in its
send ring and the send-residue "8 9" frees the residue only; the ring is released with the
buffer "7" still in it, and that buffer is not handed back to its pool. -/
theorem gazelle_clean_sock_leaks_send_ring :
    (gazelle_clean_sock (ex_state ex_close_sock) 5).freed = [pbuf.last [8, 9] 2 2] ∧
    pbuf.last [7] 1 1 ∉ (gazelle_clean_sock (ex_state ex_close_sock) 5).freed ∧
    (gazelle_clean_sock (ex_state ex_close_sock) 5).freed_rings
      = [{ capacity := 4, objs := [] }, { capacity := 4, objs := [pbuf.last [7] 1 1] }] ∧
    (get_socket (gazelle_clean_sock (ex_state ex_close_sock) 5) 5).map
        (fun s => s.send_lastdata) = some none := by
  refine ⟨by decide, by decide, by decide, by decide⟩

/-! ## `do_socket` (C9) and `do_connect` (C10) -/

/-- What `do_socket` does for every input: the kernel `socket_fn` is called when the global
selector returns KERNEL, or the domain is neither `AF_INET` nor `AF_UNSPEC`, or
`type & SOCK_DGRAM` is non-zero while `udp_enable` is off; otherwise the fast-path
`socket_fn` is called; the result of the call made is returned. -/
theorem do_socket_paths (env : shim_env) (st : lstack) (domain : Int) (type : Nat)
    (protocol : Int) :
    ((env.select_posix_path = posix_path.PATH_KERNEL ∨
        (domain ≠ AF_INET ∧ domain ≠ AF_UNSPEC) ∨
        ((type &&& SOCK_DGRAM) ≠ 0 ∧ env.udp_enable = false)) →
      (do_socket env st domain type protocol).calls
          = [shim_call.posix_socket domain type protocol] ∧
        (do_socket env st domain type protocol).ret
          = env.posix_socket_fn domain type protocol) ∧
    (¬ (env.select_posix_path = posix_path.PATH_KERNEL ∨
        (domain ≠ AF_INET ∧ domain ≠ AF_UNSPEC) ∨
        ((type &&& SOCK_DGRAM) ≠ 0 ∧ env.udp_enable = false)) →
      (do_socket env st domain type protocol).calls
          = [shim_call.wrap_socket domain type protocol] ∧
        (do_socket env st domain type protocol).ret
          = (env.wrap_socket_fn st domain type protocol).2) := by
  constructor
  · intro h
    unfold do_socket
    by_cases h1 : env.select_posix_path = posix_path.PATH_KERNEL
    · rw [if_pos h1]; exact ⟨rfl, rfl⟩
    · rw [if_neg h1]
      have h2 : (domain ≠ AF_INET ∧ domain ≠ AF_UNSPEC) ∨
          ((type &&& SOCK_DGRAM) ≠ 0 ∧ ¬ env.udp_enable = true) := by
        rcases h with h | h | h
        · exact absurd h h1
        · exact Or.inl h
        · exact Or.inr ⟨h.1, by simp [h.2]⟩
      rw [if_pos h2]; exact ⟨rfl, rfl⟩
  · intro h
    unfold do_socket
    have h1 : ¬ env.select_posix_path = posix_path.PATH_KERNEL := fun h' => h (Or.inl h')
    have h2 : ¬ ((domain ≠ AF_INET ∧ domain ≠ AF_UNSPEC) ∨
        ((type &&& SOCK_DGRAM) ≠ 0 ∧ ¬ env.udp_enable = true)) := by
      rintro (h' | h')
      · exact h (Or.inr (Or.inl h'))
      · exact h (Or.inr (Or.inr ⟨h'.1, by simpa using h'.2⟩))
    rw [if_neg h1, if_neg h2]
    exact ⟨rfl, rfl⟩

/-- C9 fails on the code: with the fast path selected, domain `AF_INET`, `udp_enable` off
and type `SOCK_RAW`, whose type bits `type & SOCK_TYPE_MASK` are not `SOCK_DGRAM`,
`do_socket` calls the kernel `socket_fn` and returns its result; the fast-path
`socket_fn` is not called. -/
theorem do_socket_raw_takes_kernel_path :
    ex_env.select_posix_path ≠ posix_path.PATH_KERNEL ∧
    ex_env.udp_enable = false ∧
    (SOCK_RAW &&& SOCK_TYPE_MASK) ≠ SOCK_DGRAM ∧
    (do_socket ex_env (ex_state ex_peek_sock) AF_INET SOCK_RAW 0).calls
      = [shim_call.posix_socket AF_INET SOCK_RAW 0] ∧
    (do_socket ex_env (ex_state ex_peek_sock) AF_INET SOCK_RAW 0).ret = 3 := by
  refine ⟨by decide, by decide, by decide, by decide, by decide⟩

/-- C10: for a fast-path, non-blocking descriptor and a non-null destination, `do_connect`
calls the host connect and tags the descriptor HOST exactly when
`is_dst_ip_localhost(name)` holds and `rte_ring_lookup` finds no ring named
`listen_rx_ring_<htons(sin_port)>`; otherwise it calls the fast-path connect and tags the
descriptor LIBOS; it returns the result of the connect it called. -/
theorem do_connect_routing (env : shim_env) (st : lstack) (s : Int) (nm : sockaddr_in)
    (namelen : Nat) (sock : lwip_sock) (conn : netconn)
    (hpath : env.select_fd_posix_path s ≠ posix_path.PATH_KERNEL)
    (hsock : get_socket st s = some sock) (hconn : sock.conn = some conn)
    (hnb : conn.nonblocking = true) :
    ∃ r, do_connect env st s (some nm) namelen = some r ∧
      ((is_dst_ip_localhost env nm = true ∧
          env.rte_ring_lookup (listen_ring_name (htons nm.sin_port)) = false) →
        r.calls = [shim_call.posix_connect s nm namelen] ∧
        r.ret = env.posix_connect_fn s nm namelen ∧
        conn_type_of r.st s = some conn_kind.HOST) ∧
      (¬ (is_dst_ip_localhost env nm = true ∧
          env.rte_ring_lookup (listen_ring_name (htons nm.sin_port)) = false) →
        r.calls = [shim_call.wrap_connect s nm namelen] ∧
        r.ret = env.wrap_connect_fn s nm namelen ∧
        conn_type_of r.st s = some conn_kind.LIBOS) := by
  by_cases hc : is_dst_ip_localhost env nm = true ∧
      env.rte_ring_lookup (listen_ring_name (htons nm.sin_port)) = false
  · have hres : do_connect env st s (some nm) namelen
        = some { st := set_socket st s { sock with conn := some (SET_CONN_TYPE_HOST conn) }
                 ret := env.posix_connect_fn s nm namelen
                 calls := [shim_call.posix_connect s nm namelen] } := by
      simp only [do_connect, hpath, if_false, hsock, hconn, hnb, not_true_eq_false, hc,
        and_self, if_true]
    refine ⟨_, hres, ?_, fun h => absurd hc h⟩
    intro _
    exact ⟨rfl, rfl, by simp [conn_type_of, get_socket, set_socket, SET_CONN_TYPE_HOST]⟩
  · have hres : do_connect env st s (some nm) namelen
        = some { st := set_socket st s { sock with conn := some (SET_CONN_TYPE_LIBOS conn) }
                 ret := env.wrap_connect_fn s nm namelen
                 calls := [shim_call.wrap_connect s nm namelen] } := by
      simp only [do_connect, hpath, if_false, hsock, hconn, hnb, not_true_eq_false, hc,
        if_false]
    refine ⟨_, hres, fun h => absurd h hc, ?_⟩
    intro _
    exact ⟨rfl, rfl, by simp [conn_type_of, get_socket, set_socket, SET_CONN_TYPE_LIBOS]⟩

theorem do_connect_routing_witness :
    ex_env.select_fd_posix_path 5 ≠ posix_path.PATH_KERNEL ∧
    is_dst_ip_localhost ex_env { sin_family := 2, sin_port := 0x5000, sin_addr := 0x0100007f }
      = true ∧
    ∃ r, do_connect ex_env (ex_state ex_peek_sock) 5
        (some { sin_family := 2, sin_port := 0x5000, sin_addr := 0x0100007f }) 16 = some r ∧
      r.calls = [shim_call.posix_connect 5
        { sin_family := 2, sin_port := 0x5000, sin_addr := 0x0100007f } 16] ∧
      r.ret = 0 ∧ conn_type_of r.st 5 = some conn_kind.HOST := by
  obtain ⟨r, h1, h2, -⟩ := do_connect_routing ex_env (ex_state ex_peek_sock) 5
    { sin_family := 2, sin_port := 0x5000, sin_addr := 0x0100007f } 16 ex_peek_sock {}
    (by decide) rfl rfl rfl
  have hloc : is_dst_ip_localhost ex_env
      { sin_family := 2, sin_port := 0x5000, sin_addr := 0x0100007f } = true := by decide
  obtain ⟨g1, g2, g3⟩ := h2 ⟨hloc, rfl⟩
  exact ⟨by decide, hloc, r, h1, g1, g2, g3⟩

/-! ## Socket options: the level is not looked at (C11) -/

/-- C11 fails on the code: on a fast-path descriptor, `TCP_KEEPCNT` at level
`IPPROTO_TCP` and `SO_PRIORITY` at level `SOL_SOCKET` are none of the five unsupported
options, yet `do_setsockopt` sends them to the kernel only and `do_getsockopt` answers from
the kernel, because `unsupport_optname` compares the option name alone and these names
have the numbers of `SO_BROADCAST` and `TCP_QUICKACK`; an option whose number collides with
none, `SO_KEEPALIVE`, goes to the kernel and then to the engine. -/
theorem do_setsockopt_ignores_level :
    ex_env.select_fd_posix_path 5 = posix_path.PATH_LWIP ∧
    (IPPROTO_TCP, TCP_KEEPCNT) ≠ (SOL_SOCKET, SO_BROADCAST) ∧
    (do_setsockopt ex_env (ex_state ex_recv_sock) 5 IPPROTO_TCP TCP_KEEPCNT).calls =
      [shim_call.posix_setsockopt 5 IPPROTO_TCP TCP_KEEPCNT] ∧
    (do_getsockopt ex_env (ex_state ex_recv_sock) 5 IPPROTO_TCP TCP_KEEPCNT).calls =
      [shim_call.posix_getsockopt 5 IPPROTO_TCP TCP_KEEPCNT] ∧
    (SOL_SOCKET, SO_PRIORITY) ≠ (IPPROTO_TCP, TCP_QUICKACK) ∧
    (do_setsockopt ex_env (ex_state ex_recv_sock) 5 SOL_SOCKET SO_PRIORITY).calls =
      [shim_call.posix_setsockopt 5 SOL_SOCKET SO_PRIORITY] ∧
    (do_setsockopt ex_env (ex_state ex_recv_sock) 5 SOL_SOCKET SO_KEEPALIVE).calls =
      [shim_call.posix_setsockopt 5 SOL_SOCKET SO_KEEPALIVE,
        shim_call.wrap_setsockopt 5 SOL_SOCKET SO_KEEPALIVE] := by
  refine ⟨rfl, by decide, by decide, by decide, by decide, by decide, by decide⟩

/-! ## `rtw_listen`: which switch selects the broadcast (C12) -/

/-- C12 (counterexample): with `tuple_filter` set and `listen_shadow` clear, `rtw_listen` on a
three-worker process does not perform a single-worker listen: it creates a clone on each
other worker and posts three `Listen` commands. -/
theorem rtw_listen_tuple_filter_broadcasts :
    (rtw_listen { tuple_filter := true, listen_shadow := false } (ex_fan_env none) true 8
        ex_fan_state 5 16).map (fun r => (r.2, r.1.rpc_log)) =
      some (0,
        [(0, rpc_msg.getsockname 5), (0, rpc_msg.listen 5 16),
         (1, rpc_msg.shadow_fd 5 { sin_family := AF_INET, sin_port := 80, sin_addr := 0 } 16),
         (1, rpc_msg.listen 1001 16),
         (2, rpc_msg.shadow_fd 5 { sin_family := AF_INET, sin_port := 80, sin_addr := 0 } 16),
         (2, rpc_msg.listen 1002 16)]) := by
  decide

/-- C12 (amended): `rtw_listen` performs the single-worker listen exactly when `tuple_filter`
and `listen_shadow` are both clear: then it returns what `stack_single_listen` returns and,
for a descriptor owned by worker `idx`, posts exactly one command, `Listen(backlog)` to
`idx`, and no `ShadowFd`; when either switch is set it performs the broadcast listen of
`stack_broadcast_listen`. -/
theorem rtw_listen_single_iff_both_clear (cfg : cfg_params) (env : fan_env)
    (reuse_ipport : Bool) (fuel : Nat) (st : lstack) (s : Int) (backlog : Int) (idx : Nat)
    (hidx : get_protocol_stack_by_fd st s = some idx) :
    (cfg.tuple_filter = false ∧ cfg.listen_shadow = false →
      rtw_listen cfg env reuse_ipport fuel st s backlog =
        some (stack_single_listen env.engine st s backlog) ∧
      (stack_single_listen env.engine st s backlog).1.rpc_log =
        st.rpc_log ++ [(idx, rpc_msg.listen s backlog)] ∧
      (stack_single_listen env.engine st s backlog).2 =
        (env.engine st idx (rpc_msg.listen s backlog)).2) ∧
    (cfg.tuple_filter = true ∨ cfg.listen_shadow = true →
      rtw_listen cfg env reuse_ipport fuel st s backlog =
        stack_broadcast_listen env reuse_ipport fuel st s backlog) := by
  constructor
  · rintro ⟨h1, h2⟩
    refine ⟨?_, ?_, ?_⟩
    · simp [rtw_listen, h1, h2]
    · simp [stack_single_listen, hidx, rpc_call]
    · simp [stack_single_listen, hidx, rpc_call]
  · intro h
    rcases h with h | h <;> simp [rtw_listen, h]

theorem rtw_listen_single_iff_both_clear_witness :
    get_protocol_stack_by_fd ex_fan_state 5 = some 0 ∧
    (rtw_listen { tuple_filter := false, listen_shadow := false } (ex_fan_env none) true 8
        ex_fan_state 5 16 =
      some (stack_single_listen (ex_fan_env none).engine ex_fan_state 5 16) ∧
    (stack_single_listen (ex_fan_env none).engine ex_fan_state 5 16).1.rpc_log =
      ex_fan_state.rpc_log ++ [(0, rpc_msg.listen 5 16)] ∧
    (stack_single_listen (ex_fan_env none).engine ex_fan_state 5 16).2 =
      ((ex_fan_env none).engine ex_fan_state 0 (rpc_msg.listen 5 16)).2) ∧
    rtw_listen { tuple_filter := false, listen_shadow := true } (ex_fan_env none) true 8
        ex_fan_state 5 16 =
      stack_broadcast_listen (ex_fan_env none) true 8 ex_fan_state 5 16 :=
  ⟨by decide,
    (rtw_listen_single_iff_both_clear { tuple_filter := false, listen_shadow := false }
      (ex_fan_env none) true 8 ex_fan_state 5 16 0 (by decide)).1 ⟨rfl, rfl⟩,
    (rtw_listen_single_iff_both_clear { tuple_filter := false, listen_shadow := true }
      (ex_fan_env none) true 8 ex_fan_state 5 16 0 (by decide)).2 (Or.inr rfl)⟩

/-! ## Operations on a descriptor without fast-path state (C20) -/

/-- C20 (counterexample): on a descriptor without socket, `write_stack_data` and
`read_stack_data` fail with -1 and `errno` `EINVAL`, which is not `EBADF`. -/
theorem stack_data_no_socket_einval :
    get_socket (ex_state ex_recv_sock) 9 = none ∧
    (write_stack_data 4 (ex_state ex_recv_sock) 9 [1, 2] 2).map (fun r => (r.2, r.1.errno)) =
      some (-1, EINVAL) ∧
    (read_stack_data (ex_state ex_recv_sock) 9 [0, 0] 2 0).map (fun r => (r.2.1, r.1.errno)) =
      some (-1, EINVAL) ∧
    EINVAL ≠ EBADF := by
  refine ⟨rfl, by decide, by decide, by decide⟩

/-- C20 (amended): an operation on a descriptor without fast-path state fails with -1 and
posts no command, with an `errno` that depends on the operation. When the owning-worker
lookup returns null, `rtw_connect`, `rtw_getsockname`, `rtw_getpeername`, `rtw_getsockopt`,
`rtw_setsockopt`, `stack_single_bind` and `stack_single_listen` set `EBADF`. When the socket
lookup returns null, `stack_broadcast_close` and `stack_broadcast_shutdown` set `EBADF`,
while `write_stack_data` and `read_stack_data` set `EINVAL`; the read leaves the caller's
buffer as it was. -/
theorem no_fast_state_errors (engine : rpc_engine) (VDEV_IDLE_QUEUE_SZ fuel : Nat)
    (st : lstack) (fd : Int) (name : sockaddr_in) (namelen : Nat) (level optname : Int)
    (backlog how : Int) (buf : List Nat) (len flags : Nat) :
    (get_protocol_stack_by_fd st fd = none →
      rtw_connect engine st fd name namelen = ({ st with errno := EBADF }, -1) ∧
      rtw_getsockname engine st fd = ({ st with errno := EBADF }, -1) ∧
      rtw_getpeername engine st fd = ({ st with errno := EBADF }, -1) ∧
      rtw_getsockopt engine st fd level optname = ({ st with errno := EBADF }, -1) ∧
      rtw_setsockopt engine st fd level optname = ({ st with errno := EBADF }, -1) ∧
      stack_single_bind engine st fd name namelen = ({ st with errno := EBADF }, -1) ∧
      stack_single_listen engine st fd backlog = ({ st with errno := EBADF }, -1)) ∧
    (lwip_get_socket st fd = none →
      stack_broadcast_close engine fuel st fd = some ({ st with errno := EBADF }, -1) ∧
      stack_broadcast_shutdown engine fuel st fd how = some ({ st with errno := EBADF }, -1) ∧
      write_stack_data VDEV_IDLE_QUEUE_SZ st fd buf len = some ({ st with errno := EINVAL }, -1) ∧
      read_stack_data st fd buf len flags = some ({ st with errno := EINVAL }, -1, buf)) := by
  constructor
  · intro h
    simp [rtw_connect, rtw_getsockname, rtw_getpeername, rtw_getsockopt, rtw_setsockopt,
      stack_single_bind, stack_single_listen, h, GAZELLE_RETURN]
  · intro h
    have h2 : get_socket st fd = none := h
    simp [stack_broadcast_close, stack_broadcast_shutdown, write_stack_data, read_stack_data,
      h, h2, GAZELLE_RETURN]

theorem no_fast_state_errors_witness :
    get_protocol_stack_by_fd ex_fan_state 9 = none ∧ lwip_get_socket ex_fan_state 9 = none ∧
    (rtw_connect ex_idle_engine ex_fan_state 9 ⟨AF_INET, 80, 0⟩ 16).2 = -1 ∧
    (rtw_connect ex_idle_engine ex_fan_state 9 ⟨AF_INET, 80, 0⟩ 16).1.errno = EBADF ∧
    (rtw_connect ex_idle_engine ex_fan_state 9 ⟨AF_INET, 80, 0⟩ 16).1.rpc_log = [] ∧
    (write_stack_data 4 ex_fan_state 9 [1] 1).map (fun r => (r.2, r.1.errno, r.1.rpc_log)) =
      some (-1, EINVAL, []) ∧
    (stack_broadcast_close ex_idle_engine 3 ex_fan_state 9).map
      (fun r => (r.2, r.1.errno, r.1.rpc_log)) = some (-1, EBADF, []) := by
  have h := no_fast_state_errors ex_idle_engine 4 3 ex_fan_state 9 ⟨AF_INET, 80, 0⟩ 16 0 0 0 0
    [1] 1 0
  have h1 := h.1 (by decide)
  have h2 := h.2 (by decide)
  refine ⟨by decide, by decide, ?_, ?_, ?_, ?_, ?_⟩
  · rw [h1.1]
  · rw [h1.1]
  · rw [h1.1]; rfl
  · rw [h2.2.2.1]; rfl
  · rw [h2.1]; rfl

/-! ## The recv-list: the sentinel of `read_recv_list` (C18) and no duplicates (C19) -/

/-- C18 fails on the code: the recv-list of the worker holds the three
descriptors 5, 6, 7; the receive ring of 5 is full, so 5 stays first in the list and is not
serviced, and the sentinel `first_sock` never leaves the list. Descriptors 6 and 7 re-add
themselves, are met again before the sentinel and are serviced a second time: `lwip_recv`
is invoked four times, twice on 6 and twice on 7. -/
theorem read_recv_list_services_twice :
    (ex_list_state.stack_group 0).recv_list = [5, 6, 7] ∧
    (read_recv_list ex_netconn_recv 20 ex_list_state 0).map (fun r => r.2) =
      some [6, 7, 6, 7] := by
  refine ⟨rfl, by decide⟩

theorem recv_list_inv_congr (a b : lstack) (ha : recv_list_inv a)
    (hl : ∀ i, (b.stack_group i).recv_list = (a.stack_group i).recv_list)
    (hn : b.stack_num = a.stack_num)
    (ho : ∀ g, get_protocol_stack_by_fd b g = get_protocol_stack_by_fd a g) :
    recv_list_inv b := by
  refine ⟨?_, ?_⟩
  · intro i hi
    rw [hl i]
    exact ha.1 i (hn ▸ hi)
  · intro g idx h
    rw [ho g] at h
    rw [hn]
    exact ha.2 g idx h

theorem recv_list_linked_false (st : lstack) (fd : Int) (i : Nat) (hi : i < st.stack_num)
    (h : recv_list_linked st fd = false) : fd ∉ (st.stack_group i).recv_list := by
  intro hm
  have : recv_list_linked st fd = true := by
    unfold recv_list_linked
    rw [List.any_eq_true]
    exact ⟨i, List.mem_range.mpr hi, by simpa using hm⟩
  rw [h] at this
  exact Bool.noConfusion this

theorem add_recv_list_inv (st st1 : lstack) (fd : Int) (hinv : recv_list_inv st)
    (h : add_recv_list st fd = some st1) : recv_list_inv st1 := by
  unfold add_recv_list at h
  cases hs : get_socket st fd with
  | none => simp [hs] at h
  | some sock =>
    simp only [hs] at h
    cases hk : sock.stack with
    | none =>
      simp only [hk] at h
      cases h; exact hinv
    | some idx =>
      simp only [hk] at h
      by_cases hl : recv_list_linked st fd = true
      · simp [hl] at h
        cases h; exact hinv
      · have hl2 : recv_list_linked st fd = false := by simpa using hl
        simp [hl2] at h
        subst h
        have hidx : idx < st.stack_num := by
          apply hinv.2 fd idx
          simp [get_protocol_stack_by_fd, lwip_get_socket]
          unfold get_socket at hs
          rw [hs]; simpa using hk
        refine ⟨?_, ?_⟩
        · intro i hi
          have hi2 : i < st.stack_num := hi
          by_cases hii : i = idx
          · subst hii
            simp only [set_stack, list_add_node, if_true]
            rw [List.nodup_append]
            refine ⟨hinv.1 i hi2, List.nodup_singleton fd, ?_⟩
            intro x hx hx2
            simp at hx2
            subst hx2
            exact recv_list_linked_false st x i hi2 hl2 hx
          · simp only [set_stack, hii, if_false]
            exact hinv.1 i hi2
        · intro g j hg
          exact hinv.2 g j hg

theorem list_del_node_init_inv (st : lstack) (fd : Int) (hinv : recv_list_inv st) :
    recv_list_inv (list_del_node_init st fd) := by
  refine ⟨?_, ?_⟩
  · intro i hi
    exact List.Nodup.filter _ (hinv.1 i hi)
  · intro g j hg
    exact hinv.2 g j hg

theorem stats_update_inv (st : lstack) (idx : Nat) (stack : protocol_stack)
    (hl : stack.recv_list = (st.stack_group idx).recv_list) (hinv : recv_list_inv st) :
    recv_list_inv (set_stack st idx stack) := by
  refine recv_list_inv_congr st _ hinv ?_ rfl (fun _ => rfl)
  intro i
  by_cases hi : i = idx
  · subst hi; simp [set_stack, hl]
  · simp [set_stack, hi]

theorem set_socket_inv (st : lstack) (fd : Int) (s2 : lwip_sock) (freed : List pbuf)
    (h2 : (st.sockets fd).bind (fun s => s.stack) = s2.stack) (hinv : recv_list_inv st) :
    recv_list_inv { set_socket st fd s2 with freed := freed } := by
  refine recv_list_inv_congr st _ hinv (fun _ => rfl) rfl ?_
  intro g
  by_cases hg : g = fd
  · subst hg
    simp [get_protocol_stack_by_fd, lwip_get_socket, set_socket, h2]
  · simp [get_protocol_stack_by_fd, lwip_get_socket, set_socket, hg]

theorem add_recv_list_sockets (st st1 : lstack) (fd : Int) (h : add_recv_list st fd = some st1) :
    st1.sockets = st.sockets := by
  unfold add_recv_list at h
  split at h
  · cases h
  · split at h
    · cases h; rfl
    · split at h <;> cases h <;> rfl

theorem add_read_lwip_drop_inv (st : lstack) (idx n : Nat) (hinv : recv_list_inv st) :
    recv_list_inv (add_read_lwip_drop st idx n) :=
  stats_update_inv st idx _ rfl hinv

theorem add_read_lwip_cnt_inv (st : lstack) (idx n : Nat) (hinv : recv_list_inv st) :
    recv_list_inv (add_read_lwip_cnt st idx n) :=
  stats_update_inv st idx _ rfl hinv

theorem read_lwip_data_finish_inv (st st1 : lstack) (fd : Int) (sock : lwip_sock)
    (flags free_count data_count : Nat) (r : lwip_read_vars × Option Int) (ret : Int)
    (hs2 : st.sockets fd = some sock) (hinv : recv_list_inv st)
    (h : read_lwip_data_finish st fd sock flags free_count data_count r = some (st1, ret)) :
    recv_list_inv st1 := by
  unfold read_lwip_data_finish at h
  dsimp only at h
  have hA : recv_list_inv
      { set_socket st fd (read_lwip_data_sock sock r.1) with freed := r.1.freed } :=
    set_socket_inv st fd _ _ (by simp [hs2, read_lwip_data_sock]) hinv
  split at h
  · cases h; exact hA
  · split at h
    · cases h
    · rename_i idx hk
      have hB : recv_list_inv (add_read_lwip_drop
          { set_socket st fd (read_lwip_data_sock sock r.1) with freed := r.1.freed }
          idx r.1.drop) := add_read_lwip_drop_inv _ idx _ hA
      split at h
      · cases h
      · rename_i st3 h3
        simp only [Option.some.injEq, Prod.mk.injEq] at h
        rw [← h.1]
        have hC : recv_list_inv st3 ∧
            st3.sockets fd = some (read_lwip_data_sock sock r.1) := by
          split at h3
          · refine ⟨add_recv_list_inv _ st3 fd hB h3, ?_⟩
            rw [add_recv_list_sockets _ _ _ h3]
            simp [add_read_lwip_drop, set_stack, set_socket]
          · cases h3
            exact ⟨hB, by simp [add_read_lwip_drop, set_stack, set_socket]⟩
        apply add_read_lwip_cnt_inv
        split
        · have := set_socket_inv st3 fd
            (add_epoll_event (read_lwip_data_sock sock r.1) EPOLLIN) st3.freed
            (by simp [hC.2, add_epoll_event, read_lwip_data_sock]) hC.1
          exact this
        · exact hC.1

theorem read_lwip_data_inv (recv : netconn_recv_fn) (st st1 : lstack) (fd : Int)
    (flags apiflags : Nat) (ret : Int) (hinv : recv_list_inv st)
    (h : read_lwip_data recv st fd flags apiflags = some (st1, ret)) : recv_list_inv st1 := by
  unfold read_lwip_data at h
  cases hs : get_socket st fd with
  | none => simp [hs] at h
  | some sock =>
    have hs2 : st.sockets fd = some sock := hs
    simp only [hs] at h
    split at h
    · cases h
    · split at h
      · cases h; exact hinv
      · split at h
        · cases h
        · exact read_lwip_data_finish_inv st st1 fd sock flags _ _ _ ret hs2 hinv h

theorem read_recv_list_step_inv (recv : netconn_recv_fn) (idx : Nat) (v v1 : recv_list_vars)
    (hinv : recv_list_inv v.st)
    (h : read_recv_list_step recv idx v = recv_list_step.next v1) : recv_list_inv v1.st := by
  unfold read_recv_list_step at h
  split at h
  · cases h
  · split at h
    · cases h
    · split at h
      · cases h
      · rename_i sock hs
        dsimp only at h
        split at h
        · split at h
          · cases h
          · rename_i st1 hr
            cases h
            unfold lwip_recv at hr
            rw [Option.map_eq_some'] at hr
            obtain ⟨q, hq, rfl⟩ := hr
            exact read_lwip_data_inv recv _ q.1 _ _ _ q.2
              (list_del_node_init_inv v.st _ hinv) hq
        · cases h
          exact hinv

theorem read_recv_list_iter_inv (recv : netconn_recv_fn) (idx : Nat) :
    ∀ (n : Nat) (v : recv_list_vars), recv_list_inv v.st →
      recv_list_inv (read_recv_list_iter recv idx n v).1.st := by
  intro n
  induction n with
  | zero => intro v hv; exact hv
  | succ n ih =>
    intro v hv
    unfold read_recv_list_iter
    cases hstep : read_recv_list_step recv idx v with
    | exit => exact hv
    | crash => exact hv
    | next v1 => exact ih v1 (read_recv_list_step_inv recv idx v v1 hv hstep)

theorem gazelle_clean_sock_recv_list (st : lstack) (fd : Int) (sock : lwip_sock)
    (hs : get_socket st fd = some sock) (i : Nat) :
    ((gazelle_clean_sock st fd).stack_group i).recv_list =
      (st.stack_group i).recv_list.filter (· ≠ fd) ∧
    (gazelle_clean_sock st fd).stack_num = st.stack_num := by
  unfold gazelle_clean_sock
  rw [hs]
  refine ⟨?_, ?_⟩
  · simp [set_socket]
  · simp [set_socket]

/-- C19: a descriptor appears in a recv-list at most once. For a process whose recv-lists
hold no descriptor twice (and whose descriptors are owned by workers of the group) and a
descriptor with a socket: `add_recv_list` on a descriptor that is linked returns the state
unchanged; `add_recv_list` returns, and the lists of the state it leaves hold no descriptor
twice; after any number of rounds of the loop of `read_recv_list` the lists hold no
descriptor twice, and so do the lists of the state `read_recv_list` returns; and after
`gazelle_clean_sock` the lists hold no descriptor twice and none of them holds the
descriptor. -/
theorem recv_list_no_duplicates (recv : netconn_recv_fn) (st : lstack) (fd : Int)
    (sock : lwip_sock) (idx n : Nat) (hs : get_socket st fd = some sock)
    (hn : recv_list_nodup st) (hg : ∀ g, owner_in_group st g) :
    (recv_list_linked st fd = true → add_recv_list st fd = some st) ∧
    (∃ st1, add_recv_list st fd = some st1 ∧ recv_list_nodup st1) ∧
    recv_list_nodup (read_recv_list_iter recv idx n (read_recv_list_init st idx)).1.st ∧
    (∀ st1 l, read_recv_list recv n st idx = some (st1, l) → recv_list_nodup st1) ∧
    recv_list_nodup (gazelle_clean_sock st fd) ∧
    ∀ i, fd ∉ ((gazelle_clean_sock st fd).stack_group i).recv_list := by
  have hinv : recv_list_inv st := ⟨hn, hg⟩
  refine ⟨?_, ?_, ?_, ?_, ?_, ?_⟩
  · intro hl
    unfold add_recv_list
    simp only [hs]
    cases sock.stack with
    | none => rfl
    | some j => simp [hl]
  · have hex : ∃ st1, add_recv_list st fd = some st1 := by
      unfold add_recv_list
      simp only [hs]
      cases sock.stack with
      | none => exact ⟨_, rfl⟩
      | some j =>
        simp only
        split
        · exact ⟨_, rfl⟩
        · exact ⟨_, rfl⟩
    obtain ⟨st1, h1⟩ := hex
    exact ⟨st1, h1, (add_recv_list_inv st st1 fd hinv h1).1⟩
  · exact (read_recv_list_iter_inv recv idx n (read_recv_list_init st idx) hinv).1
  · intro st1 l h
    have hi := (read_recv_list_iter_inv recv idx n (read_recv_list_init st idx) hinv).1
    unfold read_recv_list at h
    split at h
    · rename_i v heq
      cases h
      rw [heq] at hi
      exact hi
    · cases h
  · intro i hi
    rw [(gazelle_clean_sock_recv_list st fd sock hs i).1]
    rw [(gazelle_clean_sock_recv_list st fd sock hs i).2] at hi
    exact List.Nodup.filter _ (hn i hi)
  · intro i
    rw [(gazelle_clean_sock_recv_list st fd sock hs i).1]
    simp

theorem ex_list_state_owner : ∀ g, owner_in_group ex_list_state g := by
  intro g idx h
  have hnum : ex_list_state.stack_num = 1 := rfl
  rw [hnum]
  simp only [get_protocol_stack_by_fd, lwip_get_socket, ex_list_state] at h
  split_ifs at h <;> simp [ex_full_sock, ex_peek_list_sock] at h <;> omega

theorem recv_list_no_duplicates_witness :
    (recv_list_linked ex_list_state 6 = true → add_recv_list ex_list_state 6 = some ex_list_state) ∧
    (∃ st1, add_recv_list ex_list_state 6 = some st1 ∧ recv_list_nodup st1) ∧
    recv_list_nodup
      (read_recv_list_iter ex_netconn_recv 0 20 (read_recv_list_init ex_list_state 0)).1.st ∧
    (∀ st1 l, read_recv_list ex_netconn_recv 20 ex_list_state 0 = some (st1, l) →
      recv_list_nodup st1) ∧
    recv_list_nodup (gazelle_clean_sock ex_list_state 6) ∧
    ∀ i, (6 : Int) ∉ ((gazelle_clean_sock ex_list_state 6).stack_group i).recv_list :=
  recv_list_no_duplicates ex_netconn_recv ex_list_state 6 ex_peek_list_sock 0 20 (by decide)
    (by decide) ex_list_state_owner

/-! ## Walks along a clone chain: `stack_broadcast_close`, `stack_broadcast_shutdown` (C16) -/

theorem closed_of_links (a b : lstack) (g : Int) (h : sock_links a g = sock_links b g) :
    POSIX_IS_CLOSED (a.sockets g) = POSIX_IS_CLOSED (b.sockets g) := by
  unfold sock_links at h
  cases ha : a.sockets g <;> cases hb : b.sockets g <;> simp [ha, hb] at h
  · rfl
  · simp [POSIX_IS_CLOSED, h.2.1]

theorem owner_of_links (a b : lstack) (g : Int) (h : sock_links a g = sock_links b g) :
    get_protocol_stack_by_fd a g = get_protocol_stack_by_fd b g := by
  unfold sock_links at h
  unfold get_protocol_stack_by_fd lwip_get_socket
  cases ha : a.sockets g <;> cases hb : b.sockets g <;> simp [ha, hb] at h
  · rfl
  · simp [h.2.2]

theorem next_of_links (a b : lstack) (g : Int) (h : sock_links a g = sock_links b g) :
    (a.sockets g).map (fun s => s.listen_next) = (b.sockets g).map (fun s => s.listen_next) := by
  unfold sock_links at h
  cases ha : a.sockets g <;> cases hb : b.sockets g <;> simp [ha, hb] at h
  · rfl
  · simp [h.1]

theorem clone_chain_congr (a b : lstack) :
    ∀ (l : List Int), (∀ g ∈ l, sock_links a g = sock_links b g) →
      clone_chain a l → clone_chain b l := by
  intro l
  induction l with
  | nil => intro _ h; exact h
  | cons f rest ih =>
    intro hl h
    cases rest with
    | nil =>
      unfold clone_chain at h ⊢
      rw [← next_of_links a b f (hl f (by simp))]
      exact h
    | cons g rest2 =>
      unfold clone_chain at h ⊢
      refine ⟨?_, ?_, ?_⟩
      · rw [← next_of_links a b f (hl f (by simp))]
        exact h.1
      · rw [← closed_of_links a b g (hl g (by simp))]
        exact h.2.1
      · exact ih (fun x hx => hl x (List.mem_cons_of_mem _ hx)) h.2.2

theorem rpc_call_links (engine : rpc_engine) (st : lstack) (idx : Nat) (msg : rpc_msg) (g : Int) :
    sock_links (rpc_call engine st idx msg).1 g = sock_links (engine st idx msg).1 g := rfl

theorem rpc_call_log (engine : rpc_engine) (st : lstack) (idx : Nat) (msg : rpc_msg) :
    (rpc_call engine st idx msg).1.rpc_log = st.rpc_log ++ [(idx, msg)] := rfl

theorem rpc_call_stack_num (engine : rpc_engine) (st : lstack) (idx : Nat) (msg : rpc_msg) :
    (rpc_call engine st idx msg).1.stack_num = st.stack_num := rfl

theorem stack_broadcast_post_spec (engine : rpc_engine) (cmd : Int → rpc_msg) (st : lstack)
    (fd : Int) (idx : Nat) (ret : Int) :
    (stack_broadcast_post engine cmd st fd (some idx) ret).1 =
      (rpc_call engine st idx (cmd fd)).1 ∧
    ((stack_broadcast_post engine cmd st fd (some idx) ret).2 = ret ∨
      (stack_broadcast_post engine cmd st fd (some idx) ret).2 = -1) := by
  simp only [stack_broadcast_post]
  split <;> simp

/-- The walk of `stack_broadcast_close` and `stack_broadcast_shutdown` along a chain that
ends in a null link, when a command on one clone leaves the links of the others alone:
with more fuel than clones the walk returns, having posted one command for each clone, in
chain order, to the clone's owning worker. -/
theorem stack_broadcast_loop_chain (engine : rpc_engine) (cmd : Int → rpc_msg)
    (owner : Int → Nat)
    (hframe : ∀ st idx f g, g ≠ f → sock_links (engine st idx (cmd f)).1 g = sock_links st g) :
    ∀ (fds : List Int) (f : Int) (st : lstack) (fuel : Nat) (ret : Int),
      (f :: fds).Nodup → clone_chain st (f :: fds) → fds.length < fuel →
      (∀ g ∈ f :: fds, get_protocol_stack_by_fd st g = some (owner g)) →
      ∃ st1 r, stack_broadcast_loop engine cmd fuel st f (get_protocol_stack_by_fd st f) ret =
          some (st1, r) ∧
        st1.rpc_log = st.rpc_log ++ (f :: fds).map (fun g => (owner g, cmd g)) ∧
        (r = ret ∨ r = -1) := by
  intro fds
  induction fds with
  | nil =>
    intro f st fuel ret _ hch hfuel hown
    obtain ⟨n, rfl⟩ : ∃ n, fuel = n + 1 := ⟨fuel - 1, by simp at hfuel; omega⟩
    unfold clone_chain at hch
    unfold stack_broadcast_loop
    unfold lwip_get_socket
    cases hs : st.sockets f with
    | none => simp [hs] at hch
    | some s =>
      simp only [hs, Option.map_some', Option.some.injEq] at hch
      simp only [hch, hown f (by simp)]
      have hp := stack_broadcast_post_spec engine cmd st f (owner f) ret
      refine ⟨_, _, rfl, ?_, hp.2⟩
      show (stack_broadcast_post engine cmd st f (some (owner f)) ret).1.rpc_log = _
      rw [hp.1, rpc_call_log]; simp
  | cons g rest ih =>
    intro f st fuel ret hnd hch hfuel hown
    obtain ⟨n, rfl⟩ : ∃ n, fuel = n + 1 := ⟨fuel - 1, by simp at hfuel; omega⟩
    unfold clone_chain at hch
    have hp := stack_broadcast_post_spec engine cmd st f (owner f) ret
    have hne : ∀ x ∈ g :: rest, x ≠ f := by
      intro x hx hxf
      subst hxf
      exact (List.nodup_cons.mp hnd).1 hx
    have hl : ∀ x ∈ g :: rest,
        sock_links (stack_broadcast_post engine cmd st f (some (owner f)) ret).1 x =
          sock_links st x := by
      intro x hx
      rw [hp.1, rpc_call_links]
      exact hframe st (owner f) f x (hne x hx)
    have hch2 : clone_chain (stack_broadcast_post engine cmd st f (some (owner f)) ret).1
        (g :: rest) :=
      clone_chain_congr st _ (g :: rest) (fun x hx => (hl x hx).symm) hch.2.2
    have hown2 : ∀ x ∈ g :: rest,
        get_protocol_stack_by_fd (stack_broadcast_post engine cmd st f (some (owner f)) ret).1 x
          = some (owner x) := by
      intro x hx
      rw [owner_of_links _ st x (hl x hx)]
      exact hown x (List.mem_cons_of_mem _ hx)
    have hcl : POSIX_IS_CLOSED
        ((stack_broadcast_post engine cmd st f (some (owner f)) ret).1.sockets g) = false := by
      rw [closed_of_links _ st g (hl g (by simp))]
      exact hch.2.1
    have hfuel2 : rest.length < n := by simp at hfuel; omega
    unfold stack_broadcast_loop
    unfold lwip_get_socket
    cases hs : st.sockets f with
    | none => simp [hs] at hch
    | some s =>
      have hnext : s.listen_next = some g := by simpa [hs] using hch.1
      simp only [hnext, hown f (by simp), lwip_get_socket, hcl, Bool.false_eq_true, if_false]
      obtain ⟨st1, r, h1, h2, h3⟩ := ih g
        (stack_broadcast_post engine cmd st f (some (owner f)) ret).1 n
        (stack_broadcast_post engine cmd st f (some (owner f)) ret).2
        (List.nodup_cons.mp hnd).2 hch2 hfuel2 hown2
      refine ⟨st1, r, h1, ?_, ?_⟩
      · rw [h2, hp.1, rpc_call_log]; simp
      · rcases h3 with h3 | h3
        · rcases hp.2 with h4 | h4
          · exact Or.inl (h3.trans h4)
          · exact Or.inr (h3.trans h4)
        · exact Or.inr h3

theorem stack_broadcast_loop_cycle (cmd : Int → rpc_msg) :
    ∀ (fuel : Nat) (st : lstack) (f : Int) (stack : Option Nat) (ret : Int),
      st.sockets = ex_cycle_state.sockets → (f = 5 ∨ f = 6) →
      stack_broadcast_loop ex_idle_engine cmd fuel st f stack ret = none := by
  intro fuel
  induction fuel with
  | zero => intro st f stack ret _ _; rfl
  | succ n ih =>
    intro st f stack ret hst hf
    have hpost : (stack_broadcast_post ex_idle_engine cmd st f stack ret).1.sockets =
        ex_cycle_state.sockets := by
      rw [← hst]
      unfold stack_broadcast_post
      cases stack with
      | none => rfl
      | some idx =>
        simp only
        split <;> rfl
    unfold stack_broadcast_loop
    rcases hf with hf | hf
    · subst hf
      have h5 : lwip_get_socket st 5 =
          some { recv_ring := none, send_ring := none, listen_next := some 6 } := by
        unfold lwip_get_socket; rw [hst]; rfl
      have h6 : POSIX_IS_CLOSED
          (lwip_get_socket (stack_broadcast_post ex_idle_engine cmd st 5 stack ret).1 6) =
          false := by
        unfold lwip_get_socket; rw [hpost]; rfl
      simp only [h5, h6, Bool.false_eq_true, if_false]
      exact ih _ 6 _ _ hpost (Or.inr rfl)
    · subst hf
      have h6 : lwip_get_socket st 6 =
          some { recv_ring := none, send_ring := none, stack := some 1,
                 listen_next := some 5 } := by
        unfold lwip_get_socket; rw [hst]; rfl
      have h5 : POSIX_IS_CLOSED
          (lwip_get_socket (stack_broadcast_post ex_idle_engine cmd st 6 stack ret).1 5) =
          false := by
        unfold lwip_get_socket; rw [hpost]; rfl
      simp only [h6, h5, Bool.false_eq_true, if_false]
      exact ih _ 5 _ _ hpost (Or.inl rfl)

/-- C16 (counterexample): in `ex_cycle_state` the two clones 5 and 6 form a cycle through the
next-clone link (following it twice from 5 returns to 5), and the `Shutdown` of the engine
leaves the sockets as they are. `stack_broadcast_shutdown` has no test for the starting
clone: whatever the number of rounds allowed, the walk has not returned. -/
theorem stack_broadcast_shutdown_cycle_never_returns :
    (ex_cycle_state.sockets 5).bind (fun s => s.listen_next) = some 6 ∧
    (ex_cycle_state.sockets 6).bind (fun s => s.listen_next) = some 5 ∧
    ∀ fuel, stack_broadcast_shutdown ex_idle_engine fuel ex_cycle_state 5 1 = none := by
  refine ⟨rfl, rfl, ?_⟩
  intro fuel
  unfold stack_broadcast_shutdown
  have h5 : lwip_get_socket ex_cycle_state 5 =
      some { recv_ring := none, send_ring := none, listen_next := some 6 } := rfl
  simp only [h5]
  exact stack_broadcast_loop_cycle _ fuel ex_cycle_state 5 _ 0 rfl (Or.inl rfl)

/-- C16 (amended): for a descriptor `f` whose clones `fds` are chained behind it through the
next-clone link, the link of the last one being null, each of them owned by a worker, and
an engine whose `Close` and `Shutdown` of one clone leave the links of the other
descriptors alone: with more rounds allowed than there are clones, `stack_broadcast_close`
and `stack_broadcast_shutdown` return, and the commands they have posted are `Close`, resp.
`Shutdown(how)`, exactly once for `f` and for each clone, in chain order, each to the
owning worker; for a descriptor without clones (`fds` empty) that is one command. -/
theorem stack_broadcast_walk_null_terminated (engine : rpc_engine) (owner : Int → Nat)
    (how : Int) (fds : List Int) (f : Int) (st : lstack) (fuel : Nat)
    (hclose : ∀ st idx f g, g ≠ f →
      sock_links (engine st idx (rpc_msg.close f)).1 g = sock_links st g)
    (hshut : ∀ st idx f g, g ≠ f →
      sock_links (engine st idx (rpc_msg.shutdown f how)).1 g = sock_links st g)
    (hnd : (f :: fds).Nodup) (hch : clone_chain st (f :: fds)) (hfuel : fds.length < fuel)
    (hown : ∀ g ∈ f :: fds, get_protocol_stack_by_fd st g = some (owner g)) :
    (∃ st1 r, stack_broadcast_close engine fuel st f = some (st1, r) ∧
      st1.rpc_log = st.rpc_log ++ (f :: fds).map (fun g => (owner g, rpc_msg.close g))) ∧
    (∃ st1 r, stack_broadcast_shutdown engine fuel st f how = some (st1, r) ∧
      st1.rpc_log =
        st.rpc_log ++ (f :: fds).map (fun g => (owner g, rpc_msg.shutdown g how))) := by
  have hs : ∃ s, lwip_get_socket st f = some s := by
    have h := hown f (by simp)
    unfold get_protocol_stack_by_fd at h
    cases hq : lwip_get_socket st f with
    | none => simp [hq] at h
    | some s => exact ⟨s, rfl⟩
  obtain ⟨s, hs⟩ := hs
  constructor
  · obtain ⟨st1, r, h1, h2, _⟩ := stack_broadcast_loop_chain engine rpc_msg.close owner hclose
      fds f st fuel 0 hnd hch hfuel hown
    refine ⟨st1, r, ?_, h2⟩
    unfold stack_broadcast_close
    simp only [hs]
    exact h1
  · obtain ⟨st1, r, h1, h2, _⟩ := stack_broadcast_loop_chain engine
      (fun k => rpc_msg.shutdown k how) owner hshut fds f st fuel 0 hnd hch hfuel hown
    refine ⟨st1, r, ?_, h2⟩
    unfold stack_broadcast_shutdown
    simp only [hs]
    exact h1

theorem ex_engine_close_frame (fail_at : Option Nat) (st : lstack) (idx : Nat) (f g : Int)
    (h : g ≠ f) : sock_links (ex_engine fail_at st idx (rpc_msg.close f)).1 g = sock_links st g := by
  unfold ex_engine
  simp only
  cases st.sockets f with
  | none => rfl
  | some s => simp [sock_links, set_socket, h]

theorem stack_broadcast_walk_null_terminated_witness :
    (∃ st1 r, stack_broadcast_close (ex_engine none) 3 ex_chain_state 5 = some (st1, r) ∧
      st1.rpc_log = [(0, rpc_msg.close 5), (1, rpc_msg.close 6), (2, rpc_msg.close 7)]) ∧
    (∃ st1 r, stack_broadcast_shutdown (ex_engine none) 3 ex_chain_state 5 1 = some (st1, r) ∧
      st1.rpc_log =
        [(0, rpc_msg.shutdown 5 1), (1, rpc_msg.shutdown 6 1), (2, rpc_msg.shutdown 7 1)]) :=
  stack_broadcast_walk_null_terminated (ex_engine none)
    (fun g => if g = 5 then 0 else if g = 6 then 1 else 2) 1 [6, 7] 5 ex_chain_state 3
    (ex_engine_close_frame none) (fun _ _ _ _ _ => rfl) (by decide) (by decide) (by decide)
    (by decide)

/-! ## `rtw_udp_recvfrom`: polling the clones (C17) -/

theorem rtw_udp_recvfrom_loop_cycle :
    ∀ (fuel : Nat) (st : lstack) (f : Int) (polled : List Int),
      st.sockets = ex_cycle_state.sockets → (f = 5 ∨ f = 6) →
      rtw_udp_recvfrom_loop (ex_fan_env none) fuel st (some f) f polled = none := by
  intro fuel
  induction fuel with
  | zero => intro st f polled _ _; rfl
  | succ n ih =>
    intro st f polled hst hf
    unfold rtw_udp_recvfrom_loop
    have hr : (ex_fan_env none).do_lwip_read_from_stack st f = ({ st with errno := EAGAIN }, -1) :=
      rfl
    simp only [hr]
    have hneg : ¬ ((-1 : Int) ≥ 0) := by decide
    simp only [hneg, if_false, ne_eq, not_true_eq_false, Option.some_bind, lwip_get_socket, hst]
    rcases hf with hf | hf
    · subst hf
      have h5 : ex_cycle_state.sockets 5 =
          some { recv_ring := none, send_ring := none, listen_next := some 6 } := rfl
      have h6 : ex_cycle_state.sockets 6 =
          some { recv_ring := none, send_ring := none, stack := some 1,
                 listen_next := some 5 } := rfl
      simp only [h5, h6, Option.isNone_some, Bool.false_eq_true, if_false]
      exact ih _ 6 _ rfl (Or.inr rfl)
    · subst hf
      have h5 : ex_cycle_state.sockets 5 =
          some { recv_ring := none, send_ring := none, listen_next := some 6 } := rfl
      have h6 : ex_cycle_state.sockets 6 =
          some { recv_ring := none, send_ring := none, stack := some 1,
                 listen_next := some 5 } := rfl
      simp only [h5, h6, Option.isNone_some, Bool.false_eq_true, if_false]
      exact ih _ 5 _ rfl (Or.inl rfl)

/-- C17 (counterexample): in `ex_cycle_state` the clones 5 and 6 of a shadow descriptor are
chained cyclically and every read fails with `EAGAIN`. The loop of `rtw_udp_recvfrom` ends
only at a null or closed next clone: whatever the number of rounds allowed, the call has
not returned. -/
theorem rtw_udp_recvfrom_cycle_never_returns :
    (ex_cycle_state.sockets 5).bind (fun s => s.listen_next) = some 6 ∧
    (ex_cycle_state.sockets 6).bind (fun s => s.listen_next) = some 5 ∧
    ∀ fuel, rtw_udp_recvfrom (ex_fan_env none) fuel ex_cycle_state 5 = none := by
  refine ⟨rfl, rfl, ?_⟩
  intro fuel
  unfold rtw_udp_recvfrom
  exact rtw_udp_recvfrom_loop_cycle fuel ex_cycle_state 5 [] rfl (Or.inl rfl)

theorem rtw_udp_recvfrom_loop_chain (env : fan_env)
    (hread : ∀ st g, (env.do_lwip_read_from_stack st g).2 < 0 ∧
      (env.do_lwip_read_from_stack st g).1.errno = EAGAIN ∧
      ∀ x, sock_links (env.do_lwip_read_from_stack st g).1 x = sock_links st x) :
    ∀ (fds : List Int) (f : Int) (st : lstack) (fuel : Nat) (polled : List Int),
      clone_chain st (f :: fds) → fds.length < fuel →
      ∃ res, rtw_udp_recvfrom_loop env fuel st (some f) f polled = some res ∧
        res.ret = -1 ∧ res.st.errno = EAGAIN ∧ res.polled = polled ++ f :: fds := by
  intro fds
  induction fds with
  | nil =>
    intro f st fuel polled hch hfuel
    obtain ⟨n, rfl⟩ : ∃ n, fuel = n + 1 := ⟨fuel - 1, by simp at hfuel; omega⟩
    obtain ⟨h1, h2, h3⟩ := hread st f
    unfold clone_chain at hch
    rw [← next_of_links _ st f (h3 f)] at hch
    unfold rtw_udp_recvfrom_loop
    have hneg : ¬ ((env.do_lwip_read_from_stack st f).2 ≥ 0) := by omega
    simp only [hneg, if_false, h2, ne_eq, not_true_eq_false, Option.some_bind, lwip_get_socket]
    cases hs : (env.do_lwip_read_from_stack st f).1.sockets f with
    | none => simp [hs] at hch
    | some s =>
      have hnext : s.listen_next = none := by simpa [hs] using hch
      simp only [hnext]
      exact ⟨_, rfl, rfl, rfl, rfl⟩
  | cons g rest ih =>
    intro f st fuel polled hch hfuel
    obtain ⟨n, rfl⟩ : ∃ n, fuel = n + 1 := ⟨fuel - 1, by simp at hfuel; omega⟩
    obtain ⟨h1, h2, h3⟩ := hread st f
    unfold clone_chain at hch
    have hch2 : clone_chain (env.do_lwip_read_from_stack st f).1 (g :: rest) :=
      clone_chain_congr st _ (g :: rest) (fun x _ => (h3 x).symm) hch.2.2
    have hcl : POSIX_IS_CLOSED ((env.do_lwip_read_from_stack st f).1.sockets g) = false := by
      rw [closed_of_links _ st g (h3 g)]
      exact hch.2.1
    have hn := hch.1
    rw [← next_of_links _ st f (h3 f)] at hn
    unfold rtw_udp_recvfrom_loop
    have hneg : ¬ ((env.do_lwip_read_from_stack st f).2 ≥ 0) := by omega
    simp only [hneg, if_false, h2, ne_eq, not_true_eq_false, Option.some_bind, lwip_get_socket]
    cases hs : (env.do_lwip_read_from_stack st f).1.sockets f with
    | none => simp [hs] at hn
    | some s =>
      have hnext : s.listen_next = some g := by simpa [hs] using hn
      simp only [hnext]
      cases hg : (env.do_lwip_read_from_stack st f).1.sockets g with
      | none => simp [hg, POSIX_IS_CLOSED] at hcl
      | some ng =>
        have hc : ng.conn.isNone = false := by simpa [hg, POSIX_IS_CLOSED] using hcl
        simp only [hc, Bool.false_eq_true, if_false]
        obtain ⟨res, e1, e2, e3, e4⟩ := ih g (env.do_lwip_read_from_stack st f).1 n
          (polled ++ [f]) hch2 (by simp at hfuel; omega)
        exact ⟨res, e1, e2, e3, by rw [e4]; simp⟩

/-- C17 (amended): for a shadow UDP descriptor `f` whose clones `fds` are chained behind it
through the next-clone link, the link of the last one being null, and reads that fail with
`EAGAIN` on every clone (and leave the links alone): with more rounds allowed than there
are clones, `rtw_udp_recvfrom` returns -1 with `errno` `EAGAIN`, and it has polled `f` and
each clone exactly once, in chain order. -/
theorem rtw_udp_recvfrom_null_terminated (env : fan_env) (fds : List Int) (f : Int)
    (st : lstack) (fuel : Nat)
    (hread : ∀ st g, (env.do_lwip_read_from_stack st g).2 < 0 ∧
      (env.do_lwip_read_from_stack st g).1.errno = EAGAIN ∧
      ∀ x, sock_links (env.do_lwip_read_from_stack st g).1 x = sock_links st x)
    (hch : clone_chain st (f :: fds)) (hfuel : fds.length < fuel) :
    ∃ res, rtw_udp_recvfrom env fuel st f = some res ∧
      res.ret = -1 ∧ res.st.errno = EAGAIN ∧ res.polled = f :: fds := by
  have hs : (lwip_get_socket st f).map (fun _ => f) = some f := by
    unfold lwip_get_socket
    cases h : st.sockets f with
    | none =>
      cases fds with
      | nil => unfold clone_chain at hch; simp [h] at hch
      | cons g rest => unfold clone_chain at hch; simp [h] at hch
    | some s => rfl
  unfold rtw_udp_recvfrom
  rw [hs]
  obtain ⟨res, e1, e2, e3, e4⟩ := rtw_udp_recvfrom_loop_chain env hread fds f st fuel [] hch hfuel
  exact ⟨res, e1, e2, e3, by simpa using e4⟩

theorem rtw_udp_recvfrom_null_terminated_witness :
    ∃ res, rtw_udp_recvfrom (ex_fan_env none) 3 ex_chain_state 5 = some res ∧
      res.ret = -1 ∧ res.st.errno = EAGAIN ∧ res.polled = [5, 6, 7] :=
  rtw_udp_recvfrom_null_terminated (ex_fan_env none) [6, 7] 5 ex_chain_state 3
    (fun _ _ => ⟨(by decide : (-1 : Int) < 0), rfl, fun _ => rfl⟩) (by decide) (by decide)

/-! ## `get_min_accept_sock`: the least-loaded ready clone (C15) -/

theorem min_accept_scan_none (acc : Int → Bool) (cn : Int → Nat) :
    ∀ (l : List Int) (m : Option Int),
      (min_accept_scan acc cn l m = none ↔ m = none ∧ ∀ g ∈ l, acc g = false) := by
  intro l
  induction l with
  | nil => intro m; simp [min_accept_scan]
  | cons k rest ih =>
    intro m
    unfold min_accept_scan
    by_cases hk : acc k = true
    · simp only [hk, if_true]
      cases m with
      | none =>
        simp only [ih, true_and]
        constructor
        · intro h; exact absurd h.1 (by simp)
        · intro h; have := h k (by simp); rw [hk] at this; exact absurd this (by simp)
      | some x =>
        simp only [ih]
        constructor
        · intro h; split at h <;> exact absurd h.1 (by simp)
        · intro h; exact absurd h.1 (by simp)
    · have hk2 : acc k = false := by simpa using hk
      simp only [hk2, Bool.false_eq_true, if_false, ih]
      constructor
      · rintro ⟨h1, h2⟩
        refine ⟨h1, ?_⟩
        intro g hg
        rcases List.mem_cons.mp hg with h | h
        · rw [h]; exact hk2
        · exact h2 g h
      · rintro ⟨h1, h2⟩
        exact ⟨h1, fun g hg => h2 g (List.mem_cons_of_mem _ hg)⟩

theorem min_accept_scan_some (acc : Int → Bool) (cn : Int → Nat) :
    ∀ (l : List Int) (m : Option Int) (x : Int), min_accept_scan acc cn l m = some x →
      (∀ y, m = some y → cn x ≤ cn y) ∧ (∀ g ∈ l, acc g = true → cn x ≤ cn g) ∧
      (m = some x ∨ ∃ pre post, l = pre ++ x :: post ∧ acc x = true ∧
        (∀ g ∈ pre, acc g = true → cn x < cn g) ∧ ∀ y, m = some y → cn x < cn y) := by
  intro l
  induction l with
  | nil =>
    intro m x h
    simp only [min_accept_scan] at h
    subst h
    exact ⟨fun y hy => (by cases hy; exact le_refl _), fun g hg => (by simp at hg), Or.inl rfl⟩
  | cons k rest ih =>
    intro m x h
    unfold min_accept_scan at h
    by_cases hk : acc k = true
    · simp only [hk, if_true] at h
      cases m with
      | none =>
        simp only at h
        obtain ⟨h1, h2, h3⟩ := ih (some k) x h
        have hxk := h1 k rfl
        refine ⟨fun y hy => (by cases hy), ?_, Or.inr ?_⟩
        · intro g hg hacc
          rcases List.mem_cons.mp hg with e | e
          · rw [e]; exact hxk
          · exact h2 g e hacc
        · rcases h3 with e | ⟨pre, post, e1, e2, e3, e4⟩
          · cases e
            exact ⟨[], rest, rfl, hk, fun g hg => (by simp at hg), fun y hy => (by cases hy)⟩
          · refine ⟨k :: pre, post, (by rw [e1]; rfl), e2, ?_, fun y hy => (by cases hy)⟩
            intro g hg hacc
            rcases List.mem_cons.mp hg with e | e
            · rw [e]; exact e4 k rfl
            · exact e3 g e hacc
      | some y0 =>
        simp only at h
        by_cases hgt : cn y0 > cn k
        · simp only [hgt, if_true] at h
          obtain ⟨h1, h2, h3⟩ := ih (some k) x h
          have hxk := h1 k rfl
          refine ⟨?_, ?_, Or.inr ?_⟩
          · intro y hy; cases hy; omega
          · intro g hg hacc
            rcases List.mem_cons.mp hg with e | e
            · rw [e]; exact hxk
            · exact h2 g e hacc
          · rcases h3 with e | ⟨pre, post, e1, e2, e3, e4⟩
            · cases e
              exact ⟨[], rest, rfl, hk, fun g hg => (by simp at hg),
                fun y hy => (by cases hy; exact hgt)⟩
            · refine ⟨k :: pre, post, (by rw [e1]; rfl), e2, ?_, ?_⟩
              · intro g hg hacc
                rcases List.mem_cons.mp hg with e | e
                · rw [e]; exact e4 k rfl
                · exact e3 g e hacc
              · intro y hy; cases hy
                have := e4 k rfl
                omega
        · simp only [hgt, if_false] at h
          obtain ⟨h1, h2, h3⟩ := ih (some y0) x h
          have hxy := h1 y0 rfl
          refine ⟨?_, ?_, ?_⟩
          · intro y hy; cases hy; exact hxy
          · intro g hg hacc
            rcases List.mem_cons.mp hg with e | e
            · rw [e]; omega
            · exact h2 g e hacc
          · rcases h3 with e | ⟨pre, post, e1, e2, e3, e4⟩
            · exact Or.inl e
            · refine Or.inr ⟨k :: pre, post, (by rw [e1]; rfl), e2, ?_, e4⟩
              intro g hg hacc
              rcases List.mem_cons.mp hg with e | e
              · rw [e]
                have := e4 y0 rfl
                omega
              · exact e3 g e hacc
    · have hk2 : acc k = false := by simpa using hk
      simp only [hk2, Bool.false_eq_true, if_false] at h
      obtain ⟨h1, h2, h3⟩ := ih m x h
      refine ⟨h1, ?_, ?_⟩
      · intro g hg hacc
        rcases List.mem_cons.mp hg with e | e
        · rw [e, hk2] at hacc; exact absurd hacc (by simp)
        · exact h2 g e hacc
      · rcases h3 with e | ⟨pre, post, e1, e2, e3, e4⟩
        · exact Or.inl e
        · refine Or.inr ⟨k :: pre, post, (by rw [e1]; rfl), e2, ?_, e4⟩
          intro g hg hacc
          rcases List.mem_cons.mp hg with e | e
          · rw [e, hk2] at hacc; exact absurd hacc (by simp)
          · exact e3 g e hacc

theorem accept_in_of_links (a b : lstack) (g : Int) (h : sock_links a g = sock_links b g) :
    accept_in a g = accept_in b g := by
  unfold sock_links at h
  unfold accept_in
  cases ha : a.sockets g <;> cases hb : b.sockets g <;> simp [ha, hb] at h
  · rfl
  · simp [h.2.1]

theorem owner_conn_num_of_links (a b : lstack) (g : Int) (h : sock_links a g = sock_links b g)
    (hg : a.stack_group = b.stack_group) : sock_conn_num a g = sock_conn_num b g := by
  unfold sock_conn_num
  rw [owner_of_links a b g h, hg]

theorem accept_wakeup_links (env : fan_env) (s s1 : lwip_sock) (conn : netconn)
    (h : accept_wakeup env s conn = some s1) :
    s1.listen_next = s.listen_next ∧ s1.conn = s.conn ∧ s1.stack = s.stack := by
  unfold accept_wakeup at h
  split at h
  · split at h
    · cases h
    · cases h; exact ⟨rfl, rfl, rfl⟩
  · cases h; exact ⟨rfl, rfl, rfl⟩

theorem set_socket_links (st : lstack) (f : Int) (s s1 : lwip_sock) (hs : st.sockets f = some s)
    (h : s1.listen_next = s.listen_next ∧ s1.conn = s.conn ∧ s1.stack = s.stack) (x : Int) :
    sock_links (set_socket st f s1) x = sock_links st x := by
  unfold sock_links set_socket
  by_cases hx : x = f
  · subst hx
    simp [hs, h.1, h.2.1, h.2.2]
  · simp [hx]

theorem get_min_accept_sock_loop_scan (env : fan_env)
    (hw : env.poll_construct_wakeup ≠ none) :
    ∀ (fds : List Int) (f : Int) (st : lstack) (fuel : Nat) (m : Option Int),
      clone_chain st (f :: fds) → POSIX_IS_CLOSED (st.sockets f) = false →
      fds.length + 1 < fuel →
      (∀ g ∈ f :: fds, accept_in st g = true → ∃ idx, get_protocol_stack_by_fd st g = some idx) →
      (∀ x, m = some x → ∃ idx, get_protocol_stack_by_fd st x = some idx) →
      ∃ st1, get_min_accept_sock_loop env fuel st (some f) m =
        some (st1, min_accept_scan (accept_in st)
          (fun g => (sock_conn_num st g).getD 0) (f :: fds) m) := by
  intro fds
  induction fds with
  | nil =>
    intro f st fuel m hch hopen hfuel hown hm
    obtain ⟨n, rfl⟩ : ∃ n, fuel = n + 2 := ⟨fuel - 2, by simp at hfuel; omega⟩
    unfold clone_chain at hch
    cases hs : st.sockets f with
    | none => simp [hs] at hch
    | some s =>
      have hnext : s.listen_next = none := by simpa [hs] using hch
      cases hc : s.conn with
      | none => simp [hs, POSIX_IS_CLOSED, hc] at hopen
      | some conn =>
        have hwk : ∃ s1, accept_wakeup env s conn = some s1 := by
          unfold accept_wakeup
          split
          · cases hp : env.poll_construct_wakeup with
            | none => exact absurd hp hw
            | some w => exact ⟨_, rfl⟩
          · exact ⟨_, rfl⟩
        obtain ⟨s1, hs1⟩ := hwk
        have hl := accept_wakeup_links env s s1 conn hs1
        have hacc : accept_in st f = conn.acceptin := by
          unfold accept_in; simp [hs, hc]
        unfold get_min_accept_sock_loop
        simp only [Option.some_bind, lwip_get_socket, hs, hc, hs1, hl.1, hnext]
        unfold min_accept_scan
        by_cases ha : conn.acceptin = true
        · simp only [ha, not_true_eq_false, if_false, hacc, if_true]
          obtain ⟨idx, hidx⟩ := hown f (by simp) (by rw [hacc]; exact ha)
          have hidx1 : get_protocol_stack_by_fd (set_socket st f s1) f = some idx := by
            rw [owner_of_links _ st f (set_socket_links st f s s1 hs hl f)]; exact hidx
          cases m with
          | none =>
            simp only [min_sock_update]
            unfold get_min_accept_sock_loop
            simp [min_accept_scan]
          | some x =>
            obtain ⟨ix, hix⟩ := hm x rfl
            have hix1 : get_protocol_stack_by_fd (set_socket st f s1) x = some ix := by
              rw [owner_of_links _ st x (set_socket_links st f s s1 hs hl x)]; exact hix
            have e1 : sock_conn_num (set_socket st f s1) x = some (st.stack_group ix).conn_num := by
              unfold sock_conn_num; rw [hix1]; rfl
            have e2 : sock_conn_num (set_socket st f s1) f = some (st.stack_group idx).conn_num := by
              unfold sock_conn_num; rw [hidx1]; rfl
            have e3 : sock_conn_num st x = some (st.stack_group ix).conn_num := by
              unfold sock_conn_num; rw [hix]; rfl
            have e4 : sock_conn_num st f = some (st.stack_group idx).conn_num := by
              unfold sock_conn_num; rw [hidx]; rfl
            simp only [min_sock_update, e1, e2, e3, e4, Option.getD_some]
            unfold get_min_accept_sock_loop
            simp [min_accept_scan]
        · have ha2 : conn.acceptin = false := by simpa using ha
          simp only [ha2, Bool.false_eq_true, not_false_eq_true, if_true, hacc, if_false]
          unfold get_min_accept_sock_loop
          simp [min_accept_scan]
  | cons g rest ih =>
    intro f st fuel m hch hopen hfuel hown hm
    obtain ⟨n, rfl⟩ : ∃ n, fuel = n + 1 := ⟨fuel - 1, by simp at hfuel; omega⟩
    unfold clone_chain at hch
    cases hs : st.sockets f with
    | none => simp [hs] at hch
    | some s =>
      have hnext : s.listen_next = some g := by simpa [hs] using hch.1
      cases hc : s.conn with
      | none => simp [hs, POSIX_IS_CLOSED, hc] at hopen
      | some conn =>
        have hwk : ∃ s1, accept_wakeup env s conn = some s1 := by
          unfold accept_wakeup
          split
          · cases hp : env.poll_construct_wakeup with
            | none => exact absurd hp hw
            | some w => exact ⟨_, rfl⟩
          · exact ⟨_, rfl⟩
        obtain ⟨s1, hs1⟩ := hwk
        have hl := accept_wakeup_links env s s1 conn hs1
        have hlinks := set_socket_links st f s s1 hs hl
        have hacc : accept_in st f = conn.acceptin := by
          unfold accept_in; simp [hs, hc]
        have hfun1 : accept_in (set_socket st f s1) = accept_in st := by
          funext x; exact accept_in_of_links _ st x (hlinks x)
        have hfun2 : (fun x => (sock_conn_num (set_socket st f s1) x).getD 0) =
            (fun x => (sock_conn_num st x).getD 0) := by
          funext x; rw [owner_conn_num_of_links _ st x (hlinks x) rfl]
        have hch2 : clone_chain (set_socket st f s1) (g :: rest) :=
          clone_chain_congr st _ (g :: rest) (fun x _ => (hlinks x).symm) hch.2.2
        have hopen2 : POSIX_IS_CLOSED ((set_socket st f s1).sockets g) = false := by
          rw [closed_of_links _ st g (hlinks g)]; exact hch.2.1
        have hown2 : ∀ x ∈ g :: rest, accept_in (set_socket st f s1) x = true →
            ∃ idx, get_protocol_stack_by_fd (set_socket st f s1) x = some idx := by
          intro x hx hax
          rw [hfun1] at hax
          rw [owner_of_links _ st x (hlinks x)]
          exact hown x (List.mem_cons_of_mem _ hx) hax
        have hfuel2 : rest.length + 1 < n := by simp at hfuel; omega
        unfold get_min_accept_sock_loop
        simp only [Option.some_bind, lwip_get_socket, hs, hc, hs1, hl.1, hnext]
        unfold min_accept_scan
        by_cases ha : conn.acceptin = true
        · simp only [ha, not_true_eq_false, if_false, hacc, if_true]
          obtain ⟨idx, hidx⟩ := hown f (by simp) (by rw [hacc]; exact ha)
          have hidx1 : get_protocol_stack_by_fd (set_socket st f s1) f = some idx := by
            rw [owner_of_links _ st f (hlinks f)]; exact hidx
          cases m with
          | none =>
            simp only [min_sock_update]
            have := ih g (set_socket st f s1) n (some f) hch2 hopen2 hfuel2 hown2
              (fun x hx => by cases hx; exact ⟨idx, hidx1⟩)
            rw [hfun1, hfun2] at this
            exact this
          | some x =>
            obtain ⟨ix, hix⟩ := hm x rfl
            have hix1 : get_protocol_stack_by_fd (set_socket st f s1) x = some ix := by
              rw [owner_of_links _ st x (hlinks x)]; exact hix
            have e1 : sock_conn_num (set_socket st f s1) x = some (st.stack_group ix).conn_num := by
              unfold sock_conn_num; rw [hix1]; rfl
            have e2 : sock_conn_num (set_socket st f s1) f = some (st.stack_group idx).conn_num := by
              unfold sock_conn_num; rw [hidx1]; rfl
            have e3 : sock_conn_num st x = some (st.stack_group ix).conn_num := by
              unfold sock_conn_num; rw [hix]; rfl
            have e4 : sock_conn_num st f = some (st.stack_group idx).conn_num := by
              unfold sock_conn_num; rw [hidx]; rfl
            simp only [min_sock_update, e1, e2, e3, e4, Option.getD_some]
            have := ih g (set_socket st f s1) n
              (if (st.stack_group ix).conn_num > (st.stack_group idx).conn_num then some f
                else some x) hch2 hopen2 hfuel2 hown2
              (fun y hy => by
                split at hy
                · cases hy; exact ⟨idx, hidx1⟩
                · cases hy; exact ⟨ix, hix1⟩)
            rw [hfun1, hfun2] at this
            exact this
        · have ha2 : conn.acceptin = false := by simpa using ha
          simp only [ha2, Bool.false_eq_true, not_false_eq_true, if_true, hacc, if_false]
          have := ih g (set_socket st f s1) n m hch2 hopen2 hfuel2 hown2
            (fun x hx => by
              obtain ⟨ix, hix⟩ := hm x hx
              exact ⟨ix, by rw [owner_of_links _ st x (hlinks x)]; exact hix⟩)
          rw [hfun1, hfun2] at this
          exact this

/-- C15: for a descriptor `f` whose clones `fds` are chained behind it through the next-clone
link, the link of the last one being null, all with a connection, the ACCEPT-IN ones owned
by a worker, and a wakeup object that can be built: with more rounds allowed than the
chain needs, `get_min_accept_sock` returns. It returns null exactly when no clone of the
chain has ACCEPT-IN set. The clone `x` it returns otherwise has ACCEPT-IN set, the
connection count of its worker is at most that of every ACCEPT-IN clone of the chain, and
strictly below that of every ACCEPT-IN clone before `x` in the chain (on ties the first
one is returned). -/
theorem get_min_accept_sock_minimal (env : fan_env) (fds : List Int) (f : Int) (st : lstack)
    (fuel : Nat) (hw : env.poll_construct_wakeup ≠ none) (hch : clone_chain st (f :: fds))
    (hopen : POSIX_IS_CLOSED (st.sockets f) = false) (hfuel : fds.length + 1 < fuel)
    (hown : ∀ g ∈ f :: fds, accept_in st g = true →
      (get_protocol_stack_by_fd st g).isSome = true) :
    ∃ st1 res, get_min_accept_sock env fuel st f = some (st1, res) ∧
      (res = none ↔ ∀ g ∈ f :: fds, accept_in st g = false) ∧
      ∀ x, res = some x →
        ∃ pre post, f :: fds = pre ++ x :: post ∧ accept_in st x = true ∧
          (∀ g ∈ pre, accept_in st g = true → owner_conn_num st x < owner_conn_num st g) ∧
          ∀ g ∈ f :: fds, accept_in st g = true → owner_conn_num st x ≤ owner_conn_num st g := by
  obtain ⟨st1, h1⟩ := get_min_accept_sock_loop_scan env hw fds f st fuel none hch hopen hfuel
    (fun g hg ha => Option.isSome_iff_exists.mp (hown g hg ha)) (fun x hx => by cases hx)
  refine ⟨st1, _, h1, ?_, ?_⟩
  · rw [min_accept_scan_none]
    simp
  · intro x hx
    obtain ⟨_, h2, h3⟩ := min_accept_scan_some _ _ _ _ x hx
    rcases h3 with e | ⟨pre, post, e1, e2, e3, _⟩
    · cases e
    · exact ⟨pre, post, e1, e2, e3, h2⟩

theorem get_min_accept_sock_minimal_witness :
    ∃ st1 res, get_min_accept_sock (ex_fan_env none) 4 ex_chain_state 5 = some (st1, res) ∧
      (res = none ↔ ∀ g ∈ [5, 6, 7], accept_in ex_chain_state g = false) ∧
      ∀ x, res = some x →
        ∃ pre post, [5, 6, 7] = pre ++ x :: post ∧ accept_in ex_chain_state x = true ∧
          (∀ g ∈ pre, accept_in ex_chain_state g = true →
            owner_conn_num ex_chain_state x < owner_conn_num ex_chain_state g) ∧
          ∀ g ∈ [5, 6, 7], accept_in ex_chain_state g = true →
            owner_conn_num ex_chain_state x ≤ owner_conn_num ex_chain_state g :=
  get_min_accept_sock_minimal (ex_fan_env none) [6, 7] 5 ex_chain_state 4 (by decide)
    (by decide) (by decide) (by decide) (by decide)

/-! ## `stack_broadcast_bind`: the fan-out of a bind (C13) -/

theorem shadow_run_log (engine : rpc_engine) (fd : Int) (name : sockaddr_in) (namelen : Nat) :
    ∀ (l : List Nat) (st : lstack),
      (shadow_run engine fd name namelen l st).rpc_log =
        st.rpc_log ++ l.map (fun i => (i, rpc_msg.shadow_fd fd name namelen)) := by
  intro l
  induction l with
  | nil => intro st; simp [shadow_run]
  | cons i rest ih =>
    intro st
    unfold shadow_run
    rw [ih, rpc_call_log]
    simp

theorem shadow_run_append (engine : rpc_engine) (fd : Int) (name : sockaddr_in) (namelen : Nat) :
    ∀ (l : List Nat) (k : Nat) (st : lstack),
      shadow_run engine fd name namelen (l ++ [k]) st =
        (rpc_call engine (shadow_run engine fd name namelen l st) k
          (rpc_msg.shadow_fd fd name namelen)).1 := by
  intro l
  induction l with
  | nil => intro k st; rfl
  | cons i rest ih =>
    intro k st
    simp only [List.cons_append, shadow_run]
    exact ih k _

theorem stack_broadcast_bind_loop_ok (engine : rpc_engine) (fuel : Nat) (fd : Int)
    (name : sockaddr_in) (namelen : Nat) (cur : Nat) :
    ∀ (ws : List Nat) (st : lstack),
      shadow_ok engine fd name namelen (ws.filter (· ≠ cur)) st →
      stack_broadcast_bind_loop engine fuel fd name namelen cur ws st =
        some (shadow_run engine fd name namelen (ws.filter (· ≠ cur)) st, 0) := by
  intro ws
  induction ws with
  | nil => intro st _; rfl
  | cons i rest ih =>
    intro st hok
    unfold stack_broadcast_bind_loop
    by_cases hi : i = cur
    · subst hi
      simp only [ne_eq, not_true_eq_false, if_false]
      simp only [List.filter_cons, ne_eq, not_true_eq_false, decide_False,
        Bool.false_eq_true, if_false] at hok ⊢
      exact ih st hok
    · simp only [ne_eq, hi, not_false_eq_true, if_true]
      simp only [List.filter_cons, ne_eq, hi, not_false_eq_true, decide_True, if_true] at hok ⊢
      unfold shadow_ok at hok
      have hneg : ¬ (rpc_call engine st i (rpc_msg.shadow_fd fd name namelen)).2 < 0 := by
        have := hok.1; omega
      simp only [hneg, if_false]
      unfold shadow_run
      exact ih _ hok.2

theorem stack_broadcast_bind_loop_fail (engine : rpc_engine) (fuel : Nat) (fd : Int)
    (name : sockaddr_in) (namelen : Nat) (cur : Nat) :
    ∀ (ws : List Nat) (st : lstack) (pre : List Nat) (k : Nat) (post : List Nat),
      ws.filter (· ≠ cur) = pre ++ k :: post →
      shadow_ok engine fd name namelen pre st →
      (rpc_call engine (shadow_run engine fd name namelen pre st) k
        (rpc_msg.shadow_fd fd name namelen)).2 < 0 →
      stack_broadcast_bind_loop engine fuel fd name namelen cur ws st =
        (stack_broadcast_close engine fuel
          (shadow_run engine fd name namelen (pre ++ [k]) st) fd).map
          (fun q => (q.1, (rpc_call engine (shadow_run engine fd name namelen pre st) k
            (rpc_msg.shadow_fd fd name namelen)).2)) := by
  intro ws
  induction ws with
  | nil => intro st pre k post h; simp at h
  | cons i rest ih =>
    intro st pre k post hf hok hk
    unfold stack_broadcast_bind_loop
    by_cases hi : i = cur
    · subst hi
      simp only [ne_eq, not_true_eq_false, if_false]
      simp only [List.filter_cons, ne_eq, not_true_eq_false, decide_False,
        Bool.false_eq_true, if_false] at hf
      exact ih st pre k post hf hok hk
    · simp only [ne_eq, hi, not_false_eq_true, if_true]
      simp only [List.filter_cons, ne_eq, hi, not_false_eq_true, decide_True, if_true] at hf
      cases pre with
      | nil =>
        simp only [List.nil_append, List.cons.injEq] at hf
        obtain ⟨rfl, _⟩ := hf
        have hk2 : (rpc_call engine st i (rpc_msg.shadow_fd fd name namelen)).2 < 0 := hk
        simp only [hk2, if_true]
        rfl
      | cons j pre2 =>
        simp only [List.cons_append, List.cons.injEq] at hf
        obtain ⟨rfl, hf2⟩ := hf
        unfold shadow_ok at hok
        have hneg : ¬ (rpc_call engine st i (rpc_msg.shadow_fd fd name namelen)).2 < 0 := by
          have := hok.1; omega
        simp only [hneg, if_false]
        exact ih _ pre2 k post hf2 hok.2 hk

/-- C13: `stack_broadcast_bind` on a descriptor with socket, owned by worker `cur`, after a
`Bind` on `cur` that succeeded and left the state `st1`; `others` are the workers other
than `cur`, in index order. If every `ShadowFd` succeeds, the call returns 0 and has posted,
after the `Bind`, `ShadowFd(fd, name, namelen)` once to each of the others, in index order.
If the `ShadowFd` on worker `k` is the first to fail, no `ShadowFd` is posted to a worker
after `k`; for a clone chain `fds` of the descriptor at that point (ending in a null link,
each clone owned by a worker, `Close` on one clone leaving the links of the others alone)
and more rounds allowed than there are clones, the call returns the negative result of
that `ShadowFd`, and the commands posted after it are `Close`, once for the descriptor
and for each clone, in chain order, each to the owning worker. -/
theorem stack_broadcast_bind_fan_out (env : fan_env) (fuel : Nat) (st st1 : lstack) (fd : Int)
    (name : sockaddr_in) (namelen : Nat) (cur : Nat) (sock : lwip_sock) (others : List Nat)
    (hs : lwip_get_socket st fd = some sock) (hc : get_protocol_stack_by_fd st fd = some cur)
    (hb : 0 ≤ (rpc_call env.engine st cur (rpc_msg.bind fd name namelen)).2)
    (h1 : st1 = (rpc_call env.engine st cur (rpc_msg.bind fd name namelen)).1)
    (ho : others = (List.range st.stack_num).filter (· ≠ cur)) :
    (shadow_ok env.engine fd name namelen others st1 →
      ∃ st2, stack_broadcast_bind env fuel st fd name namelen = some (st2, 0) ∧
        st2.rpc_log = st.rpc_log ++ (cur, rpc_msg.bind fd name namelen) ::
          others.map (fun i => (i, rpc_msg.shadow_fd fd name namelen))) ∧
    (∀ (pre : List Nat) (k : Nat) (post : List Nat) (owner : Int → Nat) (fds : List Int),
      others = pre ++ k :: post →
      shadow_ok env.engine fd name namelen pre st1 →
      (rpc_call env.engine (shadow_run env.engine fd name namelen pre st1) k
        (rpc_msg.shadow_fd fd name namelen)).2 < 0 →
      (∀ st idx f g, g ≠ f →
        sock_links (env.engine st idx (rpc_msg.close f)).1 g = sock_links st g) →
      (fd :: fds).Nodup →
      clone_chain (shadow_run env.engine fd name namelen (pre ++ [k]) st1) (fd :: fds) →
      fds.length < fuel →
      (∀ g ∈ fd :: fds, get_protocol_stack_by_fd
        (shadow_run env.engine fd name namelen (pre ++ [k]) st1) g = some (owner g)) →
      ∃ st2, stack_broadcast_bind env fuel st fd name namelen =
          some (st2, (rpc_call env.engine (shadow_run env.engine fd name namelen pre st1) k
            (rpc_msg.shadow_fd fd name namelen)).2) ∧
        st2.rpc_log = st.rpc_log ++ (cur, rpc_msg.bind fd name namelen) ::
          ((pre ++ [k]).map (fun i => (i, rpc_msg.shadow_fd fd name namelen)) ++
            (fd :: fds).map (fun g => (owner g, rpc_msg.close g)))) := by
  have hnb : ¬ (rpc_call env.engine st cur (rpc_msg.bind fd name namelen)).2 < 0 := by omega
  have hbind : stack_broadcast_bind env fuel st fd name namelen =
      stack_broadcast_bind_loop env.engine fuel fd name namelen cur (List.range st.stack_num)
        st1 := by
    unfold stack_broadcast_bind
    simp only [hs, hc, hnb, if_false, h1]
  have hlog1 : st1.rpc_log = st.rpc_log ++ [(cur, rpc_msg.bind fd name namelen)] := by
    rw [h1, rpc_call_log]
  constructor
  · intro hok
    refine ⟨shadow_run env.engine fd name namelen others st1, ?_, ?_⟩
    · rw [hbind, stack_broadcast_bind_loop_ok env.engine fuel fd name namelen cur _ st1
        (ho ▸ hok), ← ho]
    · rw [shadow_run_log, hlog1]; simp
  · intro pre k post owner fds hsplit hok hk hframe hnd hch hfuel hown
    rw [hbind, stack_broadcast_bind_loop_fail env.engine fuel fd name namelen cur _ st1 pre k post
      (ho ▸ hsplit) hok hk]
    have hsk : ∃ s, lwip_get_socket (shadow_run env.engine fd name namelen (pre ++ [k]) st1) fd
        = some s := by
      have h := hown fd (by simp)
      unfold get_protocol_stack_by_fd at h
      cases hq : lwip_get_socket (shadow_run env.engine fd name namelen (pre ++ [k]) st1) fd with
      | none => simp [hq] at h
      | some s => exact ⟨s, rfl⟩
    obtain ⟨s, hsk⟩ := hsk
    obtain ⟨st2, r, e1, e2, _⟩ := stack_broadcast_loop_chain env.engine rpc_msg.close owner hframe
      fds fd _ fuel 0 hnd hch hfuel hown
    refine ⟨st2, ?_, ?_⟩
    · unfold stack_broadcast_close
      simp only [hsk]
      rw [e1]
      rfl
    · rw [e2, shadow_run_log, hlog1]; simp

theorem stack_broadcast_bind_fan_out_witness :
    (∃ st2, stack_broadcast_bind (ex_fan_env none) 8 ex_fan_state 5 ⟨AF_INET, 80, 0⟩ 16 =
        some (st2, 0) ∧
      st2.rpc_log = [(0, rpc_msg.bind 5 ⟨AF_INET, 80, 0⟩ 16),
        (1, rpc_msg.shadow_fd 5 ⟨AF_INET, 80, 0⟩ 16),
        (2, rpc_msg.shadow_fd 5 ⟨AF_INET, 80, 0⟩ 16)]) ∧
    (∃ st2, stack_broadcast_bind (ex_fan_env (some 2)) 8 ex_fan_state 5 ⟨AF_INET, 80, 0⟩ 16 =
        some (st2, -1) ∧
      st2.rpc_log = [(0, rpc_msg.bind 5 ⟨AF_INET, 80, 0⟩ 16),
        (1, rpc_msg.shadow_fd 5 ⟨AF_INET, 80, 0⟩ 16),
        (2, rpc_msg.shadow_fd 5 ⟨AF_INET, 80, 0⟩ 16),
        (0, rpc_msg.close 5), (1, rpc_msg.close 1001)]) :=
  ⟨(stack_broadcast_bind_fan_out (ex_fan_env none) 8 ex_fan_state _ 5 ⟨AF_INET, 80, 0⟩ 16 0
      { recv_ring := none, send_ring := none } [1, 2] (by decide) (by decide) (by decide) rfl
      (by decide)).1 (by decide),
    (stack_broadcast_bind_fan_out (ex_fan_env (some 2)) 8 ex_fan_state _ 5 ⟨AF_INET, 80, 0⟩ 16 0
      { recv_ring := none, send_ring := none } [1, 2] (by decide) (by decide) (by decide) rfl
      (by decide)).2 [1] 2 [] (fun g => if g = 5 then 0 else 1) [1001] rfl (by decide)
      (by decide) (ex_engine_close_frame (some 2)) (by decide) (by decide) (by decide)
      (by decide)⟩

/-! ## `stack_broadcast_listen`: one listening clone per worker, one master (C14) -/

theorem set_is_master_fd_spec (st st1 : lstack) (fd : Int) (v : Nat)
    (h : set_is_master_fd st fd v = some st1) :
    is_master st1 fd = some v ∧ (∀ g, g ≠ fd → st1.sockets g = st.sockets g) ∧
    (st.sockets fd).isSome = true ∧ (st1.sockets fd).isSome = true ∧
    st1.rpc_log = st.rpc_log := by
  unfold set_is_master_fd lwip_get_socket at h
  cases hs : st.sockets fd with
  | none => simp [hs] at h
  | some s =>
    simp only [hs] at h
    cases hc : s.conn with
    | none => simp [hc] at h
    | some c =>
      simp only [hc, Option.some.injEq] at h
      subst h
      refine ⟨by simp [is_master, set_socket], ?_, rfl, by simp [set_socket], rfl⟩
      intro g hg
      simp [set_socket, hg]

theorem is_master_isSome (st : lstack) (g : Int) (v : Nat) (h : is_master st g = some v) :
    (st.sockets g).isSome = true := by
  unfold is_master at h
  cases hs : st.sockets g with
  | none => simp [hs] at h
  | some s => rfl

theorem is_master_congr (a b : lstack) (g : Int) (h : a.sockets g = b.sockets g) :
    is_master a g = is_master b g := by
  unfold is_master; rw [h]

theorem map_close_ne_zero (o : Option (lstack × Int)) (r : Int) (st2 : lstack) (hr : r < 0)
    (h : o.map (fun q => (q.1, r)) = some (st2, 0)) : False := by
  cases o with
  | none => simp at h
  | some q =>
    simp only [Option.map_some', Option.some.injEq, Prod.mk.injEq] at h
    omega

theorem listen_cmds_cons (fd : Int) (addr : sockaddr_in) (addr_len : Nat) (backlog : Int)
    (cur : Nat) (clone : Nat → Int) (i : Nat) (rest : List Nat) :
    listen_cmds fd addr addr_len backlog cur clone (i :: rest) =
      ((if i ≠ cur then [(i, rpc_msg.shadow_fd fd addr addr_len)] else []) ++
        [(i, rpc_msg.listen (clone i) backlog)]) ++
      listen_cmds fd addr addr_len backlog cur clone rest := by
  simp [listen_cmds]

theorem listen_cmds_congr (fd : Int) (addr : sockaddr_in) (addr_len : Nat) (backlog : Int)
    (cur : Nat) (c1 c2 : Nat → Int) :
    ∀ (ws : List Nat), (∀ i ∈ ws, c1 i = c2 i) →
      listen_cmds fd addr addr_len backlog cur c1 ws =
        listen_cmds fd addr addr_len backlog cur c2 ws := by
  intro ws
  induction ws with
  | nil => intro _; rfl
  | cons i rest ih =>
    intro h
    rw [listen_cmds_cons, listen_cmds_cons, h i (by simp),
      ih (fun j hj => h j (List.mem_cons_of_mem _ hj))]

theorem stack_broadcast_listen_loop_spec (engine : rpc_engine) (fuel : Nat) (fd : Int)
    (addr : sockaddr_in) (addr_len : Nat) (backlog : Int) (cur m : Nat)
    (heng : engine_clones_fresh engine) :
    ∀ (ws : List Nat) (st st2 : lstack), ws.Nodup →
      stack_broadcast_listen_loop engine true fuel fd addr addr_len backlog cur m ws st =
        some (st2, 0) →
      (cur ∈ ws → (st.sockets fd).isSome = true) →
      ∃ clone : Nat → Int,
        (cur ∈ ws → clone cur = fd) ∧
        st2.rpc_log = st.rpc_log ++ listen_cmds fd addr addr_len backlog cur clone ws ∧
        (∀ i ∈ ws, is_master st2 (clone i) = some (if m = i then 1 else 0)) ∧
        (∀ i ∈ ws, i ≠ cur → st.sockets (clone i) = none) ∧
        (∀ i ∈ ws, ∀ j ∈ ws, i ≠ j → clone i ≠ clone j) ∧
        (∀ g v, is_master st g = some v → (g = fd → cur ∉ ws) → is_master st2 g = some v) ∧
        (∀ g, (st.sockets g).isSome = true → (st2.sockets g).isSome = true) := by
  intro ws
  induction ws with
  | nil =>
    intro st st2 _ h _
    simp only [stack_broadcast_listen_loop, Option.some.injEq, Prod.mk.injEq] at h
    obtain ⟨rfl, _⟩ := h
    refine ⟨fun _ => fd, fun h => by simp at h, by simp [listen_cmds], fun i hi => by simp at hi,
      fun i hi => by simp at hi, fun i hi => by simp at hi, fun g v hv _ => hv, fun g hg => hg⟩
  | cons i rest ih =>
    intro st st2 hnd h hfd
    have hirest : i ∉ rest := (List.nodup_cons.mp hnd).1
    have hndr : rest.Nodup := (List.nodup_cons.mp hnd).2
    unfold stack_broadcast_listen_loop at h
    -- the clone of worker `i`
    generalize hr : listen_clone_fd engine st fd addr addr_len cur i = r at h
    have hF : (∀ g, (st.sockets g).isSome = true → (r.1.sockets g).isSome = true) ∧
        (∀ g v, is_master st g = some v → is_master r.1 g = some v) ∧
        r.1.rpc_log = st.rpc_log ++
          (if i ≠ cur then [(i, rpc_msg.shadow_fd fd addr addr_len)] else []) ∧
        (i ≠ cur → 0 ≤ r.2 → st.sockets r.2 = none) ∧ (i = cur → r.2 = fd) := by
      rw [← hr]
      unfold listen_clone_fd
      by_cases hi : i = cur
      · simp [hi]
      · simp only [ne_eq, hi, not_false_eq_true, if_true]
        refine ⟨?_, ?_, rpc_call_log _ _ _ _, ?_, fun e => absurd e (by simp)⟩
        · intro g hg
          exact (heng.1 st i (rpc_msg.shadow_fd fd addr addr_len) g rfl).1 hg
        · intro g v hv
          exact (heng.1 st i (rpc_msg.shadow_fd fd addr addr_len) g rfl).2 v hv
        · intro _ h0
          exact heng.2 st i fd addr addr_len h0
    obtain ⟨hF1, hF2, hF3, hF4, hF5⟩ := hF
    split at h
    · rename_i hneg
      exact absurd h (fun h => map_close_ne_zero _ _ _ hneg.2 h)
    · rename_i hnn
      split at h
      · cases h
      · rename_i st1 hm
        simp only [listen_set_master, if_true] at hm
        obtain ⟨hM1, hM2, hM3, hM4, hM5⟩ := set_is_master_fd_spec _ _ _ _ hm
        split at h
        · rename_i hneg
          exact absurd h (fun h => map_close_ne_zero _ _ _ hneg h)
        · generalize hq : (rpc_call engine st1 i (rpc_msg.listen r.2 backlog)).1 = q at h
          have hQ1 : ∀ g, (st1.sockets g).isSome = true → (q.sockets g).isSome = true := by
            intro g hg; rw [← hq]; exact (heng.1 st1 i (rpc_msg.listen r.2 backlog) g rfl).1 hg
          have hQ2 : ∀ g v, is_master st1 g = some v → is_master q g = some v := by
            intro g v hv; rw [← hq]; exact (heng.1 st1 i (rpc_msg.listen r.2 backlog) g rfl).2 v hv
          have hQ3 : q.rpc_log = st1.rpc_log ++ [(i, rpc_msg.listen r.2 backlog)] := by
            rw [← hq]; exact rpc_call_log _ _ _ _
          -- sockets that exist at the start exist in `q`, with their flag unless it is the clone
          have hE : ∀ g, (st.sockets g).isSome = true → (q.sockets g).isSome = true := by
            intro g hg
            apply hQ1
            by_cases hgc : g = r.2
            · rw [hgc]; exact hM4
            · rw [hM2 g hgc]; exact hF1 g hg
          have hK : ∀ g v, is_master st g = some v → g ≠ r.2 → is_master q g = some v := by
            intro g v hv hgc
            apply hQ2
            rw [is_master_congr st1 r.1 g (hM2 g hgc)]
            exact hF2 g v hv
          have hcq : is_master q r.2 = some (if m = i then 1 else 0) := hQ2 _ _ hM1
          have hfresh : i ≠ cur → st.sockets r.2 = none := by
            intro hi
            apply hF4 hi
            by_contra hlt
            exact hnn ⟨hi, by omega⟩
          obtain ⟨clone1, c1, c2, c3, c4, c5, c6, c7⟩ := ih q st2 hndr h (by
            intro hc
            exact hE fd (hfd (List.mem_cons_of_mem _ hc)))
          have hupd : ∀ j ∈ rest, Function.update clone1 i r.2 j = clone1 j := by
            intro j hj
            have : j ≠ i := fun e => hirest (e ▸ hj)
            simp [Function.update, this]
          have hupi : Function.update clone1 i r.2 i = r.2 := by simp [Function.update]
          -- the clones of the workers after `i` are not the clone of `i`
          have hne : ∀ j ∈ rest, clone1 j ≠ r.2 := by
            intro j hj e
            by_cases hjc : j = cur
            · subst hjc
              have e1 := c1 hj
              have hi : i ≠ j := fun e2 => hirest (e2 ▸ hj)
              have h1 := hfresh hi
              have h2 := hfd (List.mem_cons_of_mem _ hj)
              rw [← e1, e, h1] at h2
              exact absurd h2 (by simp)
            · have h1 := c4 j hj hjc
              have h2 : (q.sockets r.2).isSome = true := hQ1 _ hM4
              rw [← e, h1] at h2
              exact absurd h2 (by simp)
          refine ⟨Function.update clone1 i r.2, ?_, ?_, ?_, ?_, ?_, ?_, ?_⟩
          · intro hc
            rcases List.mem_cons.mp hc with e | e
            · rw [e, hupi]; exact hF5 e.symm
            · rw [hupd cur e]; exact c1 e
          · rw [c2, hQ3, hM5, hF3, listen_cmds_cons, hupi,
              listen_cmds_congr fd addr addr_len backlog cur _ clone1 rest hupd]
            simp
          · intro j hj
            rcases List.mem_cons.mp hj with e | e
            · rw [e, hupi]
              apply c6 _ _ hcq
              intro efd hc
              -- the clone is `fd` although `cur` comes later: impossible
              have hi : i ≠ cur := fun e2 => hirest (e2 ▸ hc)
              have h1 := hfresh hi
              have h2 := hfd (List.mem_cons_of_mem _ hc)
              rw [← efd, h1] at h2
              exact absurd h2 (by simp)
            · rw [hupd j e]; exact c3 j e
          · intro j hj hjc
            rcases List.mem_cons.mp hj with e | e
            · rw [e, hupi]; exact hfresh (e ▸ hjc)
            · rw [hupd j e]
              have h1 := c4 j e hjc
              by_contra hcon
              have h2 : (st.sockets (clone1 j)).isSome = true := by
                cases hx : st.sockets (clone1 j) with
                | none => exact absurd hx hcon
                | some _ => rfl
              have h3 := hE _ h2
              rw [h1] at h3
              exact absurd h3 (by simp)
          · intro j hj k hk hjk
            rcases List.mem_cons.mp hj with e | e
            · rcases List.mem_cons.mp hk with e2 | e2
              · exact absurd (e.trans e2.symm) hjk
              · rw [e, hupi, hupd k e2]; exact fun e3 => hne k e2 e3.symm
            · rcases List.mem_cons.mp hk with e2 | e2
              · rw [e2, hupi, hupd j e]; exact hne j e
              · rw [hupd j e, hupd k e2]; exact c5 j e k e2 hjk
          · intro g v hv hg
            have hgc : g ≠ r.2 := by
              intro e
              by_cases hi : i = cur
              · exact hg (by rw [e, hF5 hi]) (by rw [hi]; simp)
              · have h1 := hfresh hi
                have h2 := is_master_isSome st g v hv
                rw [e, h1] at h2
                exact absurd h2 (by simp)
            apply c6 g v (hK g v hv hgc)
            intro e hc
            exact hg e (List.mem_cons_of_mem _ hc)
          · intro g hg
            exact c7 g (hE g hg)

theorem get_min_conn_stack_lt (st : lstack) (h : 0 < st.stack_num) :
    get_min_conn_stack st < st.stack_num := by
  unfold get_min_conn_stack
  have key : ∀ (l : List Nat) (best : Nat), best < st.stack_num → (∀ i ∈ l, i < st.stack_num) →
      l.foldl (fun best i =>
        if (st.stack_group i).conn_num < (st.stack_group best).conn_num then i else best) best
        < st.stack_num := by
    intro l
    induction l with
    | nil => intro best hb _; exact hb
    | cons i rest ih =>
      intro best hb hl
      simp only [List.foldl_cons]
      apply ih
      · split
        · exact hl i (by simp)
        · exact hb
      · intro j hj; exact hl j (List.mem_cons_of_mem _ hj)
  exact key _ 0 h (fun i hi => List.mem_range.mp hi)

/-- C14: a `stack_broadcast_listen` that succeeds (ip:port reuse compiled in) on a descriptor
`fd` with socket, owned by worker `cur` of the `W` workers, with an engine whose `ShadowFd`
and `Listen` keep the existing sockets and their `is_master_fd` flags and whose `ShadowFd`
returns a fresh descriptor. There is a clone `clone i` for each worker `i`, `fd` itself on
`cur`, pairwise distinct; after `GetSockName` the commands posted are, for the workers in
index order, `ShadowFd` (except on `cur`) and then `Listen(clone i, backlog)`, each to
worker `i`, so every worker's clone received `Listen(backlog)` exactly once; in the state
left, `is_master_fd` is 1 on the clone of the worker `get_min_conn_stack` names, which is
one of the `W` workers, and 0 on every other clone. -/
theorem stack_broadcast_listen_master (env : fan_env) (fuel : Nat) (st : lstack) (fd : Int)
    (backlog : Int) (cur : Nat) (sock : lwip_sock)
    (heng : engine_clones_fresh env.engine)
    (hs : lwip_get_socket st fd = some sock) (hc : get_protocol_stack_by_fd st fd = some cur)
    (hcur : cur < st.stack_num)
    (hg : ((rpc_call env.engine st cur (rpc_msg.getsockname fd)).1.sockets fd).isSome = true)
    (hok : (stack_broadcast_listen env true fuel st fd backlog).map (fun r => r.2) = some 0) :
    ∃ (st2 : lstack) (clone : Nat → Int),
      stack_broadcast_listen env true fuel st fd backlog = some (st2, 0) ∧
      clone cur = fd ∧
      (∀ i, i < st.stack_num → ∀ j, j < st.stack_num → i ≠ j → clone i ≠ clone j) ∧
      st2.rpc_log = st.rpc_log ++ (cur, rpc_msg.getsockname fd) ::
        listen_cmds fd (env.sockname st fd).1 (env.sockname st fd).2 backlog cur clone
          (List.range st.stack_num) ∧
      get_min_conn_stack (rpc_call env.engine st cur (rpc_msg.getsockname fd)).1 <
        st.stack_num ∧
      ∀ i, i < st.stack_num → is_master st2 (clone i) =
        some (if get_min_conn_stack (rpc_call env.engine st cur (rpc_msg.getsockname fd)).1 = i
          then 1 else 0) := by
  cases hres : stack_broadcast_listen env true fuel st fd backlog with
  | none => simp [hres] at hok
  | some res =>
    obtain ⟨st2, r2⟩ := res
    simp only [hres, Option.map_some', Option.some.injEq] at hok
    subst hok
    have hres2 := hres
    unfold stack_broadcast_listen at hres2
    simp only [hs, hc] at hres2
    split at hres2
    · rename_i hne
      simp only [Option.some.injEq] at hres2
      rw [hres2] at hne
      exact absurd rfl hne
    · obtain ⟨clone, c1, c2, c3, _, c5, _, _⟩ := stack_broadcast_listen_loop_spec env.engine fuel
        fd (env.sockname st fd).1 (env.sockname st fd).2 backlog cur _ heng _ _ st2
        (List.nodup_range _) hres2 (fun _ => hg)
      have hnum : (rpc_call env.engine st cur (rpc_msg.getsockname fd)).1.stack_num =
          st.stack_num := rfl
      rw [hnum] at c1 c2 c3 c5
      refine ⟨st2, clone, rfl, c1 (List.mem_range.mpr hcur), ?_, ?_, ?_, ?_⟩
      · intro i hi j hj hij
        exact c5 i (List.mem_range.mpr hi) j (List.mem_range.mpr hj) hij
      · rw [c2, rpc_call_log]; simp
      · rw [← hnum]
        exact get_min_conn_stack_lt _ (by rw [hnum]; omega)
      · intro i hi
        exact c3 i (List.mem_range.mpr hi)

theorem ex_engine_clones_fresh : engine_clones_fresh (ex_engine none) := by
  constructor
  · intro st idx msg g hmsg
    cases msg <;> simp [is_listen_cmd] at hmsg
    · -- Listen
      exact ⟨fun h => h, fun v h => h⟩
    · -- ShadowFd
      rename_i fd name namelen
      unfold ex_engine
      simp only
      cases hs : st.sockets fd with
      | none => exact ⟨fun h => h, fun v h => h⟩
      | some s =>
        cases hn : st.sockets (1000 + idx) with
        | some _ => exact ⟨fun h => h, fun v h => h⟩
        | none =>
          have hif : ¬ ((none : Option Nat) = some idx) := by simp
          simp only [hif, if_false]
          constructor
          · intro h
            by_cases hgf : g = fd
            · simp [set_socket, hgf]
            · by_cases hgc : g = 1000 + idx
              · rw [hgc, hn] at h
                exact absurd h (by simp)
              · simpa [set_socket, hgf, hgc] using h
          · intro v h
            have hg : g ≠ 1000 + idx := by
              intro e
              have := is_master_isSome st g v h
              rw [e, hn] at this
              exact absurd this (by simp)
            by_cases hgf : g = fd
            · subst hgf
              simp only [is_master, hs, Option.some_bind] at h
              simp [is_master, set_socket, h]
            · rw [← h]
              apply is_master_congr
              simp [set_socket, hgf, hg]
  · intro st idx fd name namelen h
    unfold ex_engine at h ⊢
    simp only at h ⊢
    cases hs : st.sockets fd with
    | none => simp [hs] at h
    | some s =>
      cases hn : st.sockets (1000 + idx) with
      | some _ => simp [hs, hn] at h
      | none => simp [hs, hn]

theorem stack_broadcast_listen_master_witness :
    ∃ (st2 : lstack) (clone : Nat → Int),
      stack_broadcast_listen (ex_fan_env none) true 8 ex_fan_state 5 16 = some (st2, 0) ∧
      clone 0 = 5 ∧
      (∀ i, i < 3 → ∀ j, j < 3 → i ≠ j → clone i ≠ clone j) ∧
      st2.rpc_log = [] ++ (0, rpc_msg.getsockname 5) ::
        listen_cmds 5 ⟨AF_INET, 80, 0⟩ 16 16 0 clone (List.range 3) ∧
      get_min_conn_stack
        (rpc_call (ex_fan_env none).engine ex_fan_state 0 (rpc_msg.getsockname 5)).1 < 3 ∧
      ∀ i, i < 3 → is_master st2 (clone i) =
        some (if get_min_conn_stack
            (rpc_call (ex_fan_env none).engine ex_fan_state 0 (rpc_msg.getsockname 5)).1 = i
          then 1 else 0) :=
  stack_broadcast_listen_master (ex_fan_env none) 8 ex_fan_state 5 16 0
    { recv_ring := none, send_ring := none } ex_engine_clones_fresh (by decide) (by decide)
    (by decide) (by decide) (by decide)

/-! ## `do_epoll_wait`: negative timeouts (C22) -/

/-- C22 (counterexample): on the fast path, with `epfd = 3`, non-null `events` and
`maxevents = 8`, the timeout -2 is not forwarded: `do_epoll_wait` returns -1 with `errno`
`EINVAL` and calls no entry point. -/
theorem do_epoll_wait_rejects_minus_two :
    ex_env.select_posix_path = posix_path.PATH_LWIP ∧
    (do_epoll_wait ex_env (ex_state ex_recv_sock) 3 false 8 (-2)).ret = -1 ∧
    (do_epoll_wait ex_env (ex_state ex_recv_sock) 3 false 8 (-2)).st.errno = EINVAL ∧
    (do_epoll_wait ex_env (ex_state ex_recv_sock) 3 false 8 (-2)).calls = [] := by
  refine ⟨rfl, by decide, by decide, by decide⟩

/-- C22 (amended): on the fast path, with a valid `epfd` (>= 0), non-null `events` and
`maxevents > 0`, `do_epoll_wait` forwards a timeout of -1 or more to the fast-path
`epoll_wait`, with that timeout, and returns its result; a timeout below -1 is rejected:
the call returns -1 with `errno` `EINVAL` and no entry point is called. -/
theorem do_epoll_wait_timeout (env : shim_env) (st : lstack) (epfd maxevents timeout : Int)
    (hpath : env.select_posix_path ≠ posix_path.PATH_KERNEL) (hepfd : 0 ≤ epfd)
    (hmax : 0 < maxevents) :
    (-1 ≤ timeout →
      (do_epoll_wait env st epfd false maxevents timeout).ret =
        env.wrap_epoll_wait_fn epfd maxevents timeout ∧
      (do_epoll_wait env st epfd false maxevents timeout).calls =
        [shim_call.wrap_epoll_wait epfd maxevents timeout] ∧
      (do_epoll_wait env st epfd false maxevents timeout).st.errno = st.errno) ∧
    (timeout < -1 →
      (do_epoll_wait env st epfd false maxevents timeout).ret = -1 ∧
      (do_epoll_wait env st epfd false maxevents timeout).calls = [] ∧
      (do_epoll_wait env st epfd false maxevents timeout).st.errno = EINVAL) := by
  have h1 : ¬ epfd < 0 := by omega
  have h2 : ¬ maxevents ≤ 0 := by omega
  constructor
  · intro ht
    have h3 : ¬ timeout < -1 := by omega
    simp [do_epoll_wait, hpath, h1, h2, h3]
  · intro ht
    simp [do_epoll_wait, hpath, h1, ht, GAZELLE_RETURN]

theorem do_epoll_wait_timeout_witness :
    ((do_epoll_wait ex_env (ex_state ex_recv_sock) 3 false 8 (-1)).ret =
        ex_env.wrap_epoll_wait_fn 3 8 (-1) ∧
      (do_epoll_wait ex_env (ex_state ex_recv_sock) 3 false 8 (-1)).calls =
        [shim_call.wrap_epoll_wait 3 8 (-1)] ∧
      (do_epoll_wait ex_env (ex_state ex_recv_sock) 3 false 8 (-1)).st.errno =
        (ex_state ex_recv_sock).errno) ∧
    ((do_epoll_wait ex_env (ex_state ex_recv_sock) 3 false 8 (-5)).ret = -1 ∧
      (do_epoll_wait ex_env (ex_state ex_recv_sock) 3 false 8 (-5)).calls = [] ∧
      (do_epoll_wait ex_env (ex_state ex_recv_sock) 3 false 8 (-5)).st.errno = EINVAL) :=
  ⟨(do_epoll_wait_timeout ex_env (ex_state ex_recv_sock) 3 8 (-1) (by decide) (by decide)
      (by decide)).1 (by decide),
    (do_epoll_wait_timeout ex_env (ex_state ex_recv_sock) 3 8 (-5) (by decide) (by decide)
      (by decide)).2 (by decide)⟩

/-! ## `do_ppoll`: the timeout handed to `do_poll` (C29) -/

/-- C29 fails on the code: with non-null `fds` and a null `tmo_p`, `do_ppoll` does not call
`do_poll` with timeout -1; it returns -1 with `errno` `EINVAL` and calls no entry point,
although the next line of the source maps a null `tmo_p` to -1. For a non-null `tmo_p` the
sum is stored in an `int32_t`: 1.5 s gives 1500 ms, but 2147484 s gives -2147483296 and not
2147484000. -/
theorem do_ppoll_null_timeout_rejected :
    (do_ppoll ex_env (ex_state ex_recv_sock) false 2 none).ret = -1 ∧
    (do_ppoll ex_env (ex_state ex_recv_sock) false 2 none).st.errno = EINVAL ∧
    (do_ppoll ex_env (ex_state ex_recv_sock) false 2 none).calls = [] ∧
    (do_ppoll ex_env (ex_state ex_recv_sock) false 2 (some ⟨1, 500000000⟩)).calls =
      [shim_call.wrap_poll 2 1500] ∧
    (do_ppoll ex_env (ex_state ex_recv_sock) false 2 (some ⟨2147484, 0⟩)).calls =
      [shim_call.wrap_poll 2 (-2147483296)] := by
  refine ⟨by decide, by decide, by decide, by decide, by decide⟩

/-! ## `do_close`: the host table (C30) -/

/-- C30 fails on the code: for a descriptor routed to the kernel-path branch while
`posix_api` is `NULL`, the test `posix_api != NULL && ...` fails and the `else` branch calls
`posix_api->close_fn(s)` through the null pointer; with a host table present the same
branch closes through `g_wrap_api` and not through the host table. -/
theorem do_close_null_host_table :
    ex_null_env.select_posix_path = posix_path.PATH_KERNEL ∧
    ex_null_env.posix_api_null = true ∧
    (do_close ex_null_env (ex_state ex_recv_sock) 5).isNone = true ∧
    (do_close { ex_null_env with posix_api_null := false } (ex_state ex_recv_sock) 5).map
      (fun r => (r.ret, r.calls)) = some (0, [shim_call.wrap_close 5]) := by
  refine ⟨rfl, rfl, by decide, by decide⟩

/-! ## `stack_broadcast_accept4`: the `errno` of a failed accept (C21) -/

/-- C21 (counterexample): a non-blocking listener 5 with the ACCEPT-IN clones 6 and 7 and an
engine whose `Accept` fails with `errno` `ECONNABORTED`: `stack_broadcast_accept4` posts
`Accept` for clone 6 and returns -1 with `errno` `EAGAIN`; the `errno` of the engine is
overwritten. -/
theorem stack_broadcast_accept4_overwrites_errno :
    (ex_accept_engine ex_chain_state 1 (rpc_msg.accept 6 0)).1.errno = ECONNABORTED ∧
    (stack_broadcast_accept4 { ex_fan_env none with engine := ex_accept_engine } 8
        ex_chain_state 5 0).map (fun r => (r.2, r.1.errno, r.1.rpc_log)) =
      some (-1, EAGAIN, [(1, rpc_msg.accept 6 0)]) ∧
    EAGAIN ≠ ECONNABORTED := by
  refine ⟨rfl, by decide, by decide⟩

theorem get_min_accept_sock_loop_links (env : fan_env) :
    ∀ (fuel : Nat) (st st1 : lstack) (sock m m1 : Option Int),
      get_min_accept_sock_loop env fuel st sock m = some (st1, m1) →
      (∀ x, sock_links st1 x = sock_links st x) ∧ st1.errno = st.errno ∧
        st1.rpc_log = st.rpc_log := by
  intro fuel
  induction fuel with
  | zero => intro st st1 sock m m1 h; simp [get_min_accept_sock_loop] at h
  | succ n ih =>
    intro st st1 sock m m1 h
    unfold get_min_accept_sock_loop at h
    split at h
    · rename_i _ s k hk
      have hsk : st.sockets k = some s := by
        simpa [lwip_get_socket] using hk
      split at h
      · cases h
      · rename_i conn hc
        split at h
        · cases h; exact ⟨fun _ => rfl, rfl, rfl⟩
        · rename_i s1 hw
          have hl := accept_wakeup_links env s s1 conn hw
          have hlinks := set_socket_links st k s s1 hsk hl
          split at h
          · obtain ⟨a, b, c⟩ := ih _ _ _ _ _ h
            exact ⟨fun x => (a x).trans (hlinks x), b, c⟩
          · split at h
            · cases h
            · obtain ⟨a, b, c⟩ := ih _ _ _ _ _ h
              exact ⟨fun x => (a x).trans (hlinks x), b, c⟩
    · cases h; exact ⟨fun _ => rfl, rfl, rfl⟩

theorem accept4_del_event_ok (st : lstack) (x : Int)
    (h : ∀ s2, st.sockets x = some s2 → s2.conn.isSome = true) :
    ∃ st2, accept4_del_event st (some x) = some st2 ∧ st2.errno = st.errno ∧
      st2.rpc_log = st.rpc_log := by
  unfold accept4_del_event
  simp only [Option.some_bind, lwip_get_socket]
  cases hs : st.sockets x with
  | none => exact ⟨st, rfl, rfl, rfl⟩
  | some s2 =>
    simp only [Option.map_some']
    cases hw : s2.wakeup with
    | none => exact ⟨st, rfl, rfl, rfl⟩
    | some w =>
      simp only
      split
      · have hc := h s2 hs
        unfold del_accept_in_event
        cases hcc : s2.conn with
        | none => rw [hcc] at hc; exact absurd hc (by simp)
        | some c =>
          simp only
          split
          · exact ⟨_, rfl, rfl, rfl⟩
          · exact ⟨_, rfl, rfl, rfl⟩
      · exact ⟨st, rfl, rfl, rfl⟩

/-- C21 (amended): for a non-blocking listener `f` whose clones `fds` are chained behind it
(null-terminated, all with a connection, the ACCEPT-IN ones owned by a worker; a wakeup
object can be built), `stack_broadcast_accept4` returns. When no clone is ready it returns
-1 with `errno` `EAGAIN`. When the ACCEPT-IN clone `x`, owned by worker `idx`, was chosen,
it posts `Accept(x, flags)` to `idx` and returns the result of the engine (a listener that
still exists afterwards keeping its connection); if that result is negative, `errno` is
`EAGAIN` whatever `errno` the engine reported, and else `errno` is as the engine left it. -/
theorem stack_broadcast_accept4_errno (env : fan_env) (fds : List Int) (f : Int) (st : lstack)
    (fuel : Nat) (flags : Int) (sock : lwip_sock) (conn : netconn)
    (hs : st.sockets f = some sock) (hc : sock.conn = some conn)
    (hnb : conn.nonblocking = true) (hw : env.poll_construct_wakeup ≠ none)
    (hch : clone_chain st (f :: fds)) (hfuel : fds.length + 1 < fuel)
    (hown : ∀ g ∈ f :: fds, accept_in st g = true →
      (get_protocol_stack_by_fd st g).isSome = true) :
    ∃ st1 m, get_min_accept_sock env fuel st f = some (st1, m) ∧
      (m = none →
        stack_broadcast_accept4 env fuel st f flags = some ({ st1 with errno := EAGAIN }, -1)) ∧
      ∀ x, m = some x → ∃ idx, get_protocol_stack_by_fd st1 x = some idx ∧
        ((∀ s2, (rpc_call env.engine st1 idx (rpc_msg.accept x flags)).1.sockets x = some s2 →
            s2.conn.isSome = true) →
          ∃ st2, stack_broadcast_accept4 env fuel st f flags =
              some (st2, (rpc_call env.engine st1 idx (rpc_msg.accept x flags)).2) ∧
            ((rpc_call env.engine st1 idx (rpc_msg.accept x flags)).2 < 0 →
              st2.errno = EAGAIN) ∧
            (0 ≤ (rpc_call env.engine st1 idx (rpc_msg.accept x flags)).2 →
              st2.errno = (rpc_call env.engine st1 idx (rpc_msg.accept x flags)).1.errno) ∧
            st2.rpc_log = st.rpc_log ++ [(idx, rpc_msg.accept x flags)]) := by
  have hopen : POSIX_IS_CLOSED (st.sockets f) = false := by simp [hs, POSIX_IS_CLOSED, hc]
  obtain ⟨st1, h1⟩ := get_min_accept_sock_loop_scan env hw fds f st fuel none hch hopen hfuel
    (fun g hg ha => Option.isSome_iff_exists.mp (hown g hg ha)) (fun x hx => by cases hx)
  obtain ⟨hl, _, hlog⟩ := get_min_accept_sock_loop_links env fuel st st1 (some f) none _ h1
  have hacc : stack_broadcast_accept4 env fuel st f flags =
      accept4_finish env st1 (min_accept_scan (accept_in st)
        (fun g => (sock_conn_num st g).getD 0) (f :: fds) none) flags := by
    unfold stack_broadcast_accept4
    simp only [lwip_get_socket, hs, hc, hnb, if_true]
    unfold get_min_accept_sock
    rw [h1]
  refine ⟨st1, _, h1, ?_, ?_⟩
  · intro hm
    rw [hacc, hm]
    simp [accept4_finish, accept4_del_event]
  · intro x hx
    obtain ⟨_, _, h3⟩ := min_accept_scan_some _ _ _ _ x hx
    rcases h3 with e | ⟨pre, post, e1, e2, _, _⟩
    · cases e
    · have hmem : x ∈ f :: fds := by rw [e1]; simp
      obtain ⟨idx, hidx⟩ := Option.isSome_iff_exists.mp (hown x hmem e2)
      have hidx1 : get_protocol_stack_by_fd st1 x = some idx := by
        rw [owner_of_links st1 st x (hl x)]; exact hidx
      refine ⟨idx, hidx1, ?_⟩
      intro hkeep
      have hconn : (lwip_get_socket st1 x).bind (fun s => s.conn.map (fun _ => x)) = some x := by
        have ha : accept_in st1 x = true := by
          rw [accept_in_of_links st1 st x (hl x)]; exact e2
        unfold accept_in at ha
        unfold lwip_get_socket
        cases hsx : st1.sockets x with
        | none => simp [hsx] at ha
        | some s =>
          cases hcx : s.conn with
          | none => simp [hsx, hcx] at ha
          | some c => simp [hcx]
      obtain ⟨st2, d1, d2, d3⟩ := accept4_del_event_ok
        (rpc_call env.engine st1 idx (rpc_msg.accept x flags)).1 x hkeep
      rw [hacc, hx]
      unfold accept4_finish
      simp only [Option.some_bind, hconn, hidx1, d1, Option.map_some']
      split
      · rename_i hneg
        refine ⟨_, rfl, fun _ => rfl, fun h => absurd hneg (by omega), ?_⟩
        show st2.rpc_log = _
        rw [d3, rpc_call_log, hlog]
      · rename_i hneg
        refine ⟨_, rfl, fun h => absurd h hneg, fun _ => d2, ?_⟩
        rw [d3, rpc_call_log, hlog]

theorem stack_broadcast_accept4_errno_witness :
    ∃ st1 m, get_min_accept_sock { ex_fan_env none with engine := ex_accept_engine } 8
        ex_chain_state 5 = some (st1, m) ∧
      (m = none →
        stack_broadcast_accept4 { ex_fan_env none with engine := ex_accept_engine } 8
          ex_chain_state 5 0 = some ({ st1 with errno := EAGAIN }, -1)) ∧
      ∀ x, m = some x → ∃ idx, get_protocol_stack_by_fd st1 x = some idx ∧
        ((∀ s2, (rpc_call ex_accept_engine st1 idx (rpc_msg.accept x 0)).1.sockets x = some s2 →
            s2.conn.isSome = true) →
          ∃ st2, stack_broadcast_accept4 { ex_fan_env none with engine := ex_accept_engine } 8
              ex_chain_state 5 0 =
              some (st2, (rpc_call ex_accept_engine st1 idx (rpc_msg.accept x 0)).2) ∧
            ((rpc_call ex_accept_engine st1 idx (rpc_msg.accept x 0)).2 < 0 →
              st2.errno = EAGAIN) ∧
            (0 ≤ (rpc_call ex_accept_engine st1 idx (rpc_msg.accept x 0)).2 →
              st2.errno = (rpc_call ex_accept_engine st1 idx (rpc_msg.accept x 0)).1.errno) ∧
            st2.rpc_log = ex_chain_state.rpc_log ++ [(idx, rpc_msg.accept x 0)]) :=
  stack_broadcast_accept4_errno { ex_fan_env none with engine := ex_accept_engine } [6, 7] 5
    ex_chain_state 8 0 { recv_ring := none, send_ring := none, listen_next := some 6 } {}
    rfl rfl rfl (by decide) (by decide) (by decide) (by decide)

/-! ## `read_stack_data`: level-triggered readiness (C26) -/

/-- C26: on a descriptor whose buffers satisfy the chain invariant, `read_stack_data`
returns, and the commands it has added to the RPC queue of the owning worker are: one
`AddEvent(EPOLLIN)` for the descriptor when, after the copy loop, the receive ring is
non-empty or a recv-residue is present, and `in_event` is 0; nothing otherwise. No other
worker's queue changes. The return value plays no part: the call returns -1 (`EAGAIN`)
exactly when it copied nothing, and posts under the same condition then. -/
theorem read_stack_data_addevent (st : lstack) (fd : Int) (sock : lwip_sock) (rr : rte_ring)
    (idx : Nat) (buf : List Nat) (len flags : Nat)
    (hsock : get_socket st fd = some sock) (hring : sock.recv_ring = some rr)
    (hstack : sock.stack = some idx) (hwf : recv_wf sock.recv_lastdata rr)
    (hbuf : len ≤ buf.length) :
    ∃ (st1 : lstack) (ret : Int) (buf1 : List Nat) (sock1 : lwip_sock) (rr1 : rte_ring),
      read_stack_data st fd buf len flags = some (st1, ret, buf1) ∧
      get_socket st1 fd = some sock1 ∧ sock1.recv_ring = some rr1 ∧
      (st1.stack_group idx).rpc_queue = (st.stack_group idx).rpc_queue ++
        (if (rte_ring_count rr1 ≠ 0 ∨ sock1.recv_lastdata.isSome = true) ∧ sock.in_event = 0
          then [rpc_msg.addevent fd EPOLLIN] else []) ∧
      (∀ j, j ≠ idx → (st1.stack_group j).rpc_queue = (st.stack_group j).rpc_queue) ∧
      (ret = -1 ∧ st1.errno = EAGAIN ∨ 0 < ret) := by
  obtain ⟨v1, e1, e2, -⟩ := read_stack_data_loop_spec
    (rte_ring_count rr + 2)
    { recv_ring := rr, recv_lastdata := sock.recv_lastdata, stats := (st.stack_group idx).stats,
      freed := st.freed, buf := buf, recvd := 0, recv_left := len }
    (by
      simp only [rte_ring_count]
      split
      · omega
      · split <;> omega)
    hwf (by simp only; omega)
  by_cases hr : v1.recvd = 0
  · simp only [read_stack_data, hsock, hring, hstack, e1, hr, if_true, GAZELLE_RETURN]
    apply Exists.intro
    apply Exists.intro
    apply Exists.intro
    apply Exists.intro
    apply Exists.intro
    refine ⟨rfl, by simp only [get_socket, set_socket, set_stack, if_true]; rfl, rfl, ?_, ?_,
      Or.inl ⟨rfl, rfl⟩⟩
    · by_cases hc : rte_ring_count v1.recv_ring ≠ 0 ∨ v1.recv_lastdata.isSome = true
      · by_cases hi : sock.in_event = 0
        · simp [set_stack, hc, hi, rpc_call_addevent]
        · simp [set_stack, hc, hi]
      · simp [set_stack, hc]
    · intro j hj
      simp [set_stack, set_socket, hj]
  · simp only [read_stack_data, hsock, hring, hstack, e1, hr, if_false]
    apply Exists.intro
    apply Exists.intro
    apply Exists.intro
    apply Exists.intro
    apply Exists.intro
    refine ⟨rfl, by simp only [get_socket, set_socket, set_stack, if_true]; rfl, rfl, ?_, ?_,
      Or.inr ?_⟩
    · by_cases hc : rte_ring_count v1.recv_ring ≠ 0 ∨ v1.recv_lastdata.isSome = true
      · by_cases hi : sock.in_event = 0
        · simp [set_stack, hc, hi, rpc_call_addevent]
        · simp [set_stack, hc, hi]
      · simp [set_stack, hc]
    · intro j hj
      simp [set_stack, set_socket, hj]
    · have : 0 < v1.recvd := Nat.pos_of_ne_zero hr
      exact_mod_cast this

theorem read_stack_data_addevent_witness :
    recv_wf ex_recv_sock.recv_lastdata ex_recv_ring ∧
    (read_stack_data (ex_state ex_recv_sock) 5 [] 0 0).map
      (fun r => (r.2.1, r.1.errno, (r.1.stack_group 0).rpc_queue)) =
      some (-1, EAGAIN, [rpc_msg.addevent 5 EPOLLIN]) ∧
    ∃ (st1 : lstack) (ret : Int) (buf1 : List Nat) (sock1 : lwip_sock) (rr1 : rte_ring),
      read_stack_data (ex_state ex_recv_sock) 5 [] 0 0 = some (st1, ret, buf1) ∧
      get_socket st1 5 = some sock1 ∧ sock1.recv_ring = some rr1 ∧
      (st1.stack_group 0).rpc_queue = ((ex_state ex_recv_sock).stack_group 0).rpc_queue ++
        (if (rte_ring_count rr1 ≠ 0 ∨ sock1.recv_lastdata.isSome = true) ∧
            ex_recv_sock.in_event = 0
          then [rpc_msg.addevent 5 EPOLLIN] else []) ∧
      (∀ j, j ≠ 0 → (st1.stack_group j).rpc_queue =
        ((ex_state ex_recv_sock).stack_group j).rpc_queue) ∧
      (ret = -1 ∧ st1.errno = EAGAIN ∨ 0 < ret) := by
  have hwf : recv_wf ex_recv_sock.recv_lastdata ex_recv_ring := by
    constructor
    · intro p hp
      simp only [ex_recv_sock, Option.some.injEq] at hp
      subst hp
      decide
    · decide
  exact ⟨hwf, by decide,
    read_stack_data_addevent (ex_state ex_recv_sock) 5 ex_recv_sock ex_recv_ring 0 [] 0 0
      rfl rfl rfl hwf (by decide)⟩

/-! ## `read_lwip_data` with `MSG_PEEK` (C25) -/

/-- C25 fails on the code: descriptor 6 of `ex_list_state` has one free slot in its receive
ring and the buffers "1", "2" in the mailbox of the engine. Without `MSG_PEEK`,
`read_lwip_data` appends min(1, 2) = 1 buffer, "1", to the receive ring and returns its
length 1. With `MSG_PEEK` it returns 1 and leaves the receive ring unchanged, but it has
taken the buffer "1" from the engine all the same: the mailbox holds only "2", and "1" is
neither in the ring nor freed. -/
theorem read_lwip_data_peek_consumes_mailbox :
    (ex_list_state.sockets 6).map (fun s => (s.recv_ring, s.conn.bind (fun c => c.recvmbox))) =
      some (some { capacity := 1, objs := [] },
        some { capacity := 4, objs := [pbuf.last [1] 1 1, pbuf.last [2] 1 1] }) ∧
    (read_lwip_data ex_netconn_recv ex_list_state 6 0 0).map
        (fun r => (r.2, (r.1.sockets 6).map
          (fun s => (s.recv_ring, s.conn.bind (fun c => c.recvmbox))), r.1.freed)) =
      some (1, some (some { capacity := 1, objs := [pbuf.last [1] 1 1] },
        some { capacity := 4, objs := [pbuf.last [2] 1 1] }), []) ∧
    (read_lwip_data ex_netconn_recv ex_list_state 6 MSG_PEEK 0).map
        (fun r => (r.2, (r.1.sockets 6).map
          (fun s => (s.recv_ring, s.conn.bind (fun c => c.recvmbox))), r.1.freed)) =
      some (1, some (some { capacity := 1, objs := [] },
        some { capacity := 4, objs := [pbuf.last [2] 1 1] }), []) := by
  refine ⟨by decide, by decide, by decide⟩

/-! ## `stack_replenish_send_idlembuf` (C27) -/

theorem tcp_pktmbuf_alloc_cases (A : Nat) (mbuf : Option Nat) (layer len : Nat)
    (hfit : LWIP_MEM_ALIGN_SIZE A layer + len ≤
      (LWIP_MEM_ALIGN_SIZE A layer + LWIP_MEM_ALIGN_SIZE A len) % U16_MAX1) :
    tcp_pktmbuf_alloc A mbuf layer len = some none ∨
      tcp_pktmbuf_alloc A mbuf layer len = some (some (tx_pbuf len)) := by
  unfold tcp_pktmbuf_alloc
  cases mbuf with
  | none => exact Or.inl rfl
  | some t =>
    simp only
    split
    · exact Or.inl rfl
    · have : ¬ (LWIP_MEM_ALIGN_SIZE A layer + len >
          (LWIP_MEM_ALIGN_SIZE A layer + LWIP_MEM_ALIGN_SIZE A len) % U16_MAX1) := by omega
      simp [this]

theorem stack_replenish_send_idlembuf_loop_spec (A : Nat) (pool : rte_mempool)
    (layer len : Nat)
    (hfit : LWIP_MEM_ALIGN_SIZE A layer + len ≤
      (LWIP_MEM_ALIGN_SIZE A layer + LWIP_MEM_ALIGN_SIZE A len) % U16_MAX1) :
    ∀ (n i : Nat) (ring : rte_ring) (freed : List pbuf), n ≤ rte_ring_free_count ring →
      ∃ k, k ≤ n ∧
        stack_replenish_send_idlembuf_loop A pool layer len n i ring freed =
          some ({ ring with objs := ring.objs ++ List.replicate k (tx_pbuf len) }, freed) ∧
        (∀ j, j < k → alloc_succeeds A pool layer len (i + j)) ∧
        (k < n → ¬ alloc_succeeds A pool layer len (i + k)) := by
  intro n
  induction n with
  | zero =>
    intro i ring freed _
    exact ⟨0, le_refl _, by simp [stack_replenish_send_idlembuf_loop], fun j hj => by omega,
      fun h => by omega⟩
  | succ n ih =>
    intro i ring freed hn
    unfold stack_replenish_send_idlembuf_loop
    rcases tcp_pktmbuf_alloc_cases A (pool.alloc i) layer len hfit with h | h
    · rw [h]
      refine ⟨0, by omega, by simp, fun j hj => by omega, fun _ => ?_⟩
      unfold alloc_succeeds
      rw [Nat.add_zero, h]
      simp
    · rw [h]
      have hroom : ring.objs.length < ring.capacity := by
        unfold rte_ring_free_count at hn; omega
      have henq : rte_ring_sp_enqueue ring (tx_pbuf len) =
          (0, { ring with objs := ring.objs ++ [tx_pbuf len] }) := by
        simp [rte_ring_sp_enqueue, hroom]
      simp only [henq, lt_self_iff_false, if_false]
      obtain ⟨k, hk, e1, e2, e3⟩ := ih (i + 1)
        { ring with objs := ring.objs ++ [tx_pbuf len] } freed (by
          unfold rte_ring_free_count at hn ⊢
          simp only [List.length_append, List.length_singleton]
          omega)
      refine ⟨k + 1, by omega, ?_, ?_, ?_⟩
      · rw [e1]
        simp [List.replicate_succ]
      · intro j hj
        cases j with
        | zero => exact h
        | succ j =>
          have := e2 j (by omega)
          rw [show i + (j + 1) = i + 1 + j by omega]
          exact this
      · intro hlt
        have := e3 (by omega)
        rw [show i + (k + 1) = i + 1 + k by omega]
        exact this

/-- C27: with `f` the free count of the worker's idle ring at entry (and constants for which
`tcp_pktmbuf_alloc` has room for its buffer), `stack_replenish_send_idlembuf` returns and
has appended `k` buffers to the idle ring, behind the buffers it held, which are untouched:
`k <= f`, the first `k` allocations succeeded, and if `k < f` the next allocation failed,
so `k` is the smaller of `f` and the number of allocations that succeed before the first
failure. Nothing is freed. If no allocation fails, the idle ring ends with no free slot. -/
theorem stack_replenish_send_idlembuf_count (MEM_ALIGNMENT PBUF_TRANSPORT TCP_MSS : Nat)
    (pool : rte_mempool) (st : lstack) (idx : Nat)
    (hfit : LWIP_MEM_ALIGN_SIZE MEM_ALIGNMENT PBUF_TRANSPORT + TCP_MSS ≤
      (LWIP_MEM_ALIGN_SIZE MEM_ALIGNMENT PBUF_TRANSPORT +
        LWIP_MEM_ALIGN_SIZE MEM_ALIGNMENT TCP_MSS) % U16_MAX1) :
    ∃ (k : Nat) (st1 : lstack),
      stack_replenish_send_idlembuf MEM_ALIGNMENT PBUF_TRANSPORT TCP_MSS pool st idx =
        some st1 ∧
      k ≤ rte_ring_free_count (st.stack_group idx).send_idle_ring ∧
      (∀ j, j < k → alloc_succeeds MEM_ALIGNMENT pool PBUF_TRANSPORT TCP_MSS j) ∧
      (k < rte_ring_free_count (st.stack_group idx).send_idle_ring →
        ¬ alloc_succeeds MEM_ALIGNMENT pool PBUF_TRANSPORT TCP_MSS k) ∧
      (st1.stack_group idx).send_idle_ring.objs =
        (st.stack_group idx).send_idle_ring.objs ++ List.replicate k (tx_pbuf TCP_MSS) ∧
      (st1.stack_group idx).send_idle_ring.capacity =
        (st.stack_group idx).send_idle_ring.capacity ∧
      st1.freed = st.freed ∧
      ((∀ j, j < rte_ring_free_count (st.stack_group idx).send_idle_ring →
          alloc_succeeds MEM_ALIGNMENT pool PBUF_TRANSPORT TCP_MSS j) →
        rte_ring_free_count (st1.stack_group idx).send_idle_ring = 0) := by
  obtain ⟨k, hk, e1, e2, e3⟩ := stack_replenish_send_idlembuf_loop_spec MEM_ALIGNMENT pool
    PBUF_TRANSPORT TCP_MSS hfit (rte_ring_free_count (st.stack_group idx).send_idle_ring) 0
    (st.stack_group idx).send_idle_ring st.freed (le_refl _)
  have hres : stack_replenish_send_idlembuf MEM_ALIGNMENT PBUF_TRANSPORT TCP_MSS pool st idx =
      some { set_stack st idx { st.stack_group idx with send_idle_ring := { (st.stack_group idx).send_idle_ring with objs := (st.stack_group idx).send_idle_ring.objs ++ List.replicate k (tx_pbuf TCP_MSS) } } with freed := st.freed } := by
    unfold stack_replenish_send_idlembuf
    rw [e1]
    rfl
  refine ⟨k, _, hres, hk, ?_, ?_, ?_, ?_, ?_, ?_⟩
  · intro j hj
    have := e2 j hj
    rwa [Nat.zero_add] at this
  · intro hlt
    have := e3 hlt
    rwa [Nat.zero_add] at this
  · simp [set_stack]
  · simp [set_stack]
  · rfl
  · intro hall
    have hkf : k = rte_ring_free_count (st.stack_group idx).send_idle_ring := by
      by_contra hne
      have hlt : k < rte_ring_free_count (st.stack_group idx).send_idle_ring := by omega
      have := e3 hlt
      rw [Nat.zero_add] at this
      exact this (hall k hlt)
    simp only [set_stack, if_true, rte_ring_free_count, List.length_append,
      List.length_replicate]
    unfold rte_ring_free_count at hkf
    omega

theorem stack_replenish_send_idlembuf_count_witness :
    ∃ (k : Nat) (st1 : lstack),
      stack_replenish_send_idlembuf 4 54 8 ex_pool (ex_state ex_recv_sock) 0 = some st1 ∧
      k ≤ rte_ring_free_count ((ex_state ex_recv_sock).stack_group 0).send_idle_ring ∧
      (∀ j, j < k → alloc_succeeds 4 ex_pool 54 8 j) ∧
      (k < rte_ring_free_count ((ex_state ex_recv_sock).stack_group 0).send_idle_ring →
        ¬ alloc_succeeds 4 ex_pool 54 8 k) ∧
      (st1.stack_group 0).send_idle_ring.objs =
        ((ex_state ex_recv_sock).stack_group 0).send_idle_ring.objs ++
          List.replicate k (tx_pbuf 8) ∧
      (st1.stack_group 0).send_idle_ring.capacity =
        ((ex_state ex_recv_sock).stack_group 0).send_idle_ring.capacity ∧
      st1.freed = (ex_state ex_recv_sock).freed ∧
      ((∀ j, j < rte_ring_free_count ((ex_state ex_recv_sock).stack_group 0).send_idle_ring →
          alloc_succeeds 4 ex_pool 54 8 j) →
        rte_ring_free_count (st1.stack_group 0).send_idle_ring = 0) :=
  stack_replenish_send_idlembuf_count 4 54 8 ex_pool (ex_state ex_recv_sock) 0 (by decide)

/-! ## `stack_send`: backpressure (C23), draining (C24), conservation (C28) -/

theorem stack_send_body_spec (env : send_env) (flags : Int) (p : pbuf) (v : send_vars)
    (hv : v.send_lastdata = none) :
    ∃ r, stack_send_body env flags true true p v = some r ∧
      ((∃ v1, r = Sum.inl v1 ∧ v1.send_ring = v.send_ring ∧
          v1.sent ++ v1.send_lastdata.toList = v.sent ++ [p]) ∨
        (∃ v1, r = Sum.inr v1 ∧ v1.send_ring = v.send_ring ∧ v1.send_lastdata = none ∧
          v1.sent = v.sent ++ [p])) := by
  unfold stack_send_body
  simp only [not_true_eq_false, if_false]
  split
  · exact ⟨_, rfl, Or.inl ⟨_, rfl, rfl, by simp⟩⟩
  · split
    · exact ⟨_, rfl, Or.inl ⟨_, rfl, rfl, by simp [hv]⟩⟩
    · split
      · exact ⟨_, rfl, Or.inr ⟨_, rfl, rfl, hv, rfl⟩⟩
      · exact ⟨_, rfl, Or.inl ⟨_, rfl, rfl, by simp [hv]⟩⟩

theorem stack_send_loop_spec (env : send_env) (flags : Int) :
    ∀ (fuel : Nat) (v : send_vars),
      v.send_ring.objs.length + (if v.send_lastdata.isSome then 1 else 0) < fuel →
      ∃ v1, stack_send_loop env flags true true fuel v = some v1 ∧
        v1.sent ++ v1.send_lastdata.toList ++ v1.send_ring.objs =
          v.sent ++ v.send_lastdata.toList ++ v.send_ring.objs ∧
        (∃ k, v1.send_ring.objs = v.send_ring.objs.drop k) ∧
        v1.send_ring.capacity = v.send_ring.capacity := by
  intro fuel
  induction fuel with
  | zero => intro v h; omega
  | succ n ih =>
    intro v hf
    unfold stack_send_loop
    cases hl : v.send_lastdata with
    | some p =>
      simp only
      obtain ⟨r, hr, hcase⟩ := stack_send_body_spec env flags p { v with send_lastdata := none } rfl
      rw [hr]
      rcases hcase with ⟨v1, rfl, h1, h2⟩ | ⟨v1, rfl, h1, h2, h3⟩
      · refine ⟨v1, rfl, ?_, ⟨0, by rw [h1]; rfl⟩, by rw [h1]⟩
        rw [h2, h1]; simp
      · simp only
        obtain ⟨v2, e1, e2, ⟨k, e3⟩, e4⟩ := ih v1 (by
          rw [h1, h2]
          simp only [hl, Option.isSome_some, if_true] at hf
          simp
          omega)
        refine ⟨v2, e1, ?_, ⟨k, by rw [e3, h1]⟩, by rw [e4, h1]⟩
        rw [e2, h3, h2, h1]; simp
    | none =>
      simp only
      cases ho : v.send_ring.objs with
      | nil =>
        simp only [rte_ring_sc_dequeue, ho]
        exact ⟨_, rfl, by simp [hl, ho], ⟨0, by simp [ho]⟩, rfl⟩
      | cons p rest =>
        simp only [rte_ring_sc_dequeue, ho]
        obtain ⟨r, hr, hcase⟩ := stack_send_body_spec env flags p
          { send_ring := { capacity := v.send_ring.capacity, objs := rest }, send_lastdata := none, stats := v.stats, sent := v.sent, ret := 0 } rfl
        rw [hr]
        rcases hcase with ⟨v1, rfl, h1, h2⟩ | ⟨v1, rfl, h1, h2, h3⟩
        · refine ⟨v1, rfl, ?_, ⟨1, by rw [h1]; simp⟩, by rw [h1]⟩
          rw [h2, h1]; simp
        · simp only
          obtain ⟨v2, e1, e2, ⟨k, e3⟩, e4⟩ := ih v1 (by
            rw [h1, h2]
            simp only [hl, ho, List.length_cons] at hf
            simp
            omega)
          refine ⟨v2, e1, ?_, ⟨k + 1, by rw [e3, h1]; simp⟩, by rw [e4, h1]⟩
          rw [e2, h3, h2, h1]; simp

/-- C28: `stack_send` on a descriptor with send ring, connection (with a pcb) and worker,
for every engine and every value of the variable `ret` at entry: the call returns; the
buffers handed to `lwip_send`, in order, followed by the send-residue it leaves (at most
one buffer) and by the buffers left in the send ring are exactly the send-residue it
found followed by the buffers it found in the send ring, in their order. So the buffers
handed to the engine are the send-residue, if present, and then send-ring buffers in
enqueue order; no buffer is lost or duplicated; the buffers left in the send ring are a
tail of the ring as it was; and the value returned is their number. -/
theorem stack_send_conserves (env : send_env) (ret0 : Int) (st : lstack) (fd : Int)
    (flags : Int) (sock : lwip_sock) (ring : rte_ring) (conn : netconn) (idx : Nat)
    (hsock : get_socket st fd = some sock) (hring : sock.send_ring = some ring)
    (hconn : sock.conn = some conn) (hpcb : conn.pcb_tcp = true)
    (hstack : sock.stack = some idx) :
    ∃ (res : send_result) (sock1 : lwip_sock) (ring1 : rte_ring),
      stack_send env ret0 st fd flags = some res ∧
      get_socket res.st fd = some sock1 ∧ sock1.send_ring = some ring1 ∧
      res.sent ++ sock1.send_lastdata.toList ++ ring1.objs =
        sock.send_lastdata.toList ++ ring.objs ∧
      (∃ k, ring1.objs = ring.objs.drop k) ∧
      res.ret = ring1.objs.length := by
  obtain ⟨v1, e1, e2, e3, _⟩ := stack_send_loop_spec env flags (rte_ring_count ring + 2)
    { send_ring := ring, send_lastdata := sock.send_lastdata
      stats := ((sock.stack.map (fun i => (st.stack_group i).stats)).getD {})
      sent := [], ret := ret0 }
    (by
      simp only [rte_ring_count]
      split <;> omega)
  simp only [stack_send, hsock, hring, hconn, hpcb, hstack, Option.isSome_some] at e1 ⊢
  rw [e1]
  apply Exists.intro
  apply Exists.intro
  apply Exists.intro
  refine ⟨rfl, by simp only [get_socket, set_socket, set_stack, if_true]; rfl, rfl, ?_, e3, rfl⟩
  simpa using e2

theorem stack_send_conserves_witness :
    ∃ (res : send_result) (sock1 : lwip_sock) (ring1 : rte_ring),
      stack_send { ex_send_env with tcp_sndbuf := fun l => if l = [] then 2 else 0 } 0
        (ex_state ex_send_sock) 5 0 = some res ∧
      get_socket res.st 5 = some sock1 ∧ sock1.send_ring = some ring1 ∧
      res.sent ++ sock1.send_lastdata.toList ++ ring1.objs =
        ex_send_sock.send_lastdata.toList ++
          [pbuf.last [7] 1 1, pbuf.last [6] 1 1] ∧
      (∃ k, ring1.objs = [pbuf.last [7] 1 1, pbuf.last [6] 1 1].drop k) ∧
      res.ret = ring1.objs.length :=
  stack_send_conserves { ex_send_env with tcp_sndbuf := fun l => if l = [] then 2 else 0 } 0
    (ex_state ex_send_sock) 5 0 ex_send_sock
    { capacity := 4, objs := [pbuf.last [7] 1 1, pbuf.last [6] 1 1] } {} 0 rfl rfl rfl rfl rfl

theorem stack_send_loop_backpressure (env : send_env) (flags : Int) (v : send_vars) (q : pbuf)
    (n : Nat) (has_stack : Bool) (hnext : send_next v = some q)
    (hwin : env.tcp_sndbuf v.sent % U16_MAX1 < q.tot_len) :
    ∃ v1, stack_send_loop env flags true has_stack (n + 1) v = some v1 ∧
      v1.send_lastdata = some q ∧ v1.sent = v.sent ∧
      v1.send_ring.objs =
        (if v.send_lastdata.isSome then v.send_ring.objs else v.send_ring.objs.tail) ∧
      v1.send_ring.capacity = v.send_ring.capacity := by
  unfold send_next at hnext
  unfold stack_send_loop
  cases hl : v.send_lastdata with
  | some p =>
    simp only [hl, Option.some.injEq] at hnext
    subst hnext
    simp only [stack_send_body, not_true_eq_false, if_false, hwin, if_true]
    exact ⟨_, rfl, rfl, rfl, by simp, rfl⟩
  | none =>
    simp only [hl] at hnext
    cases ho : v.send_ring.objs with
    | nil => simp [ho] at hnext
    | cons p rest =>
      simp only [ho, List.head?_cons, Option.some.injEq] at hnext
      subst hnext
      simp only [rte_ring_sc_dequeue, ho, stack_send_body, not_true_eq_false, if_false, hwin,
        if_true]
      exact ⟨_, rfl, rfl, rfl, by simp, rfl⟩

/-- C23: in `stack_send`, on a descriptor with send ring and connection (with a pcb), let
`p` be the next buffer: the send-residue if present, else the head of the send ring. If
the window the engine reports, as stored in the 16-bit variable `available`, is smaller
than `p->tot_len`, the call returns; nothing has been handed to `lwip_send`; the
send-residue is `p`; the send ring has lost `p` if `p` came from it and is otherwise as it
was; the value returned is the number of buffers in the ring. The same holds in every
round of the loop, from any state `v` of its variables: the loop ends in that round with
`p` as send-residue, nothing more handed over and nothing more dequeued. -/
theorem stack_send_backpressure (env : send_env) (ret0 : Int) (st : lstack) (fd : Int)
    (flags : Int) (sock : lwip_sock) (ring : rte_ring) (conn : netconn) (idx : Nat) (p : pbuf)
    (hsock : get_socket st fd = some sock) (hring : sock.send_ring = some ring)
    (hconn : sock.conn = some conn) (hpcb : conn.pcb_tcp = true)
    (hstack : sock.stack = some idx)
    (hnext : sock.send_lastdata = some p ∨
      (sock.send_lastdata = none ∧ ring.objs.head? = some p))
    (hwin : env.tcp_sndbuf [] % U16_MAX1 < p.tot_len) :
    (∃ (res : send_result) (sock1 : lwip_sock),
      stack_send env ret0 st fd flags = some res ∧ res.sent = [] ∧
      get_socket res.st fd = some sock1 ∧ sock1.send_lastdata = some p ∧
      (sock1.send_ring.map (fun r => r.objs)) =
        some (if sock.send_lastdata.isSome then ring.objs else ring.objs.tail) ∧
      res.ret = (if sock.send_lastdata.isSome then ring.objs else ring.objs.tail).length) ∧
    ∀ (v : send_vars) (q : pbuf) (n : Nat) (has_stack : Bool), send_next v = some q →
      env.tcp_sndbuf v.sent % U16_MAX1 < q.tot_len →
      ∃ v1, stack_send_loop env flags true has_stack (n + 1) v = some v1 ∧
        v1.send_lastdata = some q ∧ v1.sent = v.sent ∧
        v1.send_ring.objs =
          (if v.send_lastdata.isSome then v.send_ring.objs else v.send_ring.objs.tail) ∧
        v1.send_ring.capacity = v.send_ring.capacity := by
  refine ⟨?_, fun v q n hs h1 h2 => stack_send_loop_backpressure env flags v q n hs h1 h2⟩
  have hn : send_next
      { send_ring := ring, send_lastdata := sock.send_lastdata
        stats := ((sock.stack.map (fun i => (st.stack_group i).stats)).getD {})
        sent := [], ret := ret0 } = some p := by
    unfold send_next
    rcases hnext with h | ⟨h1, h2⟩
    · simp [h]
    · simp [h1, h2]
  obtain ⟨v1, e1, e2, e3, e4, _⟩ := stack_send_loop_backpressure env flags _ p
    (rte_ring_count ring + 1) true hn hwin
  simp only [stack_send, hsock, hring, hconn, hpcb, hstack, Option.isSome_some] at e1 ⊢
  rw [e1]
  apply Exists.intro
  apply Exists.intro
  refine ⟨rfl, e3, by simp only [get_socket, set_socket, set_stack, if_true]; rfl, e2, ?_, ?_⟩
  · simp only [Option.map_some', e4]
  · simp only [rte_ring_count, e4]

theorem stack_send_backpressure_witness :
    (∃ (res : send_result) (sock1 : lwip_sock),
      stack_send { ex_send_env with tcp_sndbuf := fun _ => 1 } 0 (ex_state ex_send_sock) 5 0 =
        some res ∧ res.sent = [] ∧
      get_socket res.st 5 = some sock1 ∧ sock1.send_lastdata = some (pbuf.last [8, 9] 2 2) ∧
      (sock1.send_ring.map (fun r => r.objs)) =
        some (if ex_send_sock.send_lastdata.isSome then [pbuf.last [7] 1 1, pbuf.last [6] 1 1]
          else [pbuf.last [7] 1 1, pbuf.last [6] 1 1].tail) ∧
      res.ret = (if ex_send_sock.send_lastdata.isSome then
          [pbuf.last [7] 1 1, pbuf.last [6] 1 1]
        else [pbuf.last [7] 1 1, pbuf.last [6] 1 1].tail).length) ∧
    ∀ (v : send_vars) (q : pbuf) (n : Nat) (has_stack : Bool), send_next v = some q →
      ({ ex_send_env with tcp_sndbuf := fun _ => 1 } : send_env).tcp_sndbuf v.sent % U16_MAX1 <
        q.tot_len →
      ∃ v1, stack_send_loop { ex_send_env with tcp_sndbuf := fun _ => 1 } 0 true has_stack
          (n + 1) v = some v1 ∧
        v1.send_lastdata = some q ∧ v1.sent = v.sent ∧
        v1.send_ring.objs =
          (if v.send_lastdata.isSome then v.send_ring.objs else v.send_ring.objs.tail) ∧
        v1.send_ring.capacity = v.send_ring.capacity :=
  stack_send_backpressure { ex_send_env with tcp_sndbuf := fun _ => 1 } 0
    (ex_state ex_send_sock) 5 0 ex_send_sock
    { capacity := 4, objs := [pbuf.last [7] 1 1, pbuf.last [6] 1 1] } {} 0
    (pbuf.last [8, 9] 2 2) rfl rfl rfl rfl rfl (Or.inl rfl) (by decide)

/-- With an engine that accepts every buffer in full, the loop of `stack_send` drains the
send ring when it starts without send-residue or with `ret` equal to 0. -/
theorem stack_send_loop_drains (env : send_env) (flags : Int)
    (hacc : ∀ hist p, p.tot_len ≤ env.tcp_sndbuf hist % U16_MAX1 ∧
      env.lwip_send hist p flags = (p.tot_len : Int)) :
    ∀ (fuel : Nat) (v : send_vars),
      v.send_ring.objs.length + (if v.send_lastdata.isSome then 1 else 0) < fuel →
      (v.ret = 0 ∨ v.send_lastdata = none) →
      ∃ v1, stack_send_loop env flags true true fuel v = some v1 ∧
        v1.send_ring.objs = [] ∧ v1.send_lastdata = none ∧
        v1.sent = v.sent ++ v.send_lastdata.toList ++ v.send_ring.objs := by
  have hbody : ∀ (p : pbuf) (v : send_vars), v.ret = 0 →
      stack_send_body env flags true true p v =
        some (Sum.inr { v with
          stats := { v.stats with write_lwip_cnt := v.stats.write_lwip_cnt + 1 }
          sent := v.sent ++ [p] }) := by
    intro p v hr
    have h1 : ¬ env.tcp_sndbuf v.sent % U16_MAX1 < p.tot_len := by
      have := (hacc v.sent p).1; omega
    simp [stack_send_body, h1, (hacc v.sent p).2, hr]
  intro fuel
  induction fuel with
  | zero => intro v h; omega
  | succ n ih =>
    intro v hf hret
    unfold stack_send_loop
    cases hl : v.send_lastdata with
    | some p =>
      have hr : v.ret = 0 := by
        rcases hret with h | h
        · exact h
        · rw [hl] at h; cases h
      simp only
      rw [hbody p { v with send_lastdata := none } hr]
      simp only
      simp only [hl, Option.isSome_some, if_true] at hf
      obtain ⟨v1, e1, e2, e3, e4⟩ := ih
        { v with
          send_lastdata := none
          stats := { v.stats with write_lwip_cnt := v.stats.write_lwip_cnt + 1 }
          sent := v.sent ++ [p] }
        (by simp; omega) (Or.inl hr)
      exact ⟨v1, e1, e2, e3, by rw [e4]; simp⟩
    | none =>
      simp only
      cases ho : v.send_ring.objs with
      | nil =>
        simp only [rte_ring_sc_dequeue, ho]
        exact ⟨_, rfl, ho, rfl, by simp⟩
      | cons p rest =>
        simp only [rte_ring_sc_dequeue, ho]
        rw [hbody p _ rfl]
        simp only
        simp only [hl, ho, List.length_cons] at hf
        obtain ⟨v1, e1, e2, e3, e4⟩ := ih
          { send_ring := { capacity := v.send_ring.capacity, objs := rest }, send_lastdata := none, stats := { v.stats with write_lwip_cnt := v.stats.write_lwip_cnt + 1 }, sent := v.sent ++ [p], ret := 0 }
          (by simp; omega) (Or.inl rfl)
        refine ⟨v1, e1, e2, e3, ?_⟩
        rw [e4]; simp

/-- C24 fails on the code: the engine `ex_send_env` accepts every buffer in full; the
descriptor holds the send-residue "8 9" and the buffers "7", "6" in its send ring. The
first round takes the residue and leaves the variable `ret` as it was at entry, since the
source does not initialise it; with a value other than 0 there, the test `while (ret == 0)`
ends the loop after the residue was sent: the call returns 2 and the two buffers are
still in the send ring. Only when `ret` happens to hold 0 does the ring drain. -/
theorem stack_send_residue_stops_drain :
    (stack_send ex_send_env 1 (ex_state ex_send_sock) 5 0).map
        (fun r => (r.ret, r.sent,
          (r.st.sockets 5).map (fun s => (s.send_ring, s.send_lastdata)))) =
      some (2, [pbuf.last [8, 9] 2 2],
        some (some { capacity := 4, objs := [pbuf.last [7] 1 1, pbuf.last [6] 1 1] }, none)) ∧
    (stack_send ex_send_env 0 (ex_state ex_send_sock) 5 0).map
        (fun r => (r.ret, r.sent,
          (r.st.sockets 5).map (fun s => (s.send_ring, s.send_lastdata)))) =
      some (0, [pbuf.last [8, 9] 2 2, pbuf.last [7] 1 1, pbuf.last [6] 1 1],
        some (some { capacity := 4, objs := [] }, none)) := by
  refine ⟨by decide, by decide⟩

end Gazelle
